import Mathlib

set_option maxRecDepth 40000

/-!
A shallow embedding of `frontend/src/app/shared/transaction.utils.ts`:
the transaction codec (decode / serialize / txid), the standardness
validator, the flag classifier and the prioritization detector, together
with theorems settling specification claims about them.

Representation choices:
* JS strings holding hex data are Lean `String`s; byte buffers are
  `List Nat` with entries below 256.
* Script assembly strings ("asm") are kept as their lists of
  space-separated tokens (`List String`); the source joins tokens with a
  single blank and splits on the same blank, so the two views correspond.
* JS `number` values that stay integral are `Int` (or `Nat` where the
  source guarantees non-negativity); the lossy `Number(bigint)`
  conversion is modelled by 53-bit round-to-nearest-even.
* `Math.random()` is modelled by an explicit stream of draws (dyadic
  rationals `k / 2 ^ 53`, kept as their numerators `k`).
-/

deriving instance DecidableEq for Except

namespace TxUtils

/-! ## JS numeric primitives -/

/-- A natural below `2 ^ 32` reinterpreted as a signed 32-bit integer:
the value JS bitwise operators such as `|` produce. -/
def toSigned32 (n : Nat) : Int :=
  if n < 2 ^ 31 then (n : Int) else (n : Int) - 2 ^ 32

/-- A natural below `2 ^ 64` reinterpreted as a signed 64-bit integer:
the value the source's `readInt64` builds with BigInt two's-complement
arithmetic (`(high << 32n) | (low & 0xffffffffn)`, where `high` comes
from a signed 32-bit `|` chain). -/
def toSigned64 (n : Nat) : Int :=
  if n < 2 ^ 63 then (n : Int) else (n : Int) - 2 ^ 64

/-- Floor of the base-2 logarithm, by fuel recursion (the fuel bound `n`
itself always suffices), so that the kernel can evaluate it. -/
def log2Aux : Nat → Nat → Nat
  | 0, _ => 0
  | fuel + 1, n => if n ≤ 1 then 0 else log2Aux fuel (n / 2) + 1

def natLog2 (n : Nat) : Nat := log2Aux n n

/-- Round a natural to the nearest IEEE-754 double (round half to even).
Every integer below `2 ^ 53` is exact; above, the value is rounded to the
granularity forced by the 53-bit mantissa.  Models JS `Number(bigint)`. -/
def roundToDouble (n : Nat) : Nat :=
  if n < 2 ^ 53 then n
  else
    let e := natLog2 n - 52
    let q := 2 ^ e
    let d := n / q
    let r := n % q
    if 2 * r > q then (d + 1) * q
    else if 2 * r = q ∧ d % 2 = 1 then (d + 1) * q
    else d * q

/-- JS `Number(bigint)` on a (possibly negative) integer: IEEE-754
rounding is symmetric around zero. -/
def jsNumberOfInt (i : Int) : Int :=
  if i < 0 then -(roundToDouble i.natAbs : Int) else (roundToDouble i.natAbs : Int)

/-! ## Hex strings and byte lists -/

/-- The lowercase hex digit JS `toString(16)` uses for a value below 16. -/
def hexDigitChar (n : Nat) : Char :=
  if n < 10 then Char.ofNat ('0'.toNat + n) else Char.ofNat ('a'.toNat + (n - 10))

/-- The two hex characters of one byte (source: `byte.toString(16).padStart(2, '0')`);
only applied to values below 256. -/
def byteToHex (b : Nat) : List Char :=
  [hexDigitChar (b / 16 % 16), hexDigitChar (b % 16)]

/-- Source `uint8ArrayToHexString`: a byte list rendered as lowercase hex. -/
def uint8ArrayToHexString (bs : List Nat) : String :=
  ⟨(bs.map byteToHex).flatten⟩

/-- The value of one hex character (JS `parseInt(-, 16)` accepts both cases). -/
def hexCharVal (c : Char) : Option Nat :=
  if '0' ≤ c ∧ c ≤ '9' then some (c.toNat - '0'.toNat)
  else if 'a' ≤ c ∧ c ≤ 'f' then some (c.toNat - 'a'.toNat + 10)
  else if 'A' ≤ c ∧ c ≤ 'F' then some (c.toNat - 'A'.toNat + 10)
  else none

/-- Consecutive pairs of hex characters as bytes; only applied after hex
validation (a non-hex character would be JS `NaN`, never produced here). -/
def hexPairsToBytes : List Char → List Nat
  | c1 :: c2 :: rest =>
      (16 * (hexCharVal c1).getD 0 + (hexCharVal c2).getD 0) :: hexPairsToBytes rest
  | _ => []

/-- Source `hexStringToUint8Array` (always applied to even-length hex). -/
def hexStringToUint8Array (s : String) : List Nat :=
  hexPairsToBytes s.data

/-- The bytes of `l` from position `s` (inclusive) to `e` (exclusive). -/
def listSeg (l : List Nat) (s e : Nat) : List Nat :=
  (l.drop s).take (e - s)

/-- JS `String.prototype.startsWith`, on the character lists. -/
def strStartsWith (s p : String) : Bool := p.data.isPrefixOf s.data

/-- JS `String.prototype.endsWith`, on the character lists. -/
def strEndsWith (s p : String) : Bool := p.data.isSuffixOf s.data

/-- A nonempty all-digit character list as a number. -/
def parseDigitsAux : List Char → Nat → Option Nat
  | [], acc => some acc
  | c :: r, acc =>
      if '0' ≤ c ∧ c ≤ '9' then parseDigitsAux r (acc * 10 + (c.toNat - '0'.toNat))
      else none

def parseDigits : List Char → Option Nat
  | [] => none
  | cs => parseDigitsAux cs 0

/-- Source `intToBytes`: little-endian bytes `(value >> 8*i) & 0xff` of the
32-bit two's-complement representation of `value`. -/
def intToBytes (value : Int) (byteLength : Nat) : List Nat :=
  (List.range byteLength).map (fun i => ((value.emod (2 ^ 32)).toNat >>> (8 * i)) % 256)

/-- Source `bigIntToBytes` (used with `byteLength = 8`): little-endian
two's-complement bytes of a BigInt. -/
def bigIntToBytes (value : Int) (byteLength : Nat) : List Nat :=
  (List.range byteLength).map
    (fun i => ((value.emod (2 ^ (8 * byteLength))).toNat >>> (8 * i)) % 256)

/-- Source `varIntToBytes`, `number` branch (the serializer passes JS
numbers): canonical Bitcoin varint encoding.  The source pushes nothing
for a value at or above `2 ^ 32`. -/
def varIntToBytes (value : Nat) : List Nat :=
  if value < 0xfd then [value]
  else if value ≤ 0xffff then [0xfd, value % 256, (value >>> 8) % 256]
  else if value ≤ 0xffffffff then 0xfe :: intToBytes (value : Int) 4
  else []

/-- Modelled from the spec: `getVarIntLength` from `script.utils` (not under
`src/`), the "varint length overhead" of a value: 1 byte below `0xfd`,
3 up to 16 bits, 5 up to 32 bits, 9 beyond. -/
def getVarIntLength (n : Nat) : Nat :=
  if n < 0xfd then 1
  else if n ≤ 0xffff then 3
  else if n ≤ 0xffffffff then 5
  else 9

/-! ## SHA-256

Modelled from the spec: the "designated 256-bit hash" (`Hash` from
`sha256.ts`, which is not under `src/`) is SHA-256; this is the FIPS-180-4
algorithm, used for transaction identifiers and Base58Check checksums. -/

namespace Sha256

def rotr (n x : Nat) : Nat := ((x >>> n) ||| (x <<< (32 - n))) % 2 ^ 32

def smallSigma0 (x : Nat) : Nat := rotr 7 x ^^^ rotr 18 x ^^^ (x >>> 3)

def smallSigma1 (x : Nat) : Nat := rotr 17 x ^^^ rotr 19 x ^^^ (x >>> 10)

def bigSigma0 (x : Nat) : Nat := rotr 2 x ^^^ rotr 13 x ^^^ rotr 22 x

def bigSigma1 (x : Nat) : Nat := rotr 6 x ^^^ rotr 11 x ^^^ rotr 25 x

def ch (x y z : Nat) : Nat := (x &&& y) ^^^ ((x ^^^ (2 ^ 32 - 1)) &&& z)

def maj (x y z : Nat) : Nat := (x &&& y) ^^^ (x &&& z) ^^^ (y &&& z)

def kConsts : List Nat :=
  [1116352408, 1899447441, 3049323471, 3921009573, 961987163, 1508970993,
   2453635748, 2870763221, 3624381080, 310598401, 607225278, 1426881987,
   1925078388, 2162078206, 2614888103, 3248222580, 3835390401, 4022224774,
   264347078, 604807628, 770255983, 1249150122, 1555081692, 1996064986,
   2554220882, 2821834349, 2952996808, 3210313671, 3336571891, 3584528711,
   113926993, 338241895, 666307205, 773529912, 1294757372, 1396182291,
   1695183700, 1986661051, 2177026350, 2456956037, 2730485921, 2820302411,
   3259730800, 3345764771, 3516065817, 3600352804, 4094571909, 275423344,
   430227734, 506948616, 659060556, 883997877, 958139571, 1322822218,
   1537002063, 1747873779, 1955562222, 2024104815, 2227730452, 2361852424,
   2428436474, 2756734187, 3204031479, 3329325298]

def hInit : List Nat :=
  [1779033703, 3144134277, 1013904242, 2773480762,
   1359893119, 2600822924, 528734635, 1541459225]

/-- Extend a 16-word block by `fuel` scheduled words. -/
def extendLoop : Nat → Array Nat → Array Nat
  | 0, w => w
  | n + 1, w =>
      extendLoop n (w.push
        ((smallSigma1 (w.getD (w.size - 2) 0) + w.getD (w.size - 7) 0 +
          smallSigma0 (w.getD (w.size - 15) 0) + w.getD (w.size - 16) 0) % 2 ^ 32))

/-- One compression round; `kw` is `k[i] + w[i]` reduced mod `2 ^ 32`. -/
def roundStep (st : List Nat) (kw : Nat) : List Nat :=
  match st with
  | [a, b, c, d, e, f, g, h] =>
      let t1 := (h + bigSigma1 e + ch e f g + kw) % 2 ^ 32
      let t2 := (bigSigma0 a + maj a b c) % 2 ^ 32
      [(t1 + t2) % 2 ^ 32, a, b, c, (d + t1) % 2 ^ 32, e, f, g]
  | other => other

def compress (st : List Nat) (block : List Nat) : List Nat :=
  let w := extendLoop 48 block.toArray
  let final := (List.range 64).foldl
    (fun s i => roundStep s ((kConsts.getD i 0 + w.getD i 0) % 2 ^ 32)) st
  (st.zip final).map (fun p => (p.1 + p.2) % 2 ^ 32)

def bytesToWordsBE : List Nat → List Nat
  | a :: b :: c :: d :: rest =>
      (a * 2 ^ 24 + b * 2 ^ 16 + c * 256 + d) :: bytesToWordsBE rest
  | _ => []

def wordToBytesBE (v : Nat) : List Nat :=
  [(v >>> 24) % 256, (v >>> 16) % 256, (v >>> 8) % 256, v % 256]

/-- FIPS-180-4 padding: `0x80`, zeros to 56 mod 64, 8-byte big-endian bit length. -/
def pad (msg : List Nat) : List Nat :=
  let zeros := (119 - msg.length % 64) % 64
  let bits := 8 * msg.length
  msg ++ 0x80 :: List.replicate zeros 0 ++
    (List.range 8).map (fun i => (bits >>> (8 * (7 - i))) % 256)

def processBlocks : Nat → List Nat → List Nat → List Nat
  | 0, _, st => st
  | n + 1, w, st => processBlocks n (w.drop 16) (compress st (w.take 16))

def sha256 (msg : List Nat) : List Nat :=
  let words := bytesToWordsBE (pad msg)
  ((processBlocks (words.length / 16) words hInit).map wordToBytesBE).flatten

end Sha256

/-! ## secp256k1 point check -/

/-- Fast modular exponentiation, by fuel recursion (`e + 1` steps always
suffice since the exponent halves each step), so that the kernel can
evaluate it. -/
def modPowAux : Nat → Nat → Nat → Nat → Nat
  | 0, _, _, m => 1 % m
  | fuel + 1, b, e, m =>
      if e = 0 then 1 % m
      else
        let h := modPowAux fuel ((b * b) % m) (e / 2) m
        if e % 2 = 1 then (h * b) % m else h

def modPow (b e m : Nat) : Nat := modPowAux (e + 1) b e m

/-- The secp256k1 field order. -/
def secpP : Nat := 2 ^ 256 - 2 ^ 32 - 977

/-- Big-endian value of a byte list. -/
def beNat (bs : List Nat) : Nat := bs.foldl (fun a b => a * 256 + b) 0

/-- Modelled from the spec: `isPoint` from `script.utils` (not under `src/`):
whether a hex public key is a valid SEC-encoded point on the secp256k1
curve — compressed (`02`/`03` prefix, 33 bytes, x below the field order
with `x^3 + 7` a quadratic residue) or uncompressed (`04` prefix, 65 bytes,
`y^2 = x^3 + 7` in the field). -/
def isPoint (s : String) : Bool :=
  if ¬ s.data.all (fun c => (hexCharVal c).isSome) then false
  else
    let bs := hexPairsToBytes s.data
    if s.length = 66 ∧ (bs.headD 0 = 2 ∨ bs.headD 0 = 3) then
      let x := beNat bs.tail
      let c := (x ^ 3 + 7) % secpP
      decide (x < secpP) &&
        (decide (c = 0) || decide (modPow c ((secpP - 1) / 2) secpP = 1))
    else if s.length = 130 ∧ bs.headD 0 = 4 then
      let x := beNat (bs.tail.take 32)
      let y := beNat (bs.tail.drop 32)
      decide (x < secpP) && decide (y < secpP) &&
        ((y ^ 2) % secpP = (x ^ 3 + 7) % secpP)
    else false

/-- Modelled from the spec: `parseMultisigScript` from `script.utils` (not
under `src/`): read `m` and `n` from a bare-multisig disassembly of shape
`OP_PUSHNUM_m <n pubkeys> OP_PUSHNUM_n OP_CHECKMULTISIG`; `none` when the
script does not have that shape. -/
def parsePushNum (t : String) : Option Nat :=
  if t = "OP_0" then some 0
  else
    match t.data with
    | 'O' :: 'P' :: '_' :: 'P' :: 'U' :: 'S' :: 'H' :: 'N' :: 'U' :: 'M' :: '_' :: rest =>
        parseDigits rest
    | _ => none

def parseMultisigScript (asm : List String) : Option (Nat × Nat) :=
  match asm.reverse with
  | "OP_CHECKMULTISIG" :: nTok :: rest =>
      match parsePushNum nTok, rest.reverse with
      | some n, mTok :: keys =>
          match parsePushNum mTok with
          | some m => if keys.length = n then some (m, n) else none
          | none => none
      | _, _ => none
  | _ => none

/-! ## TransactionFlags

Modelled from the spec: the `TransactionFlags` bit constants come from
`filters.utils` (not under `src/`); the spec describes an opaque bitfield
in which "each bit is a named semantic tag", so each named tag is assigned
one distinct bit. -/

namespace TransactionFlags

def rbf : Nat := 1 <<< 0
def no_rbf : Nat := 1 <<< 1
def v1 : Nat := 1 <<< 2
def v2 : Nat := 1 <<< 3
def v3 : Nat := 1 <<< 4
def nonstandard : Nat := 1 <<< 5
def p2pk : Nat := 1 <<< 6
def p2ms : Nat := 1 <<< 7
def p2pkh : Nat := 1 <<< 8
def p2sh : Nat := 1 <<< 9
def p2wpkh : Nat := 1 <<< 10
def p2wsh : Nat := 1 <<< 11
def p2tr : Nat := 1 <<< 12
def op_return : Nat := 1 <<< 13
def fake_pubkey : Nat := 1 <<< 14
def fake_scripthash : Nat := 1 <<< 15
def inscription : Nat := 1 <<< 16
def cpfp_parent : Nat := 1 <<< 17
def cpfp_child : Nat := 1 <<< 18
def replacement : Nat := 1 <<< 19
def coinjoin : Nat := 1 <<< 20
def consolidation : Nat := 1 <<< 21
def batch_payout : Nat := 1 <<< 22
def sighash_all : Nat := 1 <<< 23
def sighash_none : Nat := 1 <<< 24
def sighash_single : Nat := 1 <<< 25
def sighash_default : Nat := 1 <<< 26
def sighash_acp : Nat := 1 <<< 27

end TransactionFlags

/-! ## Data model (the electrs-interface `Transaction`, `Vin`, `Vout`)

Hex-string fields (`txid`, `scriptsig`, `scriptpubkey`, witness items)
are Lean `String`s; the codec only ever stores even-length lowercase hex
in them.  Optional fields are `Option` (`none` = JS `undefined`). -/

structure Prevout where
  scriptpubkey : String
  scriptpubkey_asm : List String
  scriptpubkey_type : String
  scriptpubkey_address : Option String
  value : Int
  deriving DecidableEq

structure Vin where
  txid : String
  vout : Nat
  scriptsig : String
  scriptsig_asm : List String
  sequence : Nat
  is_coinbase : Bool
  prevout : Option Prevout
  witness : Option (List String)
  inner_redeemscript_asm : Option (List String)
  inner_witnessscript_asm : Option (List String)
  deriving DecidableEq

structure Vout where
  value : Int
  scriptpubkey : String
  scriptpubkey_asm : List String
  scriptpubkey_type : String
  scriptpubkey_address : Option String
  deriving DecidableEq

structure TxStatus where
  confirmed : Option Bool
  block_height : Option Int
  deriving DecidableEq

structure Transaction where
  version : Int
  locktime : Nat
  vin : List Vin
  vout : List Vout
  size : Nat
  weight : Int
  sigops : Option Nat
  flags : Option Nat
  txid : String
  status : TxStatus
  deriving DecidableEq

/-! ## Opcode table (source `opcodes`: byte value to mnemonic) -/

def opcodes : Nat → Option String
  | 0 => some "OP_0"
  | 76 => some "OP_PUSHDATA1"
  | 77 => some "OP_PUSHDATA2"
  | 78 => some "OP_PUSHDATA4"
  | 79 => some "OP_PUSHNUM_NEG1"
  | 80 => some "OP_RESERVED"
  | 81 => some "OP_PUSHNUM_1"
  | 82 => some "OP_PUSHNUM_2"
  | 83 => some "OP_PUSHNUM_3"
  | 84 => some "OP_PUSHNUM_4"
  | 85 => some "OP_PUSHNUM_5"
  | 86 => some "OP_PUSHNUM_6"
  | 87 => some "OP_PUSHNUM_7"
  | 88 => some "OP_PUSHNUM_8"
  | 89 => some "OP_PUSHNUM_9"
  | 90 => some "OP_PUSHNUM_10"
  | 91 => some "OP_PUSHNUM_11"
  | 92 => some "OP_PUSHNUM_12"
  | 93 => some "OP_PUSHNUM_13"
  | 94 => some "OP_PUSHNUM_14"
  | 95 => some "OP_PUSHNUM_15"
  | 96 => some "OP_PUSHNUM_16"
  | 97 => some "OP_NOP"
  | 98 => some "OP_VER"
  | 99 => some "OP_IF"
  | 100 => some "OP_NOTIF"
  | 101 => some "OP_VERIF"
  | 102 => some "OP_VERNOTIF"
  | 103 => some "OP_ELSE"
  | 104 => some "OP_ENDIF"
  | 105 => some "OP_VERIFY"
  | 106 => some "OP_RETURN"
  | 107 => some "OP_TOALTSTACK"
  | 108 => some "OP_FROMALTSTACK"
  | 109 => some "OP_2DROP"
  | 110 => some "OP_2DUP"
  | 111 => some "OP_3DUP"
  | 112 => some "OP_2OVER"
  | 113 => some "OP_2ROT"
  | 114 => some "OP_2SWAP"
  | 115 => some "OP_IFDUP"
  | 116 => some "OP_DEPTH"
  | 117 => some "OP_DROP"
  | 118 => some "OP_DUP"
  | 119 => some "OP_NIP"
  | 120 => some "OP_OVER"
  | 121 => some "OP_PICK"
  | 122 => some "OP_ROLL"
  | 123 => some "OP_ROT"
  | 124 => some "OP_SWAP"
  | 125 => some "OP_TUCK"
  | 126 => some "OP_CAT"
  | 127 => some "OP_SUBSTR"
  | 128 => some "OP_LEFT"
  | 129 => some "OP_RIGHT"
  | 130 => some "OP_SIZE"
  | 131 => some "OP_INVERT"
  | 132 => some "OP_AND"
  | 133 => some "OP_OR"
  | 134 => some "OP_XOR"
  | 135 => some "OP_EQUAL"
  | 136 => some "OP_EQUALVERIFY"
  | 137 => some "OP_RESERVED1"
  | 138 => some "OP_RESERVED2"
  | 139 => some "OP_1ADD"
  | 140 => some "OP_1SUB"
  | 141 => some "OP_2MUL"
  | 142 => some "OP_2DIV"
  | 143 => some "OP_NEGATE"
  | 144 => some "OP_ABS"
  | 145 => some "OP_NOT"
  | 146 => some "OP_0NOTEQUAL"
  | 147 => some "OP_ADD"
  | 148 => some "OP_SUB"
  | 149 => some "OP_MUL"
  | 150 => some "OP_DIV"
  | 151 => some "OP_MOD"
  | 152 => some "OP_LSHIFT"
  | 153 => some "OP_RSHIFT"
  | 154 => some "OP_BOOLAND"
  | 155 => some "OP_BOOLOR"
  | 156 => some "OP_NUMEQUAL"
  | 157 => some "OP_NUMEQUALVERIFY"
  | 158 => some "OP_NUMNOTEQUAL"
  | 159 => some "OP_LESSTHAN"
  | 160 => some "OP_GREATERTHAN"
  | 161 => some "OP_LESSTHANOREQUAL"
  | 162 => some "OP_GREATERTHANOREQUAL"
  | 163 => some "OP_MIN"
  | 164 => some "OP_MAX"
  | 165 => some "OP_WITHIN"
  | 166 => some "OP_RIPEMD160"
  | 167 => some "OP_SHA1"
  | 168 => some "OP_SHA256"
  | 169 => some "OP_HASH160"
  | 170 => some "OP_HASH256"
  | 171 => some "OP_CODESEPARATOR"
  | 172 => some "OP_CHECKSIG"
  | 173 => some "OP_CHECKSIGVERIFY"
  | 174 => some "OP_CHECKMULTISIG"
  | 175 => some "OP_CHECKMULTISIGVERIFY"
  | 176 => some "OP_NOP1"
  | 177 => some "OP_CHECKLOCKTIMEVERIFY"
  | 178 => some "OP_CHECKSEQUENCEVERIFY"
  | 179 => some "OP_NOP4"
  | 180 => some "OP_NOP5"
  | 181 => some "OP_NOP6"
  | 182 => some "OP_NOP7"
  | 183 => some "OP_NOP8"
  | 184 => some "OP_NOP9"
  | 185 => some "OP_NOP10"
  | 186 => some "OP_CHECKSIGADD"
  | 253 => some "OP_PUBKEYHASH"
  | 254 => some "OP_PUBKEY"
  | 255 => some "OP_INVALIDOPCODE"
  | _ => none

/-- JS property lookup `opcodes[op]` with a *string* key `op` (as the
standardness validator does): the object's keys are numbers, so the lookup
hits only when `op` is the canonical decimal numeral of a table key. -/
def opcodesStrKey (s : String) : Option String :=
  match parseDigits s.data with
  | some n => if Nat.repr n = s then opcodes n else none
  | none => none

/-! ## countScriptSigops -/

/-- Non-overlapping occurrences of `pat` in `s`, scanning left to right
(JS `String.match` with a global literal pattern).  Fuel recursion with
fuel `s.length`, which suffices for a nonempty pattern. -/
def countSubstrAux (pat : List Char) : Nat → List Char → Nat
  | 0, _ => 0
  | _ + 1, [] => 0
  | fuel + 1, c :: rest =>
      if pat.isPrefixOf (c :: rest) then
        1 + countSubstrAux pat fuel ((c :: rest).drop pat.length)
      else countSubstrAux pat fuel rest

def countSubstr (pat : String) (s : String) : Nat :=
  countSubstrAux pat.data s.data.length s.data

/-- The digits of a token of shape `OP_<digits>` or `OP_PUSHNUM_<digits>`,
the only shapes the optional group of the source's regex
`(?:OP_(?:PUSHNUM_)?(\d+))? OP_CHECKMULTISIG` can take on disassembler
tokens (the regex could in principle match a strict suffix of a token, but
no token the disassembler produces has such a suffix). -/
def multisigPrevNum (t : String) : Option Nat :=
  match t.data with
  | 'O' :: 'P' :: '_' :: 'P' :: 'U' :: 'S' :: 'H' :: 'N' :: 'U' :: 'M' :: '_' :: rest =>
      parseDigits rest
  | 'O' :: 'P' :: '_' :: rest => parseDigits rest
  | _ => none

/-- The `matchAll` loop of `countScriptSigops`: each token that begins
`OP_CHECKMULTISIG` and is preceded by another token is one match, worth
the preceding token's small number when it has one, else 20. -/
def multisigSigops : List String → Nat
  | a :: b :: rest =>
      (if strStartsWith b "OP_CHECKMULTISIG" then
        match multisigPrevNum a with
        | some n => n
        | none => 20
      else 0) + multisigSigops (b :: rest)
  | _ => 0

/-- Source `countScriptSigops` on the token list of an asm string.  The
patterns `OP_CHECKSIG` / `OP_CHECKMULTISIG` contain no blank, so counting
occurrences per token equals counting in the blank-joined string. -/
def countScriptSigops (script : List String) (isRawScript : Bool := false)
    (witness : Bool := false) : Nat :=
  if script.isEmpty then 0
  else
    let checksig := (script.map (fun t => countSubstr "OP_CHECKSIG" t)).sum
    let ms :=
      if isRawScript then
        20 * (script.map (fun t => countSubstr "OP_CHECKMULTISIG" t)).sum
      else multisigSigops script
    let sigops := checksig + ms
    if witness then sigops else sigops * 4

/-! ## Standardness validator -/

def MAX_STANDARD_TX_WEIGHT : Nat := 400000

def MAX_BLOCK_SIGOPS_COST : Nat := 80000

def MAX_STANDARD_TX_SIGOPS_COST : Nat := MAX_BLOCK_SIGOPS_COST / 5

def MIN_STANDARD_TX_NONWITNESS_SIZE : Nat := 65

def MAX_P2SH_SIGOPS : Nat := 15

def MAX_STANDARD_SCRIPTSIG_SIZE : Nat := 1650

def DUST_RELAY_TX_FEE : Nat := 3

def MAX_OP_RETURN_RELAY : Nat := 83

def DEFAULT_PERMIT_BAREMULTISIG : Bool := true

/-- Source `V3_STANDARDNESS_ACTIVATION_HEIGHT` (string-keyed object; any
other key reads JS `undefined`, and inherited `Object.prototype` entries
are non-numbers that fail the height comparison just like `undefined`). -/
def V3_STANDARDNESS_ACTIVATION_HEIGHT (network : String) : Option Nat :=
  if network = "testnet4" then some 42000
  else if network = "testnet" then some 2900000
  else if network = "signet" then some 211000
  else if network = "" then some 863500
  else none

/-- Source `ANCHOR_STANDARDNESS_ACTIVATION_HEIGHT` (same table). -/
def ANCHOR_STANDARDNESS_ACTIVATION_HEIGHT (network : String) : Option Nat :=
  V3_STANDARDNESS_ACTIVATION_HEIGHT network

/-- Source `isNonStandardVersion`. -/
def isNonStandardVersion (tx : Transaction) (height : Option Int)
    (network : Option String) : Bool :=
  let limit : Int :=
    match height, network with
    | some h, some n =>
        match V3_STANDARDNESS_ACTIVATION_HEIGHT n with
        | some a => if h ≤ (a : Int) then 2 else 3
        | none => 3
    | _, _ => 3
  decide (tx.version > limit)

/-- Source `isNonStandardAnchor`: fires purely from the height/network
gate; the transaction argument is unused, exactly as in the source. -/
def isNonStandardAnchor (_tx : Transaction) (height : Option Int)
    (network : Option String) : Bool :=
  match height, network with
  | some h, some n =>
      match ANCHOR_STANDARDNESS_ACTIVATION_HEIGHT n with
      | some a => decide (h ≤ (a : Int))
      | none => false
  | _, _ => false

/-- Source `isWitnessProgram` on the hex scriptpubkey: `none` for `false`,
`some (version, program)` otherwise. -/
def isWitnessProgram (scriptpubkey : String) : Option (Nat × String) :=
  if scriptpubkey.length < 8 ∨ scriptpubkey.length > 84 then none
  else
    let version := 16 * (hexCharVal (scriptpubkey.data.getD 0 '0')).getD 0 +
      (hexCharVal (scriptpubkey.data.getD 1 '0')).getD 0
    if (version ≠ 0 ∧ version < 0x51) ∨ version > 0x60 then none
    else
      let push := 16 * (hexCharVal (scriptpubkey.data.getD 2 '0')).getD 0 +
        (hexCharVal (scriptpubkey.data.getD 3 '0')).getD 0
      if 2 * (push + 2) = scriptpubkey.length then
        some (if version ≠ 0 then version - 0x50 else 0, ⟨scriptpubkey.data.drop 4⟩)
      else none

/-- `getVarIntLength(hexLen / 2)` without forming the possibly fractional
half (the JS half is exact on the even lengths the codec produces and the
comparisons below reproduce it for odd lengths too). -/
def varIntLenOfHexLen (hexLen : Nat) : Nat :=
  if hexLen < 2 * 0xfd then 1
  else if hexLen ≤ 2 * 0xffff then 3
  else if hexLen ≤ 2 * 0xffffffff then 5
  else 9

/-- The loop body of `getNonWitnessSize`: one input's witness-size
subtraction (in doubled units), skipped for a missing or empty stack. -/
def nwsStep (acc : Int × Bool) (vin : Vin) : Int × Bool :=
  match vin.witness with
  | some items =>
      if items.length ≠ 0 then
        (acc.1 - 2 * (getVarIntLength items.length : Int) -
          ((items.map (fun w => 2 * varIntLenOfHexLen w.length + w.length)).sum : Int),
          true)
      else acc
  | none => acc

/-- Source `getNonWitnessSize`, carried in doubled units so the JS
halved hex lengths stay exact; the final `Math.ceil(weight / 4)` becomes a
ceiling division by 8 of the doubled total. -/
def getNonWitnessSize (tx : Transaction) : Int :=
  let fin := tx.vin.foldl nwsStep (2 * tx.weight, false)
  let w2 := if fin.2 then fin.1 - 4 else fin.1
  (w2 + 7).fdiv 8

/-- The `tx.sigops && tx.sigops > MAX_STANDARD_TX_SIGOPS_COST` check
(`undefined` and `0` are falsy). -/
def sigopsNonStandard (tx : Transaction) : Bool :=
  match tx.sigops with
  | some s => decide (s ≠ 0) && decide (s > MAX_STANDARD_TX_SIGOPS_COST)
  | none => false

/-- JS `x > undefined` is false for every `x`; the source compares
`opcodes[op] > opcodes['OP_16']` where the right side is `undefined`
(`opcodes` is keyed by byte values, not mnemonics). -/
def jsRelGtUndef (_v : String) : Bool := false

/-- The scriptsig-not-pushonly loop.  Because `opcodes['OP_16']` is
`undefined`, the comparison never holds and the loop never returns. -/
def scriptsigNotPushonly (asm : List String) : Bool :=
  asm.any (fun op =>
    match opcodesStrKey op with
    | some v => jsRelGtUndef v
    | none => false)

def prevoutType (vin : Vin) : Option String := vin.prevout.map (·.scriptpubkey_type)

/-- One iteration of the input-validation loop of `isNonStandard`:
`some b` = the whole function returns `b` here, `none` = continue. -/
def checkVin (tx : Transaction) (height : Option Int) (network : Option String)
    (vin : Vin) : Option Bool :=
  if vin.is_coinbase then some false
  else if vin.scriptsig.length > 2 * MAX_STANDARD_SCRIPTSIG_SIZE then some true
  else if ¬ vin.scriptsig_asm.isEmpty ∧ scriptsigNotPushonly vin.scriptsig_asm then some true
  else if prevoutType vin = some "p2sh" then
    if countScriptSigops (vin.inner_redeemscript_asm.getD []) / 4 > MAX_P2SH_SIGOPS then
      some true
    else none
  else if (prevoutType vin).getD "" ∈ (["unknown", "provably_unspendable", "empty"] : List String) then
    some true
  else if isNonStandardAnchor tx height network then some true
  else none

def vinLoop (tx : Transaction) (height : Option Int) (network : Option String) :
    List Vin → Option Bool
  | [] => none
  | v :: rest =>
      match checkVin tx height network v with
      | some b => some b
      | none => vinLoop tx height network rest

/-- The doubled dust size of a non-`op_return` output's scriptpubkey:
`2 * (hexLen/2 + getVarIntLength(hexLen/2) + 8 + (67 or 148))`. -/
def dustSize2 (spk : String) : Nat :=
  spk.length + 2 * varIntLenOfHexLen spk.length + 16 +
    (if (isWitnessProgram spk).isSome then 134 else 296)

/-- The scriptpubkey-type checks at the head of one output iteration of
`isNonStandard`: `none` = the whole function returns `true` here,
`some c` = fall through to the dust check with `c` as the running
`op_return` count. -/
def voutTypeCheck (count : Nat) (vout : Vout) : Option Nat :=
  let t := vout.scriptpubkey_type
  if t ∈ (["nonstandard", "provably_unspendable", "empty"] : List String) then none
  else if t = "unknown" then
    if strStartsWith vout.scriptpubkey "00" then none
    else if (isWitnessProgram vout.scriptpubkey).isNone then none
    else some count
  else if t = "multisig" then
    if ¬ DEFAULT_PERMIT_BAREMULTISIG then none
    else
      match parseMultisigScript vout.scriptpubkey_asm with
      | none => none
      | some (m, n) => if n < 1 ∨ n > 3 ∨ m < 1 ∨ m > n then none else some count
  else if t = "op_return" then
    if vout.scriptpubkey.length > 2 * MAX_OP_RETURN_RELAY then none else some (count + 1)
  else some count

/-- One iteration of the output-validation loop of `isNonStandard`: the
type checks, then the dust check for non-`op_return` outputs. -/
def voutStep (count : Nat) (vout : Vout) : Option Nat :=
  match voutTypeCheck count vout with
  | none => none
  | some c =>
      if vout.scriptpubkey_type ≠ "op_return" then
        if 2 * vout.value < 3 * (dustSize2 vout.scriptpubkey : Int) then none else some c
      else some c

def voutLoop : Nat → List Vout → Option Nat
  | count, [] => some count
  | count, v :: rest =>
      match voutStep count v with
      | none => none
      | some c => voutLoop c rest

/-- Source `isNonStandard`. -/
def isNonStandard (tx : Transaction) (height : Option Int := none)
    (network : Option String := none) : Bool :=
  if isNonStandardVersion tx height network then true
  else if tx.weight > (MAX_STANDARD_TX_WEIGHT : Int) then true
  else if getNonWitnessSize tx < (MIN_STANDARD_TX_NONWITNESS_SIZE : Int) then true
  else if sigopsNonStandard tx then true
  else
    match vinLoop tx height network tx.vin with
    | some b => b
    | none =>
        match voutLoop 0 tx.vout with
        | none => true
        | some opreturnCount => decide (opreturnCount > 1)

/-! ## Sighash heuristics -/

/-- The byte at hex position `i` of a hex string (`parseInt(s.slice(2i, 2i+2), 16)`);
only meaningful on the lowercase hex the codec stores. -/
def hexByteAt (s : String) (i : Nat) : Nat :=
  16 * (hexCharVal (s.data.getD (2 * i) '0')).getD 0 +
    (hexCharVal (s.data.getD (2 * i + 1) '0')).getD 0

/-- JS `s.slice(-2)`: the last two characters (the whole string when shorter). -/
def lastTwoChars (s : String) : String := ⟨s.data.drop (s.length - 2)⟩

/-- Source `isDERSig`. -/
def isDERSig (w : String) : Bool :=
  decide (w.length ≥ 18) && strStartsWith w "30" &&
    decide (lastTwoChars w ∈ (["01", "02", "03", "81", "82", "83"] : List String)) &&
    decide (w.length = 2 * hexByteAt w 1 + 6)

/-- Source `setSighashFlags`. -/
def setSighashFlags (flags : Nat) (signature : String) : Nat :=
  let s := lastTwoChars signature
  if s = "01" then flags ||| TransactionFlags.sighash_all
  else if s = "02" then flags ||| TransactionFlags.sighash_none
  else if s = "03" then flags ||| TransactionFlags.sighash_single
  else if s = "81" then flags ||| TransactionFlags.sighash_all ||| TransactionFlags.sighash_acp
  else if s = "82" then flags ||| TransactionFlags.sighash_none ||| TransactionFlags.sighash_acp
  else if s = "83" then flags ||| TransactionFlags.sighash_single ||| TransactionFlags.sighash_acp
  else flags ||| TransactionFlags.sighash_default

/-- Source `setSchnorrSighashFlags` (`witness` may be JS `undefined`). -/
def setSchnorrSighashFlags (flags : Nat) (witness : Option (List String)) : Nat :=
  match witness with
  | none => flags
  | some w =>
      if w.isEmpty then flags
      else
        let hasAnnex := decide (w.length > 1) && strStartsWith (w.getLastD "") "50"
        if w.length = (if hasAnnex then 2 else 1) then
          if (w.headD "").length = 130 then flags ||| setSighashFlags flags (w.headD "")
          else flags ||| TransactionFlags.sighash_default
        else
          (List.range (w.length - (if hasAnnex then 3 else 2))).foldl
            (fun fl i =>
              let wi := w.getD i ""
              if wi.length = 130 then fl ||| setSighashFlags fl wi
              else if wi.length = 128 then fl ||| TransactionFlags.sighash_default
              else fl) flags

/-- Source `setSegwitSighashFlags`. -/
def setSegwitSighashFlags (flags : Nat) (witness : List String) : Nat :=
  witness.foldl (fun fl w => if isDERSig w then fl ||| setSighashFlags fl w else fl) flags

/-- Source `setLegacySighashFlags` on the scriptsig disassembly tokens. -/
def setLegacySighashFlags (flags : Nat) (scriptsig_asm : List String) : Nat :=
  scriptsig_asm.foldl
    (fun fl item =>
      if strStartsWith item "OP_" then fl
      else if isDERSig item then fl ||| setSighashFlags fl item
      else fl) flags

/-- Source `isBurnKey`. -/
def isBurnKey (pubkey : String) : Bool :=
  pubkey ∈ (["022222222222222222222222222222222222222222222222222222222222222222",
    "033333333333333333333333333333333333333333333333333333333333333333",
    "020202020202020202020202020202020202020202020202020202020202020202",
    "030303030303030303030303030303030303030303030303030303030303030303"] : List String)

/-! ## Flag classifier -/

structure CpfpInfo where
  ancestors : List String
  descendants : Option (List String)
  deriving DecidableEq

def assocGet {α : Type} [DecidableEq α] (m : List (α × Nat)) (k : α) : Option Nat :=
  (m.find? (fun p => decide (p.1 = k))).map (·.2)

def assocSet {α : Type} [DecidableEq α] (m : List (α × Nat)) (k : α) (v : Nat) :
    List (α × Nat) :=
  if m.any (fun p => decide (p.1 = k)) then
    m.map (fun p => if p.1 = k then (k, v) else p)
  else m ++ [(k, v)]

/-- The key a number contributes to a JS object keyed by numbers: distinct
numbers give distinct property names.  `Math.random()` yields dyadic
rationals `k / 2 ^ 53` with `k < 2 ^ 53`, so every key in play is an
integer multiple of `2 ^ (-53)`; keys are scaled by `2 ^ 53` to stay
integral: an (integer, satoshi) value `v` becomes `v * 2 ^ 53`, a random
draw keeps its numerator. -/
def valueKey (v : Int) : Int := v * 2 ^ 53

/-- The source line `map[x.value || Math.random()] = (map[x.value || Math.random()] || 0) + 1`:
the key expression is evaluated before the right-hand side, so a falsy
value (absent prevout, value 0) draws two stream elements — the first
becomes the stored key, the second is only looked up.  `rng` is the
stream of `Math.random()` numerators. -/
def jsValueBump (rng : Nat → Nat) (m : List (Int × Nat)) (ri : Nat) (value : Option Int) :
    List (Int × Nat) × Nat :=
  let truthy : Option Int :=
    match value with
    | some v => if v ≠ 0 then some (valueKey v) else none
    | none => none
  match truthy with
  | some k => (assocSet m k ((assocGet m k).getD 0 + 1), ri)
  | none =>
      let k1 : Int := rng ri
      let k2 : Int := rng (ri + 1)
      (assocSet m k1 ((assocGet m k2).getD 0 + 1), ri + 2)

/-- Whether the blank-joined disassembly contains the substring
`"OP_0 OP_IF"`: some token ends in `OP_0` and the next begins `OP_IF`
(tokens themselves contain no blank). -/
def asmIncludesOp0OpIf : List String → Bool
  | a :: b :: rest =>
      (strEndsWith a "OP_0" && strStartsWith b "OP_IF") || asmIncludesOp0OpIf (b :: rest)
  | _ => false

structure VinScanState where
  flags : Nat
  rbf : Bool
  reusedInputAddresses : List (String × Nat)
  inValues : List (Int × Nat)
  ri : Nat

/-- The script-type / inscription stage of the input loop: the `switch` on
the prevout type. -/
def vinScriptFlags (flags : Nat) (vin : Vin) : Nat :=
  match prevoutType vin with
  | some "p2pk" => flags ||| TransactionFlags.p2pk
  | some "multisig" => flags ||| TransactionFlags.p2ms
  | some "p2pkh" => flags ||| TransactionFlags.p2pkh
  | some "p2sh" => flags ||| TransactionFlags.p2sh
  | some "v0_p2wpkh" => flags ||| TransactionFlags.p2wpkh
  | some "v0_p2wsh" => flags ||| TransactionFlags.p2wsh
  | some "v1_p2tr" =>
      let fl := flags ||| TransactionFlags.p2tr
      match vin.witness with
      | some w =>
          if w.length ≠ 0 then
            let hasAnnex := strStartsWith (w.getLastD "") "50"
            if w.length > (if hasAnnex then 2 else 1) then
              match vin.inner_witnessscript_asm with
              | some asm => if asmIncludesOp0OpIf asm then fl ||| TransactionFlags.inscription else fl
              | none => fl
            else fl
          else fl
      | none => fl
  | _ => flags

/-- The sighash stage of the input loop. -/
def vinSigFlags (flags : Nat) (vin : Vin) : Nat :=
  if prevoutType vin = some "v1_p2tr" then flags ||| setSchnorrSighashFlags flags vin.witness
  else
    match vin.witness with
    | some w => flags ||| setSegwitSighashFlags flags w
    | none =>
        if vin.scriptsig.length ≠ 0 then flags ||| setLegacySighashFlags flags vin.scriptsig_asm
        else flags

/-- One iteration of the input loop of `getTransactionFlags`. -/
def vinStepFlags (rng : Nat → Nat) (st : VinScanState) (vin : Vin) : VinScanState :=
  let rbf := if vin.sequence < 0xfffffffe then true else st.rbf
  let flags := vinSigFlags (vinScriptFlags st.flags vin) vin
  let reused :=
    match vin.prevout with
    | some pv =>
        match pv.scriptpubkey_address with
        | some a =>
            if a ≠ "" then
              assocSet st.reusedInputAddresses a ((assocGet st.reusedInputAddresses a).getD 0 + 1)
            else st.reusedInputAddresses
        | none => st.reusedInputAddresses
    | none => st.reusedInputAddresses
  let bumped := jsValueBump rng st.inValues st.ri (vin.prevout.map (·.value))
  { flags := flags, rbf := rbf, reusedInputAddresses := reused,
    inValues := bumped.1, ri := bumped.2 }

structure VoutScanState where
  flags : Nat
  hasFakePubkey : Bool
  reusedOutputAddresses : List (String × Nat)
  outValues : List (Int × Nat)
  p2wshCount : Nat
  olgaSize : Nat
  ri : Nat

/-- JS `s.slice(2, -2)`. -/
def sliceDropEnds (s : String) : String := ⟨(s.data.take (s.length - 2)).drop 2⟩

/-- The script-type stage of the output loop (flags half of the `switch`). -/
def voutTypeFlags (flags : Nat) (vout : Vout) : Nat :=
  match vout.scriptpubkey_type with
  | "p2pk" => flags ||| TransactionFlags.p2pk
  | "multisig" => flags ||| TransactionFlags.p2ms
  | "p2pkh" => flags ||| TransactionFlags.p2pkh
  | "p2sh" => flags ||| TransactionFlags.p2sh
  | "v0_p2wpkh" => flags ||| TransactionFlags.p2wpkh
  | "v0_p2wsh" => flags ||| TransactionFlags.p2wsh
  | "v1_p2tr" => flags ||| TransactionFlags.p2tr
  | "op_return" => flags ||| TransactionFlags.op_return
  | _ => flags

/-- The fake-pubkey stage of the output loop (boolean half of the `switch`). -/
def voutFakePubkey (hf : Bool) (vout : Vout) : Bool :=
  match vout.scriptpubkey_type with
  | "p2pk" => hf || ! isPoint (sliceDropEnds vout.scriptpubkey)
  | "multisig" =>
      vout.scriptpubkey_asm.foldl
        (fun h key =>
          if ¬ h ∧ ¬ strStartsWith key "OP_" then
            h || (isBurnKey key || ! isPoint key)
          else h) hf
  | _ => hf

/-- The OLGA / fake-scripthash stage of the output loop: returns the new
`p2wshCount`, the new `olgaSize`, and the updated flags. -/
def voutOlga (flags : Nat) (cnt0 olga0 : Nat) (vout : Vout) : Nat × Nat × Nat :=
  if vout.scriptpubkey_type = "v0_p2wsh" then
    let olga := if cnt0 = 0 then 256 * hexByteAt vout.scriptpubkey 2 + hexByteAt vout.scriptpubkey 3
      else olga0
    let cnt := cnt0 + 1
    let fl :=
      if cnt = (olga + 2 + 31) / 32 then
        let nullBytes := cnt * 32 - olga - 2
        if strEndsWith vout.scriptpubkey ⟨List.replicate (2 * nullBytes) '0'⟩ then
          flags ||| TransactionFlags.fake_scripthash
        else flags
      else flags
    (cnt, olga, fl)
  else (0, olga0, flags)

/-- One iteration of the output loop of `getTransactionFlags`. -/
def voutStepFlags (rng : Nat → Nat) (st : VoutScanState) (vout : Vout) : VoutScanState :=
  let fh : Nat × Bool := (voutTypeFlags st.flags vout, voutFakePubkey st.hasFakePubkey vout)
  let reused :=
    match vout.scriptpubkey_address with
    | some a =>
        if a ≠ "" then
          assocSet st.reusedOutputAddresses a ((assocGet st.reusedOutputAddresses a).getD 0 + 1)
        else st.reusedOutputAddresses
    | none => st.reusedOutputAddresses
  let col : Nat × Nat × Nat := voutOlga fh.1 st.p2wshCount st.olgaSize vout
  let bumped := jsValueBump rng st.outValues st.ri (some vout.value)
  { flags := col.2.2, hasFakePubkey := fh.2, reusedOutputAddresses := reused,
    outValues := bumped.1, p2wshCount := col.1, olgaSize := col.2.1, ri := bumped.2 }

/-- JS `a / b >= 5` on array lengths (`b = 0` gives `Infinity >= 5`, true,
unless `a = 0`, where `NaN >= 5` is false). -/
def jsRatioGe5 (a b : Nat) : Bool :=
  if b = 0 then decide (a ≠ 0) else decide (a ≥ 5 * b)

/-- JS `a / b <= 0.2` on array lengths (`b = 0` gives `Infinity` or `NaN`,
both failing the comparison). -/
def jsRatioLe02 (a b : Nat) : Bool :=
  if b = 0 then false else decide (5 * a ≤ b)

/-- The version bits of `getTransactionFlags`. -/
def versionFlags (flags0 : Nat) (tx : Transaction) : Nat :=
  if tx.version = 1 then flags0 ||| TransactionFlags.v1
  else if tx.version = 2 then flags0 ||| TransactionFlags.v2
  else if tx.version = 3 then flags0 ||| TransactionFlags.v3
  else flags0

/-- The input scan of `getTransactionFlags`, from its initial state. -/
def vinScan (rng : Nat → Nat) (tx : Transaction) (flags : Nat) : VinScanState :=
  tx.vin.foldl (vinStepFlags rng)
    { flags := flags, rbf := false, reusedInputAddresses := [], inValues := [], ri := 0 }

/-- The output scan of `getTransactionFlags`, from its initial state. -/
def voutScan (rng : Nat → Nat) (tx : Transaction) (flags ri : Nat) : VoutScanState :=
  tx.vout.foldl (voutStepFlags rng)
    { flags := flags, hasFakePubkey := false, reusedOutputAddresses := [],
      outValues := [], p2wshCount := 0, olgaSize := 0, ri := ri }

/-- The body of `getTransactionFlags` past the stored-flags early return:
version bits, the input and output scans, and the heuristic bits. -/
def getFlagsMain (rng : Nat → Nat) (tx : Transaction) (height : Option Int)
    (network : Option String) (flags0 : Nat) : Nat :=
  let vinSt := vinScan rng tx (versionFlags flags0 tx)
  let flags :=
    if vinSt.rbf then vinSt.flags ||| TransactionFlags.rbf
    else vinSt.flags ||| TransactionFlags.no_rbf
  let voutSt := voutScan rng tx flags vinSt.ri
  let flags := if voutSt.hasFakePubkey then voutSt.flags ||| TransactionFlags.fake_pubkey
    else voutSt.flags
  let addressReuse :=
    (voutSt.reusedOutputAddresses.foldl
      (fun acc p =>
        max acc ((assocGet vinSt.reusedInputAddresses p.1).getD 0 +
          (assocGet voutSt.reusedOutputAddresses p.1).getD 0)) 0) > 1
  let flags :=
    if ¬ addressReuse ∧ tx.vin.length ≥ 5 ∧ tx.vout.length ≥ 5 ∧
        2 * (vinSt.inValues.length + voutSt.outValues.length) ≤ tx.vin.length + tx.vout.length then
      flags ||| TransactionFlags.coinjoin
    else flags
  let flags := if jsRatioGe5 tx.vin.length tx.vout.length then
      flags ||| TransactionFlags.consolidation
    else flags
  let flags := if jsRatioLe02 tx.vin.length tx.vout.length then
      flags ||| TransactionFlags.batch_payout
    else flags
  let flags := if isNonStandard tx height network then flags ||| TransactionFlags.nonstandard
    else flags
  flags

/-- The CPFP bits of `getTransactionFlags`. -/
def cpfpFlags (flags : Nat) (cpfpInfo : Option CpfpInfo) : Nat :=
  match cpfpInfo with
  | some cp =>
      let fl := if cp.ancestors.length ≠ 0 then flags ||| TransactionFlags.cpfp_child else flags
      if (cp.descendants.getD []).length ≠ 0 then fl ||| TransactionFlags.cpfp_parent else fl
  | none => flags

/-- Source `getTransactionFlags`.  `rng` is the `Math.random()` stream
(each call takes the next element); `replacement` is the optional boolean
argument. -/
def getTransactionFlags (rng : Nat → Nat) (tx : Transaction) (cpfpInfo : Option CpfpInfo)
    (replacement : Option Bool) (height : Option Int) (network : Option String) : Nat :=
  let flags := match tx.flags with
    | some f => f
    | none => 0
  let flags := cpfpFlags flags cpfpInfo
  let flags := if replacement.getD false then flags ||| TransactionFlags.replacement else flags
  if (tx.flags.getD 0) ≠ 0 then flags
  else getFlagsMain rng tx height network flags

/-! ## Prioritization detector -/

structure TransactionStripped where
  txid : String
  rate : ℚ
  deriving DecidableEq

/-- JS `a > b` on fee rates, written as the cross-multiplied integer
comparison (`ℚ` is an ordered field, so this is exactly `b < a`). -/
def rateGt (a b : ℚ) : Bool :=
  decide (b.num * (a.den : Int) < a.num * (b.den : Int))

/-- JS `Math.abs(a - b) < 0.1`, cross-multiplied. -/
def rateAbsDiffLtTenth (a b : ℚ) : Bool :=
  decide (10 * (a.num * (b.den : Int) - b.num * (a.den : Int)).natAbs < a.den * b.den)

def arrSet {α : Type} (a : Array α) (i : Nat) (v : α) : Array α :=
  if h : i < a.size then a.set ⟨i, h⟩ v else a

def defaultStripped : TransactionStripped := { txid := "", rate := 0 }

/-- The binary search of `identifyPrioritizedTransactions`: the smallest
`l` in `[lo, hi)` with `X[M[l]].rate > rate` (fuel `hi - lo + 1`). -/
def lisBinSearch (X : Array TransactionStripped) (M : Array Int) (rate : ℚ) :
    Nat → Nat → Nat → Nat
  | 0, lo, _ => lo
  | fuel + 1, lo, hi =>
      if lo < hi then
        let mid := lo + (hi - lo) / 2
        if rateGt (X.getD (M.getD mid 0).toNat defaultStripped).rate rate then
          lisBinSearch X M rate fuel lo mid
        else lisBinSearch X M rate fuel (mid + 1) hi
      else lo

structure LisState where
  P : Array Int
  M : Array Int
  L : Nat

/-- One iteration of the patience-sorting loop. -/
def lisStep (X : Array TransactionStripped) (st : LisState) (i : Nat) : LisState :=
  let newL := lisBinSearch X st.M (X.getD i defaultStripped).rate (st.L + 1) 1 (st.L + 1)
  { P := arrSet st.P i (st.M.getD (newL - 1) 0)
    M := arrSet st.M newL (Int.ofNat i)
    L := if newL > st.L then newL else st.L }

/-- The reconstruction loop `LIS[j] = X[k]; k = P[k]` for `j = L-1 .. 0`. -/
def lisReconstruct (X : Array TransactionStripped) (P : Array Int) :
    Nat → Int → List TransactionStripped → List TransactionStripped
  | 0, _, acc => acc
  | j + 1, k, acc =>
      lisReconstruct X P j (P.getD k.toNat 0) (X.getD k.toNat defaultStripped :: acc)

/-- The longest increasing subsequence (by rate) of the already-reversed
slice `X`, exactly as `identifyPrioritizedTransactions` computes it. -/
def lisOfX (X : List TransactionStripped) : List TransactionStripped :=
  let Xa := X.toArray
  let N := X.length
  let init : LisState :=
    { P := Array.mkArray N 0, M := arrSet (Array.mkArray (N + 1) 0) 0 (-1), L := 0 }
  let st := (List.range N).foldl (lisStep Xa) init
  lisReconstruct Xa st.P st.L (st.M.getD st.L 0) []

/-- Source `identifyPrioritizedTransactions`; the result is the pair
(prioritized txids, deprioritized txids). -/
def identifyPrioritizedTransactions (transactions : List TransactionStripped) :
    List String × List String :=
  let X := (transactions.drop 1).reverse
  if X.length < 2 then ([], [])
  else
    let lisTxids := (lisOfX X).map (·.txid)
    let cls := X.foldl
      (fun (acc : List String × List String × ℚ) tx =>
        if lisTxids.contains tx.txid then (acc.1, acc.2.1, tx.rate)
        else if rateAbsDiffLtTenth tx.rate acc.2.2 then acc
        else if ! rateGt tx.rate acc.2.2 then (acc.1 ++ [tx.txid], acc.2.1, acc.2.2)
        else (acc.1, acc.2.1 ++ [tx.txid], acc.2.2))
      ([], [], (0 : ℚ))
    (cls.1, cls.2.1)

/-! ## Script disassembler (source `convertScriptSigAsm`) -/

/-- The body of `convertScriptSigAsm`'s scan.  Fuel recursion on the byte
count (every step consumes at least one byte).  Reads past the end of the
buffer follow the JS coercions: a missing `PUSHDATA1` length byte is
`undefined` and fails the length check; missing `PUSHDATA2/4` length bytes
coerce to 0 in the `|` chains; a `PUSHDATA4` length is a signed 32-bit
value.  A declared push longer than the remaining bytes stops the scan
(best-effort disassembly). -/
def asmScan : Nat → List Nat → List String
  | 0, _ => []
  | _ + 1, [] => []
  | fuel + 1, op :: rest =>
      if 1 ≤ op ∧ op ≤ 0x4e then
        let info : Option (String × Int × List Nat) :=
          if op = 0x4c then
            match rest with
            | [] => none
            | push :: rest2 => some ("OP_PUSHDATA1", (push : Int), rest2)
          else if op = 0x4d then
            some ("OP_PUSHDATA2",
              ((rest.getD 0 0 + 256 * rest.getD 1 0 : Nat) : Int), rest.drop 2)
          else if op = 0x4e then
            some ("OP_PUSHDATA4",
              toSigned32 (rest.getD 0 0 + 256 * rest.getD 1 0 +
                65536 * rest.getD 2 0 + 16777216 * rest.getD 3 0), rest.drop 4)
          else some ("OP_PUSHBYTES_" ++ Nat.repr op, (op : Int), rest)
        match info with
        | none => ["OP_PUSHDATA1"]
        | some (name, push, bs) =>
            let data := bs.take push.toNat
            if (data.length : Int) = push then
              name :: uint8ArrayToHexString data :: asmScan fuel (bs.drop push.toNat)
            else [name]
      else
        (if op = 0 then "OP_0"
          else if op = 0x4f then "OP_PUSHNUM_NEG1"
          else if op = 0xb1 then "OP_CLTV"
          else if op = 0xb2 then "OP_CSV"
          else if op = 0xba then "OP_CHECKSIGADD"
          else
            match opcodes op with
            | some o => o
            | none => "OP_RETURN_" ++ Nat.repr op) :: asmScan fuel rest

/-- Source `convertScriptSigAsm`, as its token list. -/
def convertScriptSigAsm (hex : String) : List String :=
  asmScan (hexStringToUint8Array hex).length (hexStringToUint8Array hex)

/-! ## Checksum encoders (Base58Check, Bech32/Bech32m) -/

/-- The base-58 digits of a number, most significant first (the source's
divide-by-58 loop; fuel recursion, `num + 1` steps always suffice). -/
def base58Digits : Nat → Nat → List Nat
  | 0, _ => []
  | fuel + 1, num => if num = 0 then [] else base58Digits fuel (num / 58) ++ [num % 58]

/-- Source `base58Encode`. -/
def base58Encode (data : List Nat) : String :=
  let alphabet := "123456789ABCDEFGHJKLMNPQRSTUVWXYZabcdefghijkmnopqrstuvwxyz"
  let num := beNat data
  let encoded := (base58Digits (num + 1) num).map (fun d => alphabet.data.getD d '1')
  ⟨(data.takeWhile (· = 0)).map (fun _ => '1') ++ encoded⟩

/-- Source `polymodStep`. -/
def polymodStep (pre : Nat) : Nat :=
  let b := pre >>> 25
  ((pre &&& 0x1ffffff) <<< 5) ^^^
    ((if b &&& 1 ≠ 0 then 0x3b6a57b2 else 0) ^^^
     (if b &&& 2 ≠ 0 then 0x26508e6d else 0) ^^^
     (if b &&& 4 ≠ 0 then 0x1ea119fa else 0) ^^^
     (if b &&& 8 ≠ 0 then 0x3d4233dd else 0) ^^^
     (if b &&& 16 ≠ 0 then 0x2a1462b3 else 0))

/-- Source `prefixChk`. -/
def prefixChk (hrp : String) : Nat :=
  let chk := hrp.data.foldl (fun chk c => polymodStep chk ^^^ (c.toNat >>> 5)) 1
  let chk := polymodStep chk
  hrp.data.foldl (fun chk c => polymodStep chk ^^^ (c.toNat &&& 0x1f)) chk

/-- Source `createChecksum`. -/
def createChecksum (hrp : String) (words : List Nat) (constant : Nat) : List Nat :=
  let chk := words.foldl (fun chk x => polymodStep chk ^^^ x) (prefixChk hrp)
  let chk := (List.range 6).foldl (fun chk _ => polymodStep chk) chk
  let chk := chk ^^^ constant
  (List.range 6).map (fun i => (chk >>> (5 * (5 - i))) &&& 31)

/-- Source `bech32Encode`. -/
def bech32Encode (hrp : String) (words : List Nat) (constant : Nat := 1) : String :=
  let alphabet := "qpzry9x8gf2tvdw0s3jn54khce6mua7l"
  let combined := words ++ createChecksum hrp words constant
  ⟨hrp.data ++ '1' :: combined.map (fun w => alphabet.data.getD w 'q')⟩

/-- Source `convertBits`/`toWords` specialised to its only use (8 bits to
5 bits with padding); byte values are below 256 at every call site, so the
source's `Invalid value` throw is unreachable. -/
def toWordsAux : List Nat → Nat → Nat → List Nat
  | [], acc, bits => if bits > 0 then [(acc <<< (5 - bits)) &&& 31] else []
  | v :: rest, acc, bits =>
      let acc2 := (acc <<< 8) ||| v
      let bits2 := bits + 8
      if bits2 ≥ 10 then
        ((acc2 >>> (bits2 - 5)) &&& 31) :: ((acc2 >>> (bits2 - 10)) &&& 31) ::
          toWordsAux rest acc2 (bits2 - 10)
      else ((acc2 >>> (bits2 - 5)) &&& 31) :: toWordsAux rest acc2 (bits2 - 5)

def toWords (bytes : List Nat) : List Nat := toWordsAux bytes 0 0

/-! ## Address deriver (source `scriptPubKeyToAddress` and friends) -/

def isTestnetLike (network : String) : Bool :=
  network ∈ (["testnet", "testnet4", "signet"] : List String)

def p2pkh (pubKeyHash : String) (network : String) : String :=
  let arr := hexStringToUint8Array pubKeyHash
  let version := if isTestnetLike network then 0x6f else 0x00
  let versioned := version :: arr
  let checksum := (Sha256.sha256 (Sha256.sha256 versioned)).take 4
  base58Encode (versioned ++ checksum)

def p2sh (scriptHash : String) (network : String) : String :=
  let arr := hexStringToUint8Array scriptHash
  let version := if isTestnetLike network then 0xc4 else 0x05
  let versioned := version :: arr
  let checksum := (Sha256.sha256 (Sha256.sha256 versioned)).take 4
  base58Encode (versioned ++ checksum)

def p2wpkh (pubKeyHash : String) (network : String) : String :=
  let arr := hexStringToUint8Array pubKeyHash
  let hrp := if isTestnetLike network then "tb" else "bc"
  bech32Encode hrp (0 :: toWords arr) 1

def p2wsh (scriptHash : String) (network : String) : String :=
  let arr := hexStringToUint8Array scriptHash
  let hrp := if isTestnetLike network then "tb" else "bc"
  bech32Encode hrp (0 :: toWords arr) 1

def p2tr (pubKeyHash : String) (network : String) : String :=
  let arr := hexStringToUint8Array pubKeyHash
  let hrp := if isTestnetLike network then "tb" else "bc"
  bech32Encode hrp (1 :: toWords arr) 0x2bc830a3

/-- `[0-9a-f]` on every character of a list. -/
def isHexLower (cs : List Char) : Bool :=
  cs.all (fun c => ('0' ≤ c ∧ c ≤ '9') ∨ ('a' ≤ c ∧ c ≤ 'f'))

/-- JS `s.substring(a, a + n)`. -/
def substr (s : String) (a n : Nat) : String := ⟨(s.data.drop a).take n⟩

/-- Source `scriptPubKeyToAddress`: `(address, type)`, with the regex
template tests expanded into length/prefix/suffix/hex-range checks. -/
def scriptPubKeyToAddress (scriptPubKey : String) (network : String) :
    Option String × String :=
  if scriptPubKey.length = 50 ∧ strStartsWith scriptPubKey "76a914" = true ∧
      strEndsWith scriptPubKey "88ac" = true ∧
      isHexLower ((scriptPubKey.data.drop 6).take 40) = true then
    (some (p2pkh (substr scriptPubKey 6 40) network), "p2pkh")
  else if (scriptPubKey.length = 70 ∧ strStartsWith scriptPubKey "21" = true ∧
      strEndsWith scriptPubKey "ac" = true ∧
      isHexLower ((scriptPubKey.data.drop 2).take 66) = true) ∨
      (scriptPubKey.length = 134 ∧ strStartsWith scriptPubKey "41" = true ∧
      strEndsWith scriptPubKey "ac" = true ∧
      isHexLower ((scriptPubKey.data.drop 2).take 130) = true) then
    (none, "p2pk")
  else if scriptPubKey.length = 46 ∧ strStartsWith scriptPubKey "a914" = true ∧
      strEndsWith scriptPubKey "87" = true ∧
      isHexLower ((scriptPubKey.data.drop 4).take 40) = true then
    (some (p2sh (substr scriptPubKey 4 40) network), "p2sh")
  else if scriptPubKey.length = 44 ∧ strStartsWith scriptPubKey "0014" = true ∧
      isHexLower (scriptPubKey.data.drop 4) = true then
    (some (p2wpkh (substr scriptPubKey 4 40) network), "v0_p2wpkh")
  else if scriptPubKey.length = 68 ∧ strStartsWith scriptPubKey "0020" = true ∧
      isHexLower (scriptPubKey.data.drop 4) = true then
    (some (p2wsh (substr scriptPubKey 4 64) network), "v0_p2wsh")
  else if scriptPubKey.length = 68 ∧ strStartsWith scriptPubKey "5120" = true ∧
      isHexLower (scriptPubKey.data.drop 4) = true then
    (some (p2tr (substr scriptPubKey 4 64) network), "v1_p2tr")
  else if scriptPubKey.length ≥ 3 ∧ isHexLower scriptPubKey.data = true ∧
      strEndsWith scriptPubKey "ae" = true then
    (none, "multisig")
  else if scriptPubKey = "51024e73" then
    (some "bc1pfeessrawgf", "anchor")
  else if strStartsWith scriptPubKey "6a" = true then
    (none, "op_return")
  else (none, "unknown")

/-! ## Transaction codec: the faithful parser (source `fromBuffer`)

The source reads through a cursor that JS arithmetic can push below zero
(a 9-byte varint is a *signed* BigInt, and `readSlice` adds its rounded
`Number` to the offset), so offsets are `Int` here; a read at a negative
index yields JS `undefined`, which `|` chains coerce to 0 and comparisons
treat as never-equal.  Bounds checks mirror the source exactly. -/

inductive DecodeErr where
  | invalidHex
  | outOfBounds
  | invalidVarInt
  | trailing
  deriving DecidableEq

/-- `buffer[i]`: `none` is JS `undefined` (negative index; in-bounds is
guaranteed by the source's checks for reads past the end). -/
def jsByte (buffer : List Nat) (i : Int) : Option Nat :=
  if 0 ≤ i ∧ i < (buffer.length : Int) then some (buffer.getD i.toNat 0) else none

/-- `undefined | 0` is 0: the coercion JS applies inside `|` chains. -/
def orByte (o : Option Nat) : Nat := o.getD 0

def readInt8 (b : List Nat) (off : Int) : Except DecodeErr (Option Nat × Int) :=
  if off + 1 > (b.length : Int) then .error .outOfBounds
  else .ok (jsByte b off, off + 1)

/-- `readInt16`: for byte values below 256 (every buffer the decoder sees)
the JS `|` chain is this little-endian sum. -/
def readInt16 (b : List Nat) (off : Int) : Except DecodeErr (Nat × Int) :=
  if off + 2 > (b.length : Int) then .error .outOfBounds
  else .ok (orByte (jsByte b off) + 256 * orByte (jsByte b (off + 1)), off + 2)

/-- `readInt32(true)` (unsigned): the `|` chain followed by `>>> 0`. -/
def readInt32u (b : List Nat) (off : Int) : Except DecodeErr (Nat × Int) :=
  if off + 4 > (b.length : Int) then .error .outOfBounds
  else .ok (orByte (jsByte b off) + 256 * orByte (jsByte b (off + 1)) +
    65536 * orByte (jsByte b (off + 2)) + 16777216 * orByte (jsByte b (off + 3)), off + 4)

/-- `readInt32()` (signed). -/
def readInt32s (b : List Nat) (off : Int) : Except DecodeErr (Int × Int) :=
  (readInt32u b off).map (fun p => (toSigned32 p.1, p.2))

/-- `readInt64`: a signed 64-bit BigInt. -/
def readInt64 (b : List Nat) (off : Int) : Except DecodeErr (Int × Int) :=
  if off + 8 > (b.length : Int) then .error .outOfBounds
  else .ok (toSigned64 ((List.range 8).foldl
    (fun (acc i : Nat) => acc + 256 ^ i * orByte (jsByte b (off + (i : Int)))) 0), off + 8)

/-- `readVarInt`: the value is an `Int` because the `0xff` branch returns
the signed `readInt64`.  A byte read as `undefined` (negative cursor)
fails every branch test and reaches the `Invalid VarInt prefix` throw. -/
def readVarInt (b : List Nat) (off : Int) : Except DecodeErr (Int × Int) := do
  let (first, o1) ← readInt8 b off
  match first with
  | some v =>
      if v < 0xfd then .ok ((v : Int), o1)
      else if v = 0xfd then (readInt16 b o1).map (fun p => ((p.1 : Int), p.2))
      else if v = 0xfe then (readInt32u b o1).map (fun p => ((p.1 : Int), p.2))
      else if v = 0xff then readInt64 b o1
      else .error .invalidVarInt
  | none => .error .invalidVarInt

/-- `Uint8Array.prototype.slice(b, e)` with JS index clamping. -/
def jsSlice (l : List Nat) (b e : Int) : List Nat :=
  let len := l.length
  let bi := if b < 0 then ((len : Int) + b).toNat else min b.toNat len
  let ei := if e < 0 then ((len : Int) + e).toNat else min e.toNat len
  (l.take ei).drop bi

/-- `readSlice(n)`: `Number(n)` rounds the BigInt count; the bounds check
admits a negative length, which then moves the cursor backwards. -/
def readSlice (b : List Nat) (off : Int) (n : Int) : Except DecodeErr (List Nat × Int) :=
  let length := jsNumberOfInt n
  if off + length > (b.length : Int) then .error .outOfBounds
  else .ok (jsSlice b off (off + length), off + length)

def readVarSlice (b : List Nat) (off : Int) : Except DecodeErr (List Nat × Int) := do
  let (n, o1) ← readVarInt b off
  readSlice b o1 n

def readVectorAux (b : List Nat) : Nat → Int → Except DecodeErr (List (List Nat) × Int)
  | 0, off => .ok ([], off)
  | n + 1, off => do
      let (s, o1) ← readVarSlice b off
      let (rest, o2) ← readVectorAux b n o1
      .ok (s :: rest, o2)

/-- `readVector`: a negative count runs zero iterations, as in JS. -/
def readVector (b : List Nat) (off : Int) : Except DecodeErr (List (List Nat) × Int) := do
  let (count, o1) ← readVarInt b off
  readVectorAux b count.toNat o1

def zeros64 : String := ⟨List.replicate 64 '0'⟩

/-- One input of the parse loop. -/
def parseVin (b : List Nat) (off : Int) : Except DecodeErr (Vin × Int) := do
  let (txidBytes, o1) ← readSlice b off 32
  let txidStr := uint8ArrayToHexString txidBytes.reverse
  let (vout, o2) ← readInt32u b o1
  let (ssBytes, o3) ← readVarSlice b o2
  let scriptsig := uint8ArrayToHexString ssBytes
  let (seqv, o4) ← readInt32u b o3
  let vin : Vin :=
    { txid := txidStr, vout := vout, scriptsig := scriptsig,
      scriptsig_asm := convertScriptSigAsm scriptsig, sequence := seqv,
      is_coinbase := decide (txidStr = zeros64), prevout := none, witness := none,
      inner_redeemscript_asm := none, inner_witnessscript_asm := none }
  .ok (vin, o4)

def parseVinList (b : List Nat) : Nat → Int → Except DecodeErr (List Vin × Int)
  | 0, off => .ok ([], off)
  | n + 1, off => do
      let (v, o1) ← parseVin b off
      let (rest, o2) ← parseVinList b n o1
      .ok (v :: rest, o2)

/-- One output of the parse loop (`Number(readInt64())` rounds the value). -/
def parseVout (b : List Nat) (network : String) (off : Int) :
    Except DecodeErr (Vout × Int) := do
  let (v64, o1) ← readInt64 b off
  let value := jsNumberOfInt v64
  let (spkBytes, o2) ← readVarSlice b o1
  let scriptpubkey := uint8ArrayToHexString spkBytes
  let toAddress := scriptPubKeyToAddress scriptpubkey network
  let vout : Vout :=
    { value := value, scriptpubkey := scriptpubkey,
      scriptpubkey_asm := convertScriptSigAsm scriptpubkey,
      scriptpubkey_type := toAddress.2, scriptpubkey_address := toAddress.1 }
  .ok (vout, o2)

def parseVoutList (b : List Nat) (network : String) :
    Nat → Int → Except DecodeErr (List Vout × Int)
  | 0, off => .ok ([], off)
  | n + 1, off => do
      let (v, o1) ← parseVout b network off
      let (rest, o2) ← parseVoutList b network n o1
      .ok (v :: rest, o2)

/-- The witness loop: one stack per already-parsed input, in order. -/
def parseWitnessList (b : List Nat) : List Vin → Int → Except DecodeErr (List Vin × Int)
  | [], off => .ok ([], off)
  | v :: rest, off => do
      let (vec, o1) ← readVector b off
      let (rest2, o2) ← parseWitnessList b rest o1
      .ok ({ v with witness := some (vec.map uint8ArrayToHexString) } :: rest2, o2)

/-- The layout a parse produces besides the transaction: whether the
segwit marker was consumed, and the start and end cursor of the witness
section (both 0 when there is none). -/
structure ParseLayout where
  hasWitnesses : Bool
  witStart : Int
  witEnd : Int
  deriving DecidableEq

/-- Source `fromBuffer`, exposing the transaction and its layout.  The
transaction's `txid` field is filled by `txid(tx)` below, mirroring the
source's last assignment. -/
def fromBufferParts (b : List Nat) (network : String)
    (txidOf : Transaction → String) : Except DecodeErr (Transaction × ParseLayout) := do
  let (version, o1) ← readInt32s b 0
  let (marker, o2) ← readInt8 b o1
  let (flag, o3) ← readInt8 b o2
  let hasWitnesses := marker = some 0x00 ∧ flag = some 0x01
  let o4 := if hasWitnesses then o3 else o1
  let (vinCount, o5) ← readVarInt b o4
  let (vins, o6) ← parseVinList b vinCount.toNat o5
  let (voutCount, o7) ← readVarInt b o6
  let (vouts, o8) ← parseVoutList b network voutCount.toNat o7
  let (vins2, witnessSize, o9) ←
    if hasWitnesses then do
      let (ws, o9) ← parseWitnessList b vins o8
      pure (ws, o9 - o8 + 2, o9)
    else pure (vins, (0 : Int), o8)
  let (locktime, o10) ← readInt32u b o9
  if o10 ≠ (b.length : Int) then .error .trailing
  else
    let size := b.length
    let tx : Transaction :=
      { version := version, locktime := locktime, vin := vins2, vout := vouts,
        size := size, weight := ((size : Int) - witnessSize) * 3 + size,
        sigops := none, flags := none, txid := "",
        status := { confirmed := none, block_height := none } }
    .ok ({ tx with txid := txidOf tx },
      { hasWitnesses := decide hasWitnesses, witStart := o8, witEnd := o9 })

/-! ## Serializer and identifier -/

/-- Source `serializeTransaction`: the non-witness serialization. -/
def serializeTransaction (tx : Transaction) : List Nat :=
  intToBytes tx.version 4 ++
  varIntToBytes tx.vin.length ++
  (tx.vin.map (fun input =>
    (hexStringToUint8Array input.txid).reverse ++
    intToBytes (input.vout : Int) 4 ++
    varIntToBytes (hexStringToUint8Array input.scriptsig).length ++
    hexStringToUint8Array input.scriptsig ++
    intToBytes (input.sequence : Int) 4)).flatten ++
  varIntToBytes tx.vout.length ++
  (tx.vout.map (fun output =>
    bigIntToBytes output.value 8 ++
    varIntToBytes (hexStringToUint8Array output.scriptpubkey).length ++
    hexStringToUint8Array output.scriptpubkey)).flatten ++
  intToBytes (tx.locktime : Int) 4

/-- Source `txid`: double SHA-256 of the non-witness serialization,
byte-reversed, in hex. -/
def txid (tx : Transaction) : String :=
  uint8ArrayToHexString ((Sha256.sha256 (Sha256.sha256 (serializeTransaction tx))).reverse)

def fromBuffer (b : List Nat) (network : String) : Except DecodeErr Transaction :=
  (fromBufferParts b network txid).map (·.1)

/-- Source `decodeRawTransaction`. -/
def decodeRawTransaction (rawtx : String) (network : String) :
    Except DecodeErr Transaction :=
  if rawtx.length = 0 ∨ rawtx.length % 2 ≠ 0 ∨
      ¬ (rawtx.data.all (fun c => (hexCharVal c).isSome)) then
    .error .invalidHex
  else fromBuffer (hexStringToUint8Array rawtx) network

/-- The claim's enumeration of what a structural decode can produce:
success, or a read past the end, an invalid varint prefix, or trailing
bytes — never the hex error, which only the top-level hex check raises. -/
def StructuralResult {γ : Type} (x : Except DecodeErr γ) : Prop :=
  (∃ r, x = .ok r) ∨ x = .error .outOfBounds ∨ x = .error .invalidVarInt ∨
    x = .error .trailing

/-! ## Strict canonical decoder

A second decoder, used to state the round-trip claims: it accepts exactly
the buffers the faithful decoder accepts whose varint fields are
canonically encoded (and below `2 ^ 32`, which the serializer's `number`
branch requires) and whose output values are exactly representable JS
numbers.  On success the faithful decoder returns the same transaction,
and serialization reproduces the non-witness bytes bit for bit. -/

def readInt32uC (b : List Nat) (off : Nat) : Option (Nat × Nat) :=
  if off + 4 ≤ b.length then
    some (b.getD off 0 + 256 * b.getD (off + 1) 0 + 65536 * b.getD (off + 2) 0 +
      16777216 * b.getD (off + 3) 0, off + 4)
  else none

def readInt64uC (b : List Nat) (off : Nat) : Option (Nat × Nat) :=
  if off + 8 ≤ b.length then
    some ((List.range 8).foldl (fun (acc i : Nat) => acc + 256 ^ i * b.getD (off + i) 0) 0,
      off + 8)
  else none

/-- A canonically encoded varint below `2 ^ 32` at `off`. -/
def readVarIntC (b : List Nat) (off : Nat) : Option (Nat × Nat) :=
  if off < b.length then
    let first := b.getD off 0
    if first < 0xfd then some (first, off + 1)
    else if first = 0xfd then
      if off + 3 ≤ b.length then
        let v := b.getD (off + 1) 0 + 256 * b.getD (off + 2) 0
        if 0xfd ≤ v then some (v, off + 3) else none
      else none
    else if first = 0xfe then
      match readInt32uC b (off + 1) with
      | some (v, o) => if 0x10000 ≤ v then some (v, o) else none
      | none => none
    else none
  else none

def readSliceC (b : List Nat) (off n : Nat) : Option (List Nat × Nat) :=
  if off + n ≤ b.length then some (listSeg b off (off + n), off + n) else none

def readVarSliceC (b : List Nat) (off : Nat) : Option (List Nat × Nat) := do
  let (n, o1) ← readVarIntC b off
  readSliceC b o1 n

def readVectorAuxC (b : List Nat) : Nat → Nat → Option (List (List Nat) × Nat)
  | 0, off => some ([], off)
  | n + 1, off => do
      let (s, o1) ← readVarSliceC b off
      let (rest, o2) ← readVectorAuxC b n o1
      some (s :: rest, o2)

def readVectorC (b : List Nat) (off : Nat) : Option (List (List Nat) × Nat) := do
  let (count, o1) ← readVarIntC b off
  readVectorAuxC b count o1

def parseVinC (b : List Nat) (off : Nat) : Option (Vin × Nat) := do
  let (txidBytes, o1) ← readSliceC b off 32
  let txidStr := uint8ArrayToHexString txidBytes.reverse
  let (vout, o2) ← readInt32uC b o1
  let (ssBytes, o3) ← readVarSliceC b o2
  let scriptsig := uint8ArrayToHexString ssBytes
  let (seqv, o4) ← readInt32uC b o3
  let vin : Vin :=
    { txid := txidStr, vout := vout, scriptsig := scriptsig,
      scriptsig_asm := convertScriptSigAsm scriptsig, sequence := seqv,
      is_coinbase := decide (txidStr = zeros64), prevout := none, witness := none,
      inner_redeemscript_asm := none, inner_witnessscript_asm := none }
  some (vin, o4)

def parseVinListC (b : List Nat) : Nat → Nat → Option (List Vin × Nat)
  | 0, off => some ([], off)
  | n + 1, off => do
      let (v, o1) ← parseVinC b off
      let (rest, o2) ← parseVinListC b n o1
      some (v :: rest, o2)

def parseVoutC (b : List Nat) (network : String) (off : Nat) : Option (Vout × Nat) := do
  let (v64, o1) ← readInt64uC b off
  let value := toSigned64 v64
  if jsNumberOfInt value = value then
    let (spkBytes, o2) ← readVarSliceC b o1
    let scriptpubkey := uint8ArrayToHexString spkBytes
    let toAddress := scriptPubKeyToAddress scriptpubkey network
    let vout : Vout :=
      { value := value, scriptpubkey := scriptpubkey,
        scriptpubkey_asm := convertScriptSigAsm scriptpubkey,
        scriptpubkey_type := toAddress.2, scriptpubkey_address := toAddress.1 }
    some (vout, o2)
  else none

def parseVoutListC (b : List Nat) (network : String) : Nat → Nat → Option (List Vout × Nat)
  | 0, off => some ([], off)
  | n + 1, off => do
      let (v, o1) ← parseVoutC b network off
      let (rest, o2) ← parseVoutListC b network n o1
      some (v :: rest, o2)

def parseWitnessListC (b : List Nat) : List Vin → Nat → Option (List Vin × Nat)
  | [], off => some ([], off)
  | v :: rest, off => do
      let (vec, o1) ← readVectorC b off
      let (rest2, o2) ← parseWitnessListC b rest o1
      some ({ v with witness := some (vec.map uint8ArrayToHexString) } :: rest2, o2)

/-- The strict analogue of `fromBufferParts`. -/
def fromBufferCparts (b : List Nat) (network : String) :
    Option (Transaction × ParseLayout) := do
  let (v32, o1) ← readInt32uC b 0
  let version := toSigned32 v32
  if o1 + 2 ≤ b.length then
    let hasW := b.getD o1 0 = 0x00 ∧ b.getD (o1 + 1) 0 = 0x01
    let o4 := if hasW then o1 + 2 else o1
    let (vinCount, o5) ← readVarIntC b o4
    let (vins, o6) ← parseVinListC b vinCount o5
    let (voutCount, o7) ← readVarIntC b o6
    let (vouts, o8) ← parseVoutListC b network voutCount o7
    let (vins2, o9) ← if hasW then parseWitnessListC b vins o8 else some (vins, o8)
    let witnessSize : Int := if hasW then (o9 : Int) - o8 + 2 else 0
    let (locktime, o10) ← readInt32uC b o9
    if o10 = b.length then
      let size := b.length
      let tx : Transaction :=
        { version := version, locktime := locktime, vin := vins2, vout := vouts,
          size := size, weight := ((size : Int) - witnessSize) * 3 + size,
          sigops := none, flags := none, txid := "",
          status := { confirmed := none, block_height := none } }
      some ({ tx with txid := txid tx },
        { hasWitnesses := decide hasW, witStart := (o8 : Int), witEnd := (o9 : Int) })
    else none
  else none

/-- Hex validity, as `decodeRawTransaction` checks it. -/
def hexValid (s : String) : Bool :=
  decide (s.length ≠ 0) && decide (s.length % 2 = 0) &&
    s.data.all (fun c => (hexCharVal c).isSome)

/-- The non-witness bytes of a buffer, given the parse layout: everything
except the witness section and the two marker/flag bytes. -/
def nonWitnessBytes (b : List Nat) (layout : ParseLayout) : List Nat :=
  if layout.hasWitnesses then
    listSeg b 0 4 ++ listSeg b 6 layout.witStart.toNat ++
      listSeg b layout.witEnd.toNat b.length
  else b

/-! ## Concrete example data (used by counterexamples and witnesses) -/

/-- A spent plain p2pkh output. -/
def exPrevoutP2pkh : Prevout :=
  { scriptpubkey := "76a914000000000000000000000000000000000000000088ac"
    scriptpubkey_asm := ["OP_DUP", "OP_HASH160", "OP_PUSHBYTES_20",
      "0000000000000000000000000000000000000000", "OP_EQUALVERIFY", "OP_CHECKSIG"]
    scriptpubkey_type := "p2pkh"
    scriptpubkey_address := some "1111111111111111111114oLvT2"
    value := 100000 }

/-- An ordinary (non-coinbase) input spending a p2pkh output. -/
def exVinPlain : Vin :=
  { txid := "aa00000000000000000000000000000000000000000000000000000000000000"
    vout := 0, scriptsig := "", scriptsig_asm := [], sequence := 0xffffffff
    is_coinbase := false, prevout := some exPrevoutP2pkh, witness := none
    inner_redeemscript_asm := none, inner_witnessscript_asm := none }

/-- A coinbase input. -/
def exVinCoinbase : Vin :=
  { txid := zeros64
    vout := 0xffffffff, scriptsig := "aa", scriptsig_asm := ["OP_PUSHBYTES_1", "aa"]
    sequence := 0xffffffff, is_coinbase := true, prevout := none, witness := none
    inner_redeemscript_asm := none, inner_witnessscript_asm := none }

/-- A comfortable (well above dust) p2pkh output. -/
def exVoutP2pkh : Vout :=
  { value := 10000
    scriptpubkey := "76a914000000000000000000000000000000000000000088ac"
    scriptpubkey_asm := ["OP_DUP", "OP_HASH160", "OP_PUSHBYTES_20",
      "0000000000000000000000000000000000000000", "OP_EQUALVERIFY", "OP_CHECKSIG"]
    scriptpubkey_type := "p2pkh"
    scriptpubkey_address := some "1111111111111111111114oLvT2" }

/-- A 22-byte P2WPKH output with the given value. -/
def exVoutP2wpkh (v : Int) : Vout :=
  { value := v
    scriptpubkey := "00140000000000000000000000000000000000000000"
    scriptpubkey_asm := ["OP_0", "OP_PUSHBYTES_20", "0000000000000000000000000000000000000000"]
    scriptpubkey_type := "v0_p2wpkh"
    scriptpubkey_address := some "bc1qqqqqqqqqqqqqqqqqqqqqqqqqqqqqqqqq" }

/-- A one-byte OP_RETURN output. -/
def exVoutOpReturn : Vout :=
  { value := 0, scriptpubkey := "6a", scriptpubkey_asm := ["OP_RETURN"]
    scriptpubkey_type := "op_return", scriptpubkey_address := none }

/-- A plain, entirely standard one-in one-out transaction. -/
def exTxPlain : Transaction :=
  { version := 2, locktime := 0, vin := [exVinPlain], vout := [exVoutP2pkh]
    size := 200, weight := 800, sigops := none, flags := none
    txid := "cc00000000000000000000000000000000000000000000000000000000000000"
    status := { confirmed := some true, block_height := some 800000 } }

/-- Two OP_RETURN outputs behind a coinbase input. -/
def exTxTwoOpReturnsCoinbase : Transaction :=
  { exTxPlain with vin := [exVinCoinbase], vout := [exVoutOpReturn, exVoutOpReturn] }

/-- Two OP_RETURN outputs behind an ordinary input. -/
def exTxTwoOpReturns : Transaction :=
  { exTxPlain with vout := [exVoutOpReturn, exVoutOpReturn] }

/-- A coinbase transaction paying `v` satoshis to a 22-byte P2WPKH output. -/
def exTxCoinbaseP2wpkh (v : Int) : Transaction :=
  { exTxPlain with vin := [exVinCoinbase], vout := [exVoutP2wpkh v] }

/-- An ordinary transaction paying `v` satoshis to a 22-byte P2WPKH output. -/
def exTxP2wpkh (v : Int) : Transaction :=
  { exTxPlain with vout := [exVoutP2wpkh v] }

/-- The block-order fee-rate scenario of the LIS claim: a coinbase followed
by rates 9, 4, 8, 3, 5. -/
def exBlockTxs : List TransactionStripped :=
  [{ txid := "cb", rate := 100 }, { txid := "t9", rate := 9 }, { txid := "t4", rate := 4 },
   { txid := "t8", rate := 8 }, { txid := "t3", rate := 3 }, { txid := "t5", rate := 5 }]

/-- The historical block-170 transaction (the first bitcoin transfer):
version 1, one input, two P2PK outputs, no witness, all varints canonical. -/
def rawTx170 : String :=
  "0100000001c997a5e56e104102fa209c6a852dd90660a20b2d9c352423edce25857fcd3704000000004847304402204e45e16932b8af514961a1d3a1a25fdf3f4f7732e9d624c6c61548ab5fb8cd410220181522ec8eca07de4860a4acdd12909d831cc56cbbac4622082221a8768d1d0901ffffffff0200ca9a3b00000000434104ae1a62fe09c5f51b13905f07f06b99a2f7159b2225f374cd378d71302fa28414e7aab37397f554a7df5f142c21c1b7303b8a0626f1baded5c72a704f7e6cd84cac00286bee0000000043410411db93e1dcdb8a016b49840f8c53bc1eb68a382e97b1482ecad7b148a6909a5cb2e0eaddfb84ccf9744464f82e160bfa9b8b64f9d4c03f999b8643f656b412a3ac00000000"

/-- A tiny legacy transaction (one input with empty scriptsig, one
zero-value OP_RETURN output), canonical everywhere. -/
def rawTiny : String :=
  "01000000011111111111111111111111111111111111111111111111111111" ++
  "1111111111110000000000ffffffff010000000000000000016a00000000"

/-- A decodable transaction whose scriptsig length is the *non-canonical*
varint `fd 00 00` (three bytes encoding 0). -/
def rawNonCanonical : String :=
  "020000000111111111111111111111111111111111111111111111" ++
  "1111111111111111111100000000fd0000ffffffff0000000000"

/-- A transaction whose scriptsig length is the 9-byte varint encoding the
*negative* BigInt `-2^63`: the slice moves the cursor far below zero and
the next input's varint read hits JS `undefined`. -/
def rawNegativeVarInt : String :=
  "010000000211111111111111111111111111111111111111111111" ++
  "1111111111111111111100000000ff0000000000000080ffffffff"

/-- A segwit-marked transaction with one input whose witness stack is
empty (stack count 0) and no outputs. -/
def rawEmptyWitness : String :=
  "010000000001011111111111111111111111111111111111111111" ++
  "1111111111111111111111110000000000ffffffff000000000000"

/-- A segwit-marked transaction: one input with a two-item witness stack,
one OP_RETURN output, canonical everywhere. -/
def rawSegwit : String :=
  "0100000000010111111111111111111111111111111111111111111111111111111111" ++
  "111111110000000000ffffffff010000000000000000016a02012202404000000000"

/-- The bits `getTransactionFlags` recomputes from its `cpfpInfo` and
`replacement` arguments; every other bit is static. -/
def variableFlagsMask : Nat :=
  TransactionFlags.cpfp_child ||| TransactionFlags.cpfp_parent ||| TransactionFlags.replacement

/-- A transaction with five zero-valued inputs and five equal-valued
outputs: its coinjoin heuristic hinges entirely on the random keys. -/
def exTxRandomSensitive : Transaction :=
  { version := 1, locktime := 0
    vin := [{ exVinPlain with prevout := some { exPrevoutP2pkh with value := 0, scriptpubkey_address := none } },
            { exVinPlain with prevout := some { exPrevoutP2pkh with value := 0, scriptpubkey_address := none } },
            { exVinPlain with prevout := some { exPrevoutP2pkh with value := 0, scriptpubkey_address := none } },
            { exVinPlain with prevout := some { exPrevoutP2pkh with value := 0, scriptpubkey_address := none } },
            { exVinPlain with prevout := some { exPrevoutP2pkh with value := 0, scriptpubkey_address := none } }]
    vout := [{ exVoutP2pkh with value := 100, scriptpubkey_address := none },
             { exVoutP2pkh with value := 100, scriptpubkey_address := none },
             { exVoutP2pkh with value := 100, scriptpubkey_address := none },
             { exVoutP2pkh with value := 100, scriptpubkey_address := none },
             { exVoutP2pkh with value := 100, scriptpubkey_address := none }]
    size := 300, weight := 1200, sigops := none, flags := none
    txid := "cc00000000000000000000000000000000000000000000000000000000000000"
    status := { confirmed := none, block_height := none } }

/-- A collision-free `Math.random()` numerator stream. -/
def rngDistinct : Nat → Nat := fun k => k + 1

/-- A stream whose draws all coincide (every `Math.random()` call returns
`1 / 2 ^ 53`) — astronomically unlikely, but a possible behaviour. -/
def rngConstant : Nat → Nat := fun _ => 1

/-- How many stream indices a classifier run can touch: two per input and
per output. -/
def usedBound (tx : Transaction) : Nat := 2 * (tx.vin.length + tx.vout.length)

/-- A well-behaved `Math.random()` numerator stream on its first `B`
draws: never exactly `0`, below `2 ^ 53`, and collision-free.  Real
`Math.random()` satisfies the bounds always and the injectivity with
overwhelming probability — but not certainly, which is what the
counterexample exploits. -/
def GoodRng (rng : Nat → Nat) (B : Nat) : Prop :=
  (∀ i, i < B → 0 < rng i ∧ rng i < 2 ^ 53) ∧
  (∀ i, i < B → ∀ j, j < B → rng i = rng j → i = j)

/-- The relation maintained between the value-count objects of two
classifier runs over different streams: equal sizes, the same
genuine-value keys, and every key is either a genuine value key or one of
that run's first `ri` random draws. -/
def ParallelMaps (rng1 rng2 : Nat → Nat) (ri : Nat) (m1 m2 : List (Int × Nat)) : Prop :=
  m1.length = m2.length ∧
  (∀ w : Int, w ≠ 0 → (valueKey w ∈ m1.map Prod.fst ↔ valueKey w ∈ m2.map Prod.fst)) ∧
  (∀ k ∈ m1.map Prod.fst,
    (∃ w : Int, w ≠ 0 ∧ k = valueKey w) ∨ ∃ j, j < ri ∧ k = ((rng1 j : Nat) : Int)) ∧
  (∀ k ∈ m2.map Prod.fst,
    (∃ w : Int, w ≠ 0 ∧ k = valueKey w) ∨ ∃ j, j < ri ∧ k = ((rng2 j : Nat) : Int))

/-- The claim's characterization of when the height gate is active:
exactly the four table networks, with a non-null height at or below that
network's entry. -/
def gatedAt (height : Option Int) (network : Option String) : Bool :=
  match height, network with
  | some h, some n =>
      (decide (n = "testnet4") && decide (h ≤ 42000)) ||
      (decide (n = "testnet") && decide (h ≤ 2900000)) ||
      (decide (n = "signet") && decide (h ≤ 211000)) ||
      (decide (n = "") && decide (h ≤ 863500))
  | _, _ => false

/-- The preliminary checks of `isNonStandard` (version, weight,
non-witness size, sigops), bundled. -/
def prelimPass (tx : Transaction) (height : Option Int) (network : Option String) : Bool :=
  !isNonStandardVersion tx height network &&
    decide (tx.weight ≤ (MAX_STANDARD_TX_WEIGHT : Int)) &&
    decide ((MIN_STANDARD_TX_NONWITNESS_SIZE : Int) ≤ getNonWitnessSize tx) &&
    !sigopsNonStandard tx

/-- The dust threshold of a non-`op_return` scriptpubkey: the least value
the dust check accepts; for an even-length (whole-byte) script this is
`3 * (scriptLen + varint overhead + 8 + (67 or 148))` satoshis. -/
def dustThreshold (spk : String) : Int := ((3 * dustSize2 spk + 1) / 2 : Nat)

/-- The transaction `rawTiny` decodes to. -/
def exTxTiny : Transaction :=
  { version := 1, locktime := 0
    vin := [{ txid := "1111111111111111111111111111111111111111111111111111111111111111"
              vout := 0, scriptsig := "", scriptsig_asm := [], sequence := 4294967295
              is_coinbase := false, prevout := none, witness := none
              inner_redeemscript_asm := none, inner_witnessscript_asm := none }]
    vout := [{ value := 0, scriptpubkey := "6a", scriptpubkey_asm := ["OP_RETURN"]
               scriptpubkey_type := "op_return", scriptpubkey_address := none }]
    size := 61, weight := 244, sigops := none, flags := none
    txid := "63eb90b9e3c426b018e80f2816267628de7d04ee3e45e13743da9cd1b686f13d"
    status := { confirmed := none, block_height := none } }

/-- The parse layout of `rawTiny` (no witness section). -/
def exLaTiny : ParseLayout := { hasWitnesses := false, witStart := 57, witEnd := 57 }

/-- The transaction `rawSegwit` decodes to. -/
def exTxSegwit : Transaction :=
  { version := 1, locktime := 0
    vin := [{ txid := "1111111111111111111111111111111111111111111111111111111111111111"
              vout := 0, scriptsig := "", scriptsig_asm := [], sequence := 4294967295
              is_coinbase := false, prevout := none, witness := some ["22", "4040"]
              inner_redeemscript_asm := none, inner_witnessscript_asm := none }]
    vout := [{ value := 0, scriptpubkey := "6a", scriptpubkey_asm := ["OP_RETURN"]
               scriptpubkey_type := "op_return", scriptpubkey_address := none }]
    size := 69, weight := 252, sigops := none, flags := none
    txid := "63eb90b9e3c426b018e80f2816267628de7d04ee3e45e13743da9cd1b686f13d"
    status := { confirmed := none, block_height := none } }

/-- The parse layout of `rawSegwit`: a 6-byte witness section. -/
def exLaSegwit : ParseLayout := { hasWitnesses := true, witStart := 59, witEnd := 65 }

/-! # Theorems -/

theorem gate_lookup_eq (h : Int) (n : String) :
    (match V3_STANDARDNESS_ACTIVATION_HEIGHT n with
      | some a => decide (h ≤ (a : Int))
      | none => false) = gatedAt (some h) (some n) := by
  unfold V3_STANDARDNESS_ACTIVATION_HEIGHT gatedAt
  by_cases h1 : n = "testnet4" <;> by_cases h2 : n = "testnet" <;>
    by_cases h3 : n = "signet" <;> by_cases h4 : n = "" <;> simp_all

theorem gate_limit_eq (h : Int) (n : String) :
    (match V3_STANDARDNESS_ACTIVATION_HEIGHT n with
      | some a => if h ≤ (a : Int) then (2 : Int) else 3
      | none => 3) = if gatedAt (some h) (some n) then 2 else 3 := by
  have := gate_lookup_eq h n
  rcases hv : V3_STANDARDNESS_ACTIVATION_HEIGHT n with _ | a
  · rw [hv] at this; simp_all
  · rw [hv] at this; by_cases hh : h ≤ (a : Int) <;> simp_all

/-- C10: the height-gated standardness rules (version limit lowered from 3
to 2, and the anchor-spend gate) fire exactly when the network is one of
the strings `testnet4`, `testnet`, `signet` or the empty string with a
non-null height at or below that network's table entry; for every other
network string — including the literal `mainnet`, since mainnet is keyed
by the empty string — the version limit is 3 and the anchor gate never
fires, whatever the height. -/
theorem height_gating_characterization (tx : Transaction) (height : Option Int)
    (network : Option String) :
    isNonStandardVersion tx height network =
      decide (tx.version > if gatedAt height network then 2 else 3) ∧
    isNonStandardAnchor tx height network = gatedAt height network := by
  constructor
  · rcases height with _ | h <;> rcases network with _ | n <;>
      first
        | rfl
        | (show decide (tx.version >
              (match V3_STANDARDNESS_ACTIVATION_HEIGHT n with
                | some a => if h ≤ (a : Int) then (2 : Int) else 3
                | none => 3)) = _
           rw [gate_limit_eq])
  · rcases height with _ | h <;> rcases network with _ | n <;>
      first
        | rfl
        | (show (match ANCHOR_STANDARDNESS_ACTIVATION_HEIGHT n with
              | some a => decide (h ≤ (a : Int))
              | none => false) = _
           rw [ANCHOR_STANDARDNESS_ACTIVATION_HEIGHT, gate_lookup_eq])

/-- C1 (documenting the code defect): a transaction that violates no
standardness rule and spends only a p2pkh output — no anchor output
anywhere — is reported non-standard on mainnet (table key `""`) at height
800000 (≤ the anchor activation height 863500), because the
`isNonStandardAnchor` gate is applied to every input reaching its branch
without checking that the spent output has type `anchor`; the same
transaction is standard when no height/network gate applies. -/
theorem anchor_rule_fires_without_anchor_spend :
    isNonStandard exTxPlain (some 800000) (some "") = true ∧
    isNonStandard exTxPlain none none = false ∧
    (∀ v ∈ exTxPlain.vin, prevoutType v ≠ some "anchor") :=
  ⟨by decide, by decide, by decide⟩

/-- C7: on the block-order rates `[coinbase, 9, 4, 8, 3, 5]` the detector's
longest increasing subsequence over the reversed slice `[5, 3, 8, 4, 9]`
has rates `[3, 4, 9]`; the transactions with rates 3, 4, 9 appear in
neither output list, those with rates 5 and 8 are classified, each into
exactly one list (both deprioritized, by the noise-band/comparison rule),
and a repeated run returns the identical result. -/
theorem lis_scenario :
    (lisOfX ((exBlockTxs.drop 1).reverse)).map (·.rate) = [3, 4, 9] ∧
    identifyPrioritizedTransactions exBlockTxs = ([], ["t5", "t8"]) ∧
    (∀ t ∈ ["t3", "t4", "t9"],
      t ∉ (identifyPrioritizedTransactions exBlockTxs).1 ∧
      t ∉ (identifyPrioritizedTransactions exBlockTxs).2) ∧
    identifyPrioritizedTransactions exBlockTxs = identifyPrioritizedTransactions exBlockTxs :=
  ⟨by decide, by decide, by decide, rfl⟩

/-- An input-loop step can only return `some false` at a coinbase input. -/
theorem checkVin_some_false {tx : Transaction} {h : Option Int} {n : Option String}
    {v : Vin} (hv : checkVin tx h n v = some false) : v.is_coinbase = true := by
  by_cases hcb : v.is_coinbase = true
  · exact hcb
  · exfalso
    rw [checkVin, if_neg hcb] at hv
    iterate 5 (try (split at hv <;> try simp_all))

/-- With no coinbase input the input loop never returns `some false`. -/
theorem vinLoop_no_coinbase {tx : Transaction} {h : Option Int} {n : Option String} :
    ∀ l : List Vin, (∀ v ∈ l, v.is_coinbase = false) → vinLoop tx h n l ≠ some false := by
  intro l
  induction l with
  | nil => intro _ hc; simp [vinLoop] at hc
  | cons v rest ih =>
      intro hall hc
      rw [vinLoop] at hc
      rcases hcv : checkVin tx h n v with _ | b
      · rw [hcv] at hc
        exact ih (fun x hx => hall x (List.mem_cons_of_mem _ hx)) hc
      · rw [hcv] at hc
        cases hc
        have := checkVin_some_false hcv
        have := hall v (List.mem_cons_self v rest)
        simp_all

/-- An output-loop step at an `op_return` output continues with the count
increased by one; at any other output the count is unchanged. -/
theorem voutTypeCheck_count {count : Nat} {o : Vout} {c : Nat}
    (hs : voutTypeCheck count o = some c) :
    c = count + (if o.scriptpubkey_type = "op_return" then 1 else 0) := by
  rw [voutTypeCheck] at hs
  by_cases hop : o.scriptpubkey_type = "op_return"
  · simp only [hop] at hs ⊢
    simp at hs ⊢
    omega
  · simp only [if_neg hop] at hs ⊢
    try simp only [hop] at hs
    simp at hs ⊢
    iterate 6 (try (split at hs <;> try simp_all))

theorem voutStep_count {count : Nat} {o : Vout} {c : Nat}
    (hs : voutStep count o = some c) :
    c = count + (if o.scriptpubkey_type = "op_return" then 1 else 0) := by
  rw [voutStep] at hs
  rcases ht : voutTypeCheck count o with _ | c1 <;> rw [ht] at hs
  · simp at hs
  · have h1 := voutTypeCheck_count ht
    by_cases hop : o.scriptpubkey_type = "op_return"
    · simp [hop] at hs h1 ⊢
      omega
    · simp [hop] at hs h1 ⊢
      omega

/-- If the output loop finishes, its count is the starting count plus the
number of `op_return` outputs. -/
theorem voutLoop_count :
    ∀ (l : List Vout) (count c : Nat), voutLoop count l = some c →
      c = count + (l.filter (fun o => o.scriptpubkey_type = "op_return")).length := by
  intro l
  induction l with
  | nil => intro count c hc; simp [voutLoop] at hc; simp [hc]
  | cons o rest ih =>
      intro count c hc
      rw [voutLoop] at hc
      rcases hs : voutStep count o with _ | c1
      · rw [hs] at hc; exact absurd hc (by simp)
      · rw [hs] at hc
        have h1 := voutStep_count hs
        have h2 := ih c1 c hc
        by_cases hop : o.scriptpubkey_type = "op_return" <;> (simp_all; try omega)

/-- C2 (amended): a transaction with two or more `op_return` outputs and
no coinbase input is non-standard, regardless of its other fields and of
the height and network arguments.  (The claim as frozen fails on coinbase
inputs — see the counterexample — since the input loop returns "standard"
for the whole transaction at a coinbase input.) -/
theorem multi_opreturn_nonstandard (tx : Transaction) (h : Option Int)
    (n : Option String)
    (hcb : ∀ v ∈ tx.vin, v.is_coinbase = false)
    (hop : 2 ≤ (tx.vout.filter (fun o => o.scriptpubkey_type = "op_return")).length) :
    isNonStandard tx h n = true := by
  rw [isNonStandard]
  split
  · rfl
  · split
    · rfl
    · split
      · rfl
      · split
        · rfl
        · rcases hvl : vinLoop tx h n tx.vin with _ | b
          · rcases hol : voutLoop 0 tx.vout with _ | c
            · simp
            · have := voutLoop_count tx.vout 0 c hol
              simp only [hvl, hol]
              simp
              omega
          · cases b
            · exact absurd hvl (vinLoop_no_coinbase tx.vin hcb)
            · simp [hvl]

/-- C2 witness: a concrete ordinary transaction with two one-byte
`op_return` outputs. -/
theorem multi_opreturn_nonstandard_witness :
    isNonStandard exTxTwoOpReturns (some 800000) (some "liquid") = true :=
  multi_opreturn_nonstandard exTxTwoOpReturns (some 800000) (some "liquid")
    (by decide) (by decide)

/-- C2 counterexample: the same two `op_return` outputs behind a coinbase
input are reported standard — the claim's "regardless of any other field
of the transaction (including its inputs)" fails. -/
theorem multi_opreturn_coinbase_standard :
    isNonStandard exTxTwoOpReturnsCoinbase none none = false ∧
    2 ≤ (exTxTwoOpReturnsCoinbase.vout.filter
      (fun o => o.scriptpubkey_type = "op_return")).length :=
  ⟨by decide, by decide⟩

/-- `checkVin` never reads its transaction argument (`isNonStandardAnchor`
ignores it). -/
theorem checkVin_tx_agnostic (tx tx2 : Transaction) (h : Option Int) (n : Option String)
    (v : Vin) : checkVin tx h n v = checkVin tx2 h n v := rfl

theorem vinLoop_tx_agnostic (tx tx2 : Transaction) (h : Option Int) (n : Option String) :
    ∀ l : List Vin, vinLoop tx h n l = vinLoop tx2 h n l := by
  intro l
  induction l with
  | nil => rfl
  | cons v rest ih =>
      rw [vinLoop, vinLoop, checkVin_tx_agnostic tx tx2 h n v, ih]

/-- Inputs on which `checkVin` continues can be dropped from the front of
the input loop. -/
theorem vinLoop_append_none (tx : Transaction) (h : Option Int) (n : Option String)
    (l : List Vin) :
    ∀ pre : List Vin, (∀ v ∈ pre, checkVin tx h n v = none) →
      vinLoop tx h n (pre ++ l) = vinLoop tx h n l := by
  intro pre
  induction pre with
  | nil => intro _; rfl
  | cons v rest ih =>
      intro hpre
      rw [List.cons_append, vinLoop, hpre v (List.mem_cons_self v rest)]
      exact ih (fun x hx => hpre x (List.mem_cons_of_mem _ hx))

/-- The input loop stops with `some false` at a coinbase input. -/
theorem vinLoop_cons_false (tx : Transaction) (h : Option Int) (n : Option String)
    (cb : Vin) (rest : List Vin) (hcb : cb.is_coinbase = true) :
    vinLoop tx h n (cb :: rest) = some false := by
  rw [vinLoop, checkVin, if_pos hcb]

/-- Under passing preliminary checks, `isNonStandard` is the input loop
followed by the output loop. -/
theorem isNonStandard_eq (tx : Transaction) (h : Option Int) (n : Option String)
    (hp : prelimPass tx h n = true) :
    isNonStandard tx h n =
      (match vinLoop tx h n tx.vin with
        | some b => b
        | none =>
            match voutLoop 0 tx.vout with
            | none => true
            | some c => decide (c > 1)) := by
  simp only [prelimPass, Bool.and_eq_true, Bool.not_eq_true', decide_eq_true_eq] at hp
  obtain ⟨⟨⟨h1, h2⟩, h3⟩, h4⟩ := hp
  rw [isNonStandard, if_neg (by simp [h1]), if_neg (by omega), if_neg (by omega),
    if_neg (by simp [h4])]

/-- A standard verdict entails the preliminary checks all passed. -/
theorem prelim_of_not_nonstandard {tx : Transaction} {h : Option Int} {n : Option String}
    (hf : isNonStandard tx h n = false) : prelimPass tx h n = true := by
  rw [isNonStandard] at hf
  simp only [prelimPass, Bool.and_eq_true, Bool.not_eq_true', decide_eq_true_eq]
  split at hf
  · exact absurd hf (by simp)
  · split at hf
    · exact absurd hf (by simp)
    · split at hf
      · exact absurd hf (by simp)
      · split at hf
        · exact absurd hf (by simp)
        · rename_i h1 h2 h3 h4
          refine ⟨⟨⟨?_, ?_⟩, ?_⟩, ?_⟩
          · simpa using h1
          · omega
          · omega
          · simpa using h4

/-- C3: if the preliminary version/weight/size/sigops checks pass and the
input list reaches a coinbase input before any input that would stop the
loop, `isNonStandard` returns `false` for the whole transaction; the
result does not depend on the inputs after the coinbase or on the outputs
(any replacement of them that keeps the preliminary checks passing yields
`false` as well). -/
theorem coinbase_shortcircuits_validation (tx : Transaction) (h : Option Int)
    (n : Option String) (pre rest : List Vin) (cb : Vin)
    (hsplit : tx.vin = pre ++ cb :: rest)
    (hcb : cb.is_coinbase = true)
    (hpre : ∀ v ∈ pre, checkVin tx h n v = none)
    (hprelim : prelimPass tx h n = true) :
    isNonStandard tx h n = false ∧
    ∀ (rest2 : List Vin) (vout2 : List Vout),
      prelimPass { tx with vin := pre ++ cb :: rest2, vout := vout2 } h n = true →
      isNonStandard { tx with vin := pre ++ cb :: rest2, vout := vout2 } h n = false := by
  constructor
  · rw [isNonStandard_eq tx h n hprelim, hsplit,
      vinLoop_append_none tx h n (cb :: rest) pre hpre,
      vinLoop_cons_false tx h n cb rest hcb]
  · intro rest2 vout2 hp2
    rw [isNonStandard_eq _ h n hp2,
      show ({ tx with vin := pre ++ cb :: rest2, vout := vout2 } : Transaction).vin
        = pre ++ cb :: rest2 from rfl,
      vinLoop_tx_agnostic _ tx h n (pre ++ cb :: rest2),
      vinLoop_append_none tx h n (cb :: rest2) pre hpre,
      vinLoop_cons_false tx h n cb rest2 hcb]

/-- C3 witness: the two-`op_return` coinbase transaction short-circuits
to standard, and stays standard under any replacement suffix/outputs that
keep the preliminary checks passing. -/
theorem coinbase_shortcircuits_validation_witness :
    isNonStandard exTxTwoOpReturnsCoinbase none none = false ∧
    ∀ (rest2 : List Vin) (vout2 : List Vout),
      prelimPass { exTxTwoOpReturnsCoinbase with vin := [] ++ exVinCoinbase :: rest2, vout := vout2 } none none = true →
      isNonStandard { exTxTwoOpReturnsCoinbase with vin := [] ++ exVinCoinbase :: rest2, vout := vout2 } none none = false :=
  coinbase_shortcircuits_validation exTxTwoOpReturnsCoinbase none none [] [] exVinCoinbase
    (by decide) (by decide) (by simp) (by decide)

/-- The preliminary checks never read the outputs. -/
theorem prelimPass_vout_irrel (tx : Transaction) (h : Option Int) (n : Option String)
    (l : List Vout) : prelimPass { tx with vout := l } h n = prelimPass tx h n := rfl

/-- The output loop splits over list append. -/
theorem voutLoop_append :
    ∀ (l1 l2 : List Vout) (count : Nat),
      voutLoop count (l1 ++ l2) =
        match voutLoop count l1 with
        | none => none
        | some c => voutLoop c l2 := by
  intro l1
  induction l1 with
  | nil => intro l2 count; rfl
  | cons o rest ih =>
      intro l2 count
      simp only [List.cons_append, voutLoop]
      rcases hs : voutStep count o with _ | c
      · simp
      · simp only []
        exact ih l2 c

/-- The type checks of an output iteration never read the value. -/
theorem voutTypeCheck_value_irrel (count : Nat) (o : Vout) (x : Int) :
    voutTypeCheck count { o with value := x } = voutTypeCheck count o := rfl

/-- For a non-`op_return` output the step is the type checks followed by
the dust comparison. -/
theorem voutStep_eq_of_typeCheck (count : Nat) (o : Vout) (ct : Nat)
    (ht : voutTypeCheck count o = some ct) (hop : o.scriptpubkey_type ≠ "op_return") :
    voutStep count o =
      if 2 * o.value < 3 * (dustSize2 o.scriptpubkey : Int) then none else some ct := by
  rw [voutStep, ht]
  show (if o.scriptpubkey_type ≠ "op_return" then
      (if 2 * o.value < 3 * (dustSize2 o.scriptpubkey : Int) then none else some ct)
    else some ct) = _
  rw [if_pos hop]

/-- Re-running `isNonStandard` with replaced outputs, once the input loop
is known to fall through, is just the output loop on the new outputs. -/
theorem isNonStandard_vout_replay (tx : Transaction) (h : Option Int) (n : Option String)
    (l : List Vout)
    (hp : prelimPass tx h n = true)
    (hvl : vinLoop tx h n tx.vin = none) :
    isNonStandard { tx with vout := l } h n =
      (match voutLoop 0 l with | none => true | some c => decide (c > 1)) := by
  have hp2 : prelimPass { tx with vout := l } h n = true := by
    rw [prelimPass_vout_irrel]; exact hp
  rw [isNonStandard_eq _ _ _ hp2,
    show ({ tx with vout := l } : Transaction).vin = tx.vin from rfl,
    vinLoop_tx_agnostic ({ tx with vout := l }) tx h n, hvl]

/-- C6 (amended): in a transaction with no coinbase input that is
otherwise standard, replacing a non-`op_return` output's value by its
dust threshold keeps the transaction standard and replacing it by one
satoshi less makes it non-standard; the threshold of the 22-byte P2WPKH
scriptpubkey is 294 satoshis.  (The claim as frozen fails on coinbase
inputs — see the counterexample — since the input loop returns
"standard" for the whole transaction at a coinbase input, before any
dust check runs.) -/
theorem dust_boundary (tx : Transaction) (h : Option Int) (n : Option String)
    (pre post : List Vout) (o : Vout)
    (hcb : ∀ w ∈ tx.vin, w.is_coinbase = false)
    (hop : o.scriptpubkey_type ≠ "op_return")
    (hstd : isNonStandard { tx with vout := pre ++ o :: post } h n = false) :
    (isNonStandard { tx with vout := pre ++ { o with value := dustThreshold o.scriptpubkey } :: post } h n = false ∧
     isNonStandard { tx with vout := pre ++ { o with value := dustThreshold o.scriptpubkey - 1 } :: post } h n = true) ∧
    dustThreshold "00140000000000000000000000000000000000000000" = 294 := by
  have hpbase : prelimPass tx h n = true := by
    rw [← prelimPass_vout_irrel tx h n (pre ++ o :: post)]
    exact prelim_of_not_nonstandard hstd
  rcases hvl : vinLoop tx h n tx.vin with _ | b
  · rw [isNonStandard_vout_replay tx h n (pre ++ o :: post) hpbase hvl,
      voutLoop_append] at hstd
    rcases hpre0 : voutLoop 0 pre with _ | c1
    · simp [hpre0] at hstd
    · simp only [hpre0, voutLoop] at hstd
      rcases hso : voutStep c1 o with _ | c2
      · simp [hso] at hstd
      · simp only [hso] at hstd
        rcases hpost : voutLoop c2 post with _ | c
        · simp [hpost] at hstd
        · simp only [hpost] at hstd
          rcases ht : voutTypeCheck c1 o with _ | ct
          · rw [voutStep, ht] at hso
            exact absurd hso (by simp)
          · have hct : c1 = ct := by
              have h0 := voutTypeCheck_count ht
              rw [if_neg hop] at h0
              omega
            subst hct
            rw [voutStep_eq_of_typeCheck c1 o c1 ht hop] at hso
            split at hso
            · exact absurd hso (by simp)
            · have hc21 : c1 = c2 := by simpa using hso
              subst hc21
              refine ⟨⟨?_, ?_⟩, by decide⟩
              · rw [isNonStandard_vout_replay tx h n _ hpbase hvl, voutLoop_append]
                simp only [hpre0, voutLoop]
                have htD : voutTypeCheck c1 { o with value := dustThreshold o.scriptpubkey } = some c1 := by
                  rw [voutTypeCheck_value_irrel]; exact ht
                have hstepD : voutStep c1 { o with value := dustThreshold o.scriptpubkey } = some c1 := by
                  rw [voutStep_eq_of_typeCheck c1 _ c1 htD hop,
                    if_neg (by
                      show ¬ (2 * dustThreshold o.scriptpubkey < 3 * (dustSize2 o.scriptpubkey : Int))
                      have hD : dustThreshold o.scriptpubkey
                          = ((3 * dustSize2 o.scriptpubkey + 1) / 2 : Nat) := rfl
                      omega)]
                simp only [hstepD, hpost]
                exact hstd
              · rw [isNonStandard_vout_replay tx h n _ hpbase hvl, voutLoop_append]
                simp only [hpre0, voutLoop]
                have htD1 : voutTypeCheck c1 { o with value := dustThreshold o.scriptpubkey - 1 } = some c1 := by
                  rw [voutTypeCheck_value_irrel]; exact ht
                have hstep1 : voutStep c1 { o with value := dustThreshold o.scriptpubkey - 1 } = none := by
                  rw [voutStep_eq_of_typeCheck c1 _ c1 htD1 hop,
                    if_pos (by
                      show 2 * (dustThreshold o.scriptpubkey - 1) < 3 * (dustSize2 o.scriptpubkey : Int)
                      have hD : dustThreshold o.scriptpubkey
                          = ((3 * dustSize2 o.scriptpubkey + 1) / 2 : Nat) := rfl
                      omega)]
                simp [hstep1]
  · rw [isNonStandard_eq _ _ _ (prelim_of_not_nonstandard hstd),
      show ({ tx with vout := pre ++ o :: post } : Transaction).vin = tx.vin from rfl,
      vinLoop_tx_agnostic ({ tx with vout := pre ++ o :: post }) tx h n, hvl] at hstd
    cases b
    · exact absurd hvl (vinLoop_no_coinbase tx.vin hcb)
    · exact absurd hstd (by simp)

/-- C6 witness: a one-input one-output transaction paying a 22-byte P2WPKH
output, value 294 standard, value 293 non-standard. -/
theorem dust_boundary_witness :
    (isNonStandard { exTxPlain with vout := [] ++ { exVoutP2wpkh 294 with value := dustThreshold (exVoutP2wpkh 294).scriptpubkey } :: [] } none none = false ∧
     isNonStandard { exTxPlain with vout := [] ++ { exVoutP2wpkh 294 with value := dustThreshold (exVoutP2wpkh 294).scriptpubkey - 1 } :: [] } none none = true) ∧
    dustThreshold "00140000000000000000000000000000000000000000" = 294 :=
  dust_boundary exTxPlain none none [] [] (exVoutP2wpkh 294)
    (by decide) (by decide) (by decide)

/-- C6 counterexample: behind a coinbase input, a P2WPKH output one
satoshi below its dust threshold is still reported standard, so "value
one satoshi lower is non-standard" fails as frozen. -/
theorem dust_below_threshold_coinbase_standard :
    isNonStandard (exTxCoinbaseP2wpkh 294) none none = false ∧
    isNonStandard (exTxCoinbaseP2wpkh 293) none none = false ∧
    (293 : Int) < dustThreshold "00140000000000000000000000000000000000000000" :=
  ⟨by decide, by decide, by decide⟩

/-! ### Agreement of the strict canonical decoder with the faithful parser -/

theorem getD_lt_of_bytes {b : List Nat} (hb : ∀ x ∈ b, x < 256) {i : Nat}
    (h : i < b.length) : b.getD i 0 < 256 := by
  rw [List.getD_eq_getElem b 0 h]
  exact hb _ (List.getElem_mem h)

theorem jsByte_eq_getD {b : List Nat} {i : Int} (h0 : 0 ≤ i) (h : i < (b.length : Int)) :
    jsByte b i = some (b.getD i.toNat 0) := by
  rw [jsByte, if_pos ⟨h0, h⟩]

theorem orByte_jsByte {b : List Nat} {i : Int} (h0 : 0 ≤ i) (h : i < (b.length : Int)) :
    orByte (jsByte b i) = b.getD i.toNat 0 := by
  rw [jsByte_eq_getD h0 h]; rfl

theorem readInt32u_agree {b : List Nat} {off v o : Nat}
    (h : readInt32uC b off = some (v, o)) :
    readInt32u b (off : Int) = .ok (v, (o : Int)) := by
  rw [readInt32uC] at h
  split at h
  · rename_i hle
    simp only [Option.some.injEq, Prod.mk.injEq] at h
    obtain ⟨hv, ho⟩ := h
    subst hv; subst ho
    rw [readInt32u, if_neg (by omega),
      orByte_jsByte (by omega) (by omega), orByte_jsByte (by omega) (by omega),
      orByte_jsByte (by omega) (by omega), orByte_jsByte (by omega) (by omega),
      show ((off : Int)).toNat = off from by omega,
      show ((off : Int) + 1).toNat = off + 1 from by omega,
      show ((off : Int) + 2).toNat = off + 2 from by omega,
      show ((off : Int) + 3).toNat = off + 3 from by omega]
    simp only [Except.ok.injEq, Prod.mk.injEq]
    exact ⟨by trivial, by push_cast; ring⟩
  · exact absurd h (by simp)

theorem readInt32s_agree {b : List Nat} {off v o : Nat}
    (h : readInt32uC b off = some (v, o)) :
    readInt32s b (off : Int) = .ok (toSigned32 v, (o : Int)) := by
  rw [readInt32s, readInt32u_agree h]; rfl

theorem readInt64_agree {b : List Nat} {off v o : Nat}
    (h : readInt64uC b off = some (v, o)) :
    readInt64 b (off : Int) = .ok (toSigned64 v, (o : Int)) := by
  rw [readInt64uC] at h
  split at h
  · rename_i hle
    simp only [Option.some.injEq, Prod.mk.injEq] at h
    obtain ⟨hv, ho⟩ := h
    subst hv; subst ho
    rw [readInt64, if_neg (by omega)]
    simp only [Except.ok.injEq, Prod.mk.injEq]
    refine ⟨?_, by push_cast; ring⟩
    congr 1
    apply List.foldl_ext
    intro a x hx
    have hx8 : x < 8 := List.mem_range.mp hx
    rw [orByte_jsByte (by omega) (by omega),
      show ((off : Int) + (x : Int)).toNat = off + x from by omega]
  · exact absurd h (by simp)

/-- Every natural below `2 ^ 53` is an exact JS number. -/
theorem jsNumberOfInt_natCast {n : Nat} (h : n < 2 ^ 53) :
    jsNumberOfInt (n : Int) = n := by
  rw [jsNumberOfInt, if_neg (by omega), Int.natAbs_ofNat, roundToDouble, if_pos h]

theorem jsSlice_eq_listSeg {b : List Nat} {s n : Nat} (h : s + n ≤ b.length) :
    jsSlice b (s : Int) ((s : Int) + (n : Int)) = listSeg b s (s + n) := by
  rw [jsSlice, listSeg]
  simp only [if_neg (by omega : ¬((s : Int) < 0)),
    if_neg (by omega : ¬((s : Int) + (n : Int) < 0)),
    show ((s : Int)).toNat = s from by omega,
    show ((s : Int) + (n : Int)).toNat = s + n from by omega,
    Nat.min_eq_left (by omega : s ≤ b.length),
    Nat.min_eq_left (by omega : s + n ≤ b.length)]
  rw [List.drop_take]

theorem readSlice_agree {b : List Nat} {off n o : Nat} {s : List Nat} (ni : Int)
    (hni : ni = (n : Int)) (hn : n < 2 ^ 53)
    (h : readSliceC b off n = some (s, o)) :
    readSlice b (off : Int) ni = .ok (s, (o : Int)) := by
  rw [readSliceC] at h
  split at h
  · rename_i hle
    simp only [Option.some.injEq, Prod.mk.injEq] at h
    obtain ⟨hv, ho⟩ := h
    subst hv; subst ho
    rw [readSlice, hni, jsNumberOfInt_natCast hn]
    rw [if_neg (by omega)]
    simp only [Except.ok.injEq, Prod.mk.injEq]
    exact ⟨jsSlice_eq_listSeg hle, by push_cast; ring⟩
  · exact absurd h (by simp)

theorem readInt32uC_lt {b : List Nat} (hb : ∀ x ∈ b, x < 256) {off v o : Nat}
    (h : readInt32uC b off = some (v, o)) : v < 2 ^ 32 := by
  rw [readInt32uC] at h
  split at h
  · rename_i hle
    simp only [Option.some.injEq, Prod.mk.injEq] at h
    have h0 := getD_lt_of_bytes hb (show off < b.length by omega)
    have h1 := getD_lt_of_bytes hb (show off + 1 < b.length by omega)
    have h2 := getD_lt_of_bytes hb (show off + 2 < b.length by omega)
    have h3 := getD_lt_of_bytes hb (show off + 3 < b.length by omega)
    omega
  · exact absurd h (by simp)

theorem readVarIntC_lt {b : List Nat} (hb : ∀ x ∈ b, x < 256) {off v o : Nat}
    (h : readVarIntC b off = some (v, o)) : v < 2 ^ 32 := by
  simp only [readVarIntC] at h
  split at h
  · rename_i hoff
    split at h
    · rename_i hlt
      simp only [Option.some.injEq, Prod.mk.injEq] at h
      omega
    · split at h
      · split at h
        · rename_i hfd hn1 h3le
          split at h
          · simp only [Option.some.injEq, Prod.mk.injEq] at h
            have h1 := getD_lt_of_bytes hb (show off + 1 < b.length by omega)
            have h2 := getD_lt_of_bytes hb (show off + 2 < b.length by omega)
            omega
          · exact absurd h (by simp)
        · exact absurd h (by simp)
      · split at h
        · split at h
          · rename_i heq32
            split at h
            · simp only [Option.some.injEq, Prod.mk.injEq] at h
              have := readInt32uC_lt hb heq32
              omega
            · exact absurd h (by simp)
          · exact absurd h (by simp)
        · exact absurd h (by simp)
  · exact absurd h (by simp)

theorem readVarInt_agree {b : List Nat} {off v o : Nat}
    (h : readVarIntC b off = some (v, o)) :
    readVarInt b (off : Int) = .ok ((v : Int), (o : Int)) := by
  simp only [readVarIntC] at h
  split at h
  · rename_i hoff
    have h8 : readInt8 b (off : Int) = .ok (some (b.getD off 0), ((off + 1 : Nat) : Int)) := by
      rw [readInt8, if_neg (by omega), jsByte_eq_getD (by omega) (by omega),
        show ((off : Int)).toNat = off from by omega]
      simp only [Except.ok.injEq, Prod.mk.injEq]
      exact ⟨by trivial, by push_cast; ring⟩
    simp only [readVarInt, bind, Except.bind, h8]
    split at h
    · rename_i hlt
      simp only [Option.some.injEq, Prod.mk.injEq] at h
      obtain ⟨hv, ho⟩ := h
      subst hv; subst ho
      rw [if_pos hlt]
    · rename_i hnlt
      split at h
      · rename_i hfd
        split at h
        · rename_i h3le
          split at h
          · simp only [Option.some.injEq, Prod.mk.injEq] at h
            obtain ⟨hv, ho⟩ := h
            subst hv; subst ho
            rw [if_neg hnlt, if_pos hfd]
            have h16 : readInt16 b ((off + 1 : Nat) : Int) =
                .ok (b.getD (off + 1) 0 + 256 * b.getD (off + 2) 0, ((off + 3 : Nat) : Int)) := by
              rw [readInt16, if_neg (by omega),
                orByte_jsByte (by omega) (by omega), orByte_jsByte (by omega) (by omega),
                show (((off + 1 : Nat) : Int)).toNat = off + 1 from by omega,
                show (((off + 1 : Nat) : Int) + 1).toNat = off + 2 from by omega]
              simp only [Except.ok.injEq, Prod.mk.injEq]
              exact ⟨by trivial, by push_cast; ring⟩
            rw [h16]
            rfl
          · exact absurd h (by simp)
        · exact absurd h (by simp)
      · split at h
        · rename_i hnfd hfe
          split at h
          · rename_i heq32
            split at h
            · simp only [Option.some.injEq, Prod.mk.injEq] at h
              obtain ⟨hv, ho⟩ := h
              subst hv; subst ho
              rw [if_neg hnlt, if_neg hnfd, if_pos hfe, readInt32u_agree heq32]
              rfl
            · exact absurd h (by simp)
          · exact absurd h (by simp)
        · exact absurd h (by simp)
  · exact absurd h (by simp)

theorem readVarSlice_agree {b : List Nat} (hb : ∀ x ∈ b, x < 256) {off o : Nat}
    {s : List Nat} (h : readVarSliceC b off = some (s, o)) :
    readVarSlice b (off : Int) = .ok (s, (o : Int)) := by
  rw [readVarSliceC] at h
  rcases hvi : readVarIntC b off with _ | ⟨n, o1⟩
  · simp [hvi] at h
  · simp only [hvi, bind, Option.bind] at h
    rw [readVarSlice, readVarInt_agree hvi]
    exact readSlice_agree ((n : Nat) : Int) rfl (by have := readVarIntC_lt hb hvi; omega) h

theorem readVectorAux_agree {b : List Nat} (hb : ∀ x ∈ b, x < 256) :
    ∀ (cnt off o : Nat) (vs : List (List Nat)),
      readVectorAuxC b cnt off = some (vs, o) →
      readVectorAux b cnt (off : Int) = .ok (vs, (o : Int)) := by
  intro cnt
  induction cnt with
  | zero =>
      intro off o vs h
      simp only [readVectorAuxC, Option.some.injEq, Prod.mk.injEq] at h
      obtain ⟨h1, h2⟩ := h
      subst h1; subst h2
      rfl
  | succ n ih =>
      intro off o vs h
      rw [readVectorAuxC] at h
      rcases hvs : readVarSliceC b off with _ | ⟨sl, o1⟩
      · simp [hvs] at h
      · simp only [hvs, bind, Option.bind] at h
        rcases hrest : readVectorAuxC b n o1 with _ | ⟨rest, o2⟩
        · simp [hrest] at h
        · simp only [hrest, bind, Option.bind, Option.some.injEq, Prod.mk.injEq] at h
          obtain ⟨h1, h2⟩ := h
          subst h1; subst h2
          simp only [readVectorAux, bind, Except.bind, readVarSlice_agree hb hvs,
            ih o1 o2 rest hrest]

theorem readVector_agree {b : List Nat} (hb : ∀ x ∈ b, x < 256) {off o : Nat}
    {vs : List (List Nat)} (h : readVectorC b off = some (vs, o)) :
    readVector b (off : Int) = .ok (vs, (o : Int)) := by
  rw [readVectorC] at h
  rcases hvi : readVarIntC b off with _ | ⟨n, o1⟩
  · simp [hvi] at h
  · simp only [hvi, bind, Option.bind] at h
    simp only [readVector, bind, Except.bind, readVarInt_agree hvi]
    rw [show ((n : Int)).toNat = n from by omega]
    exact readVectorAux_agree hb n o1 o vs h

theorem parseVin_agree {b : List Nat} (hb : ∀ x ∈ b, x < 256) {off o : Nat}
    {v : Vin} (h : parseVinC b off = some (v, o)) :
    parseVin b (off : Int) = .ok (v, (o : Int)) := by
  rw [parseVinC] at h
  rcases h1 : readSliceC b off 32 with _ | ⟨tb, o1⟩
  · simp [h1] at h
  · simp only [h1, bind, Option.bind] at h
    rcases h2 : readInt32uC b o1 with _ | ⟨vout, o2⟩
    · simp [h2] at h
    · simp only [h2, bind, Option.bind] at h
      rcases h3 : readVarSliceC b o2 with _ | ⟨ss, o3⟩
      · simp [h3] at h
      · simp only [h3, bind, Option.bind] at h
        rcases h4 : readInt32uC b o3 with _ | ⟨seqv, o4⟩
        · simp [h4] at h
        · simp only [h4, bind, Option.bind, Option.some.injEq, Prod.mk.injEq] at h
          obtain ⟨hv, ho⟩ := h
          subst hv; subst ho
          simp only [parseVin, bind, Except.bind,
            readSlice_agree (32 : Int) (by norm_num) (by norm_num) h1,
            readInt32u_agree h2, readVarSlice_agree hb h3, readInt32u_agree h4]

theorem parseVinList_agree {b : List Nat} (hb : ∀ x ∈ b, x < 256) :
    ∀ (cnt off o : Nat) (vs : List Vin),
      parseVinListC b cnt off = some (vs, o) →
      parseVinList b cnt (off : Int) = .ok (vs, (o : Int)) := by
  intro cnt
  induction cnt with
  | zero =>
      intro off o vs h
      simp only [parseVinListC, Option.some.injEq, Prod.mk.injEq] at h
      obtain ⟨h1, h2⟩ := h
      subst h1; subst h2
      rfl
  | succ n ih =>
      intro off o vs h
      rw [parseVinListC] at h
      rcases hv1 : parseVinC b off with _ | ⟨v1, o1⟩
      · simp [hv1] at h
      · simp only [hv1, bind, Option.bind] at h
        rcases hrest : parseVinListC b n o1 with _ | ⟨rest, o2⟩
        · simp [hrest] at h
        · simp only [hrest, bind, Option.bind, Option.some.injEq, Prod.mk.injEq] at h
          obtain ⟨h1, h2⟩ := h
          subst h1; subst h2
          simp only [parseVinList, bind, Except.bind, parseVin_agree hb hv1,
            ih o1 o2 rest hrest]

theorem parseVout_agree {b : List Nat} (hb : ∀ x ∈ b, x < 256) {net : String}
    {off o : Nat} {v : Vout} (h : parseVoutC b net off = some (v, o)) :
    parseVout b net (off : Int) = .ok (v, (o : Int)) := by
  rw [parseVoutC] at h
  rcases h1 : readInt64uC b off with _ | ⟨v64, o1⟩
  · simp [h1] at h
  · simp only [h1, bind, Option.bind] at h
    split at h
    · rename_i hexact
      rcases h2 : readVarSliceC b o1 with _ | ⟨spk, o2⟩
      · simp [h2] at h
      · simp only [h2, bind, Option.bind, Option.some.injEq, Prod.mk.injEq] at h
        obtain ⟨hv, ho⟩ := h
        subst hv; subst ho
        simp only [parseVout, bind, Except.bind, readInt64_agree h1,
          readVarSlice_agree hb h2, hexact]
    · exact absurd h (by simp)

theorem parseVoutList_agree {b : List Nat} (hb : ∀ x ∈ b, x < 256) {net : String} :
    ∀ (cnt off o : Nat) (vs : List Vout),
      parseVoutListC b net cnt off = some (vs, o) →
      parseVoutList b net cnt (off : Int) = .ok (vs, (o : Int)) := by
  intro cnt
  induction cnt with
  | zero =>
      intro off o vs h
      simp only [parseVoutListC, Option.some.injEq, Prod.mk.injEq] at h
      obtain ⟨h1, h2⟩ := h
      subst h1; subst h2
      rfl
  | succ n ih =>
      intro off o vs h
      rw [parseVoutListC] at h
      rcases hv1 : parseVoutC b net off with _ | ⟨v1, o1⟩
      · simp [hv1] at h
      · simp only [hv1, bind, Option.bind] at h
        rcases hrest : parseVoutListC b net n o1 with _ | ⟨rest, o2⟩
        · simp [hrest] at h
        · simp only [hrest, bind, Option.bind, Option.some.injEq, Prod.mk.injEq] at h
          obtain ⟨h1, h2⟩ := h
          subst h1; subst h2
          simp only [parseVoutList, bind, Except.bind, parseVout_agree hb hv1,
            ih o1 o2 rest hrest]

theorem parseWitnessList_agree {b : List Nat} (hb : ∀ x ∈ b, x < 256) :
    ∀ (vins : List Vin) (off o : Nat) (vs : List Vin),
      parseWitnessListC b vins off = some (vs, o) →
      parseWitnessList b vins (off : Int) = .ok (vs, (o : Int)) := by
  intro vins
  induction vins with
  | nil =>
      intro off o vs h
      simp only [parseWitnessListC, Option.some.injEq, Prod.mk.injEq] at h
      obtain ⟨h1, h2⟩ := h
      subst h1; subst h2
      rfl
  | cons v rest ih =>
      intro off o vs h
      rw [parseWitnessListC] at h
      rcases hv1 : readVectorC b off with _ | ⟨vec, o1⟩
      · simp [hv1] at h
      · simp only [hv1, bind, Option.bind] at h
        rcases hrest : parseWitnessListC b rest o1 with _ | ⟨rest2, o2⟩
        · simp [hrest] at h
        · simp only [hrest, bind, Option.bind, Option.some.injEq, Prod.mk.injEq] at h
          obtain ⟨h1, h2⟩ := h
          subst h1; subst h2
          simp only [parseWitnessList, bind, Except.bind, readVector_agree hb hv1,
            ih o1 o2 rest2 hrest]

/-- A buffer the strict canonical decoder accepts is decoded identically
by the faithful parser. -/
theorem fromBufferC_agree {b : List Nat} (hb : ∀ x ∈ b, x < 256) {net : String}
    {tx : Transaction} {la : ParseLayout}
    (h : fromBufferCparts b net = some (tx, la)) :
    fromBufferParts b net txid = .ok (tx, la) := by
  rw [fromBufferCparts] at h
  rcases h1 : readInt32uC b 0 with _ | ⟨v32, o1⟩
  · simp [h1] at h
  · simp only [h1, bind, Option.bind] at h
    split at h
    · rename_i hm2
      have e1 := readInt32s_agree h1
      rw [Nat.cast_zero] at e1
      have e2 : readInt8 b ((o1 : Nat) : Int) =
          .ok (some (b.getD o1 0), ((o1 + 1 : Nat) : Int)) := by
        rw [readInt8, if_neg (by omega), jsByte_eq_getD (by omega) (by omega),
          show ((o1 : Int)).toNat = o1 from by omega]
        simp only [Except.ok.injEq, Prod.mk.injEq]
        exact ⟨by trivial, by push_cast; ring⟩
      have e3 : readInt8 b ((o1 + 1 : Nat) : Int) =
          .ok (some (b.getD (o1 + 1) 0), ((o1 + 2 : Nat) : Int)) := by
        rw [readInt8, if_neg (by omega), jsByte_eq_getD (by omega) (by omega),
          show (((o1 + 1 : Nat) : Int)).toNat = o1 + 1 from by omega]
        simp only [Except.ok.injEq, Prod.mk.injEq]
        exact ⟨by trivial, by push_cast; ring⟩
      by_cases hW : (b.getD o1 0 = 0x00 ∧ b.getD (o1 + 1) 0 = 0x01)
      · simp only [eq_true hW, ite_true] at h
        have hWF : (some (b.getD o1 0) = some 0x00 ∧
            some (b.getD (o1 + 1) 0) = some 0x01) := ⟨by rw [hW.1], by rw [hW.2]⟩
        rcases h5 : readVarIntC b (o1 + 2) with _ | ⟨vinCount, o5⟩
        · simp [h5] at h
        · simp only [h5, bind, Option.bind] at h
          rcases h6 : parseVinListC b vinCount o5 with _ | ⟨vins, o6⟩
          · simp [h6] at h
          · simp only [h6, bind, Option.bind] at h
            rcases h7 : readVarIntC b o6 with _ | ⟨voutCount, o7⟩
            · simp [h7] at h
            · simp only [h7, bind, Option.bind] at h
              rcases h8 : parseVoutListC b net voutCount o7 with _ | ⟨vouts, o8⟩
              · simp [h8] at h
              · simp only [h8, bind, Option.bind] at h
                rcases h9 : parseWitnessListC b vins o8 with _ | ⟨vins2, o9⟩
                · simp [h9] at h
                · simp only [h9, bind, Option.bind] at h
                  rcases h10 : readInt32uC b o9 with _ | ⟨locktime, o10⟩
                  · simp [h10] at h
                  · simp only [h10, bind, Option.bind] at h
                    split at h
                    · rename_i hlen
                      simp only [Option.some.injEq, Prod.mk.injEq] at h
                      obtain ⟨htx, hla⟩ := h
                      subst htx; subst hla
                      simp only [fromBufferParts, bind, Except.bind, e1, e2, e3,
                        eq_true hWF, ite_true]
                      simp only [bind, Except.bind, readVarInt_agree h5]
                      rw [show ((vinCount : Int)).toNat = vinCount from by omega]
                      simp only [bind, Except.bind, parseVinList_agree hb vinCount o5 o6 vins h6,
                        readVarInt_agree h7]
                      rw [show ((voutCount : Int)).toNat = voutCount from by omega]
                      simp only [bind, Except.bind,
                        parseVoutList_agree hb voutCount o7 o8 vouts h8]
                      simp only [bind, Except.bind, pure, Except.pure,
                        parseWitnessList_agree hb vins o8 o9 vins2 h9,
                        readInt32u_agree h10]
                      subst hlen
                      rw [if_neg (by simp)]
                    · exact absurd h (by simp)
      · simp only [eq_false hW, ite_false] at h
        have hWF : ¬ (some (b.getD o1 0) = some 0x00 ∧
            some (b.getD (o1 + 1) 0) = some 0x01) := by simpa using hW
        rcases h5 : readVarIntC b o1 with _ | ⟨vinCount, o5⟩
        · simp [h5] at h
        · simp only [h5, bind, Option.bind] at h
          rcases h6 : parseVinListC b vinCount o5 with _ | ⟨vins, o6⟩
          · simp [h6] at h
          · simp only [h6, bind, Option.bind] at h
            rcases h7 : readVarIntC b o6 with _ | ⟨voutCount, o7⟩
            · simp [h7] at h
            · simp only [h7, bind, Option.bind] at h
              rcases h8 : parseVoutListC b net voutCount o7 with _ | ⟨vouts, o8⟩
              · simp [h8] at h
              · simp only [h8, bind, Option.bind] at h
                rcases h10 : readInt32uC b o8 with _ | ⟨locktime, o10⟩
                · simp [h10] at h
                · simp only [h10, bind, Option.bind] at h
                  split at h
                  · rename_i hlen
                    simp only [Option.some.injEq, Prod.mk.injEq] at h
                    obtain ⟨htx, hla⟩ := h
                    subst htx; subst hla
                    simp only [fromBufferParts, bind, Except.bind, e1, e2, e3,
                      eq_false hWF, ite_false]
                    simp only [bind, Except.bind, readVarInt_agree h5]
                    rw [show ((vinCount : Int)).toNat = vinCount from by omega]
                    simp only [bind, Except.bind, parseVinList_agree hb vinCount o5 o6 vins h6,
                      readVarInt_agree h7]
                    rw [show ((voutCount : Int)).toNat = voutCount from by omega]
                    simp only [bind, Except.bind,
                      parseVoutList_agree hb voutCount o7 o8 vouts h8]
                    simp only [bind, Except.bind, pure, Except.pure,
                      readInt32u_agree h10]
                    subst hlen
                    rw [if_neg (by simp)]
                  · exact absurd h (by simp)
    · exact absurd h (by simp)

theorem hexCharVal_getD_lt (c : Char) : (hexCharVal c).getD 0 < 16 := by
  rw [hexCharVal]
  split
  · rename_i h
    have h1 : 48 ≤ c.toNat := h.1
    have h2 : c.toNat ≤ 57 := h.2
    have hz : Char.toNat '0' = 48 := rfl
    simp only [Option.getD]
    omega
  · split
    · rename_i h
      have h1 : 97 ≤ c.toNat := h.1
      have h2 : c.toNat ≤ 102 := h.2
      have hz : Char.toNat 'a' = 97 := rfl
      simp only [Option.getD]
      omega
    · split
      · rename_i h
        have h1 : 65 ≤ c.toNat := h.1
        have h2 : c.toNat ≤ 70 := h.2
        have hz : Char.toNat 'A' = 65 := rfl
        simp only [Option.getD]
        omega
      · simp [Option.getD]

theorem hexPairsToBytes_lt : ∀ cs : List Char, ∀ x ∈ hexPairsToBytes cs, x < 256
  | [] => by simp [hexPairsToBytes]
  | [_] => by simp [hexPairsToBytes]
  | c1 :: c2 :: rest => by
      intro x hx
      rw [hexPairsToBytes] at hx
      rcases List.mem_cons.mp hx with h | h
      · subst h
        have hv1 := hexCharVal_getD_lt c1
        have hv2 := hexCharVal_getD_lt c2
        omega
      · exact hexPairsToBytes_lt rest x h

/-- Every entry of a parsed hex buffer is a byte. -/
theorem hexBytes_lt (s : String) : ∀ x ∈ hexStringToUint8Array s, x < 256 :=
  hexPairsToBytes_lt s.data

/-- Each structural reader produces only a success or a structural error. -/
theorem structural_map {γ δ : Type} {x : Except DecodeErr γ} (g : γ → δ)
    (hx : StructuralResult x) : StructuralResult (x.map g) := by
  rcases hx with ⟨r, hr⟩ | h | h | h
  · rw [hr]; exact Or.inl ⟨g r, rfl⟩
  · rw [h]; exact Or.inr (Or.inl rfl)
  · rw [h]; exact Or.inr (Or.inr (Or.inl rfl))
  · rw [h]; exact Or.inr (Or.inr (Or.inr rfl))

/-- An error a structural reader raised, repackaged at any result type. -/
theorem structural_error_case {γ δ : Type} {x : Except DecodeErr γ} {e : DecodeErr}
    (hx : StructuralResult x) (he : x = .error e) :
    StructuralResult (Except.error e : Except DecodeErr δ) := by
  rcases hx with ⟨r, hr⟩ | h | h | h
  · rw [he] at hr
    exact absurd hr (by simp)
  · rw [he] at h
    simp only [Except.error.injEq] at h
    rw [h]
    exact Or.inr (Or.inl rfl)
  · rw [he] at h
    simp only [Except.error.injEq] at h
    rw [h]
    exact Or.inr (Or.inr (Or.inl rfl))
  · rw [he] at h
    simp only [Except.error.injEq] at h
    rw [h]
    exact Or.inr (Or.inr (Or.inr rfl))

theorem readInt8_structural (b : List Nat) (off : Int) : StructuralResult (readInt8 b off) := by
  simp only [readInt8]
  split
  · exact Or.inr (Or.inl rfl)
  · exact Or.inl ⟨_, rfl⟩

theorem readInt16_structural (b : List Nat) (off : Int) :
    StructuralResult (readInt16 b off) := by
  simp only [readInt16]
  split
  · exact Or.inr (Or.inl rfl)
  · exact Or.inl ⟨_, rfl⟩

theorem readInt32u_structural (b : List Nat) (off : Int) :
    StructuralResult (readInt32u b off) := by
  simp only [readInt32u]
  split
  · exact Or.inr (Or.inl rfl)
  · exact Or.inl ⟨_, rfl⟩

theorem readInt32s_structural (b : List Nat) (off : Int) :
    StructuralResult (readInt32s b off) :=
  structural_map _ (readInt32u_structural b off)

theorem readInt64_structural (b : List Nat) (off : Int) :
    StructuralResult (readInt64 b off) := by
  simp only [readInt64]
  split
  · exact Or.inr (Or.inl rfl)
  · exact Or.inl ⟨_, rfl⟩

theorem readSlice_structural (b : List Nat) (off n : Int) :
    StructuralResult (readSlice b off n) := by
  simp only [readSlice]
  split
  · exact Or.inr (Or.inl rfl)
  · exact Or.inl ⟨_, rfl⟩

theorem readVarInt_structural (b : List Nat) (off : Int) :
    StructuralResult (readVarInt b off) := by
  rw [readVarInt]
  rcases e1 : readInt8 b off with err | ⟨first, o1⟩
  · simp only [e1, bind, Except.bind]
    exact structural_error_case (readInt8_structural b off) e1
  · rcases first with _ | v
    · simp only [e1, bind, Except.bind]
      exact Or.inr (Or.inr (Or.inl rfl))
    · simp only [e1, bind, Except.bind]
      split
      · exact Or.inl ⟨_, rfl⟩
      · split
        · exact structural_map _ (readInt16_structural b o1)
        · split
          · exact structural_map _ (readInt32u_structural b o1)
          · split
            · exact readInt64_structural b o1
            · exact Or.inr (Or.inr (Or.inl rfl))

theorem readVarSlice_structural (b : List Nat) (off : Int) :
    StructuralResult (readVarSlice b off) := by
  rw [readVarSlice]
  rcases e1 : readVarInt b off with err | ⟨n, o1⟩
  · simp only [e1, bind, Except.bind]
    exact structural_error_case (readVarInt_structural b off) e1
  · simp only [e1, bind, Except.bind]
    exact readSlice_structural b o1 n

theorem readVectorAux_structural (b : List Nat) :
    ∀ (n : Nat) (off : Int), StructuralResult (readVectorAux b n off) := by
  intro n
  induction n with
  | zero => intro off; exact Or.inl ⟨_, rfl⟩
  | succ m ih =>
      intro off
      show StructuralResult (readVectorAux b (m + 1) off)
      rw [readVectorAux]
      rcases e1 : readVarSlice b off with err | ⟨sl, o1⟩
      · simp only [e1, bind, Except.bind]
        exact structural_error_case (readVarSlice_structural b off) e1
      · simp only [e1, bind, Except.bind]
        rcases e2 : readVectorAux b m o1 with err | ⟨rest, o2⟩
        · simp only [e2, bind, Except.bind]
          exact structural_error_case (ih o1) e2
        · simp only [e2, bind, Except.bind]
          exact Or.inl ⟨_, rfl⟩

theorem readVector_structural (b : List Nat) (off : Int) :
    StructuralResult (readVector b off) := by
  rw [readVector]
  rcases e1 : readVarInt b off with err | ⟨count, o1⟩
  · simp only [e1, bind, Except.bind]
    exact structural_error_case (readVarInt_structural b off) e1
  · simp only [e1, bind, Except.bind]
    exact readVectorAux_structural b count.toNat o1

theorem parseVin_structural (b : List Nat) (off : Int) :
    StructuralResult (parseVin b off) := by
  rw [parseVin]
  rcases e1 : readSlice b off 32 with err | ⟨txidBytes, o1⟩
  · simp only [e1, bind, Except.bind]
    exact structural_error_case (readSlice_structural b off 32) e1
  · simp only [e1, bind, Except.bind]
    rcases e2 : readInt32u b o1 with err | ⟨vout, o2⟩
    · simp only [e2, bind, Except.bind]
      exact structural_error_case (readInt32u_structural b o1) e2
    · simp only [e2, bind, Except.bind]
      rcases e3 : readVarSlice b o2 with err | ⟨ssBytes, o3⟩
      · simp only [e3, bind, Except.bind]
        exact structural_error_case (readVarSlice_structural b o2) e3
      · simp only [e3, bind, Except.bind]
        rcases e4 : readInt32u b o3 with err | ⟨seqv, o4⟩
        · simp only [e4, bind, Except.bind]
          exact structural_error_case (readInt32u_structural b o3) e4
        · simp only [e4, bind, Except.bind]
          exact Or.inl ⟨_, rfl⟩

theorem parseVinList_structural (b : List Nat) :
    ∀ (n : Nat) (off : Int), StructuralResult (parseVinList b n off) := by
  intro n
  induction n with
  | zero => intro off; exact Or.inl ⟨_, rfl⟩
  | succ m ih =>
      intro off
      show StructuralResult (parseVinList b (m + 1) off)
      rw [parseVinList]
      rcases e1 : parseVin b off with err | ⟨v, o1⟩
      · simp only [e1, bind, Except.bind]
        exact structural_error_case (parseVin_structural b off) e1
      · simp only [e1, bind, Except.bind]
        rcases e2 : parseVinList b m o1 with err | ⟨rest, o2⟩
        · simp only [e2, bind, Except.bind]
          exact structural_error_case (ih o1) e2
        · simp only [e2, bind, Except.bind]
          exact Or.inl ⟨_, rfl⟩

theorem parseVout_structural (b : List Nat) (net : String) (off : Int) :
    StructuralResult (parseVout b net off) := by
  rw [parseVout]
  rcases e1 : readInt64 b off with err | ⟨v64, o1⟩
  · simp only [e1, bind, Except.bind]
    exact structural_error_case (readInt64_structural b off) e1
  · simp only [e1, bind, Except.bind]
    rcases e2 : readVarSlice b o1 with err | ⟨spkBytes, o2⟩
    · simp only [e2, bind, Except.bind]
      exact structural_error_case (readVarSlice_structural b o1) e2
    · simp only [e2, bind, Except.bind]
      exact Or.inl ⟨_, rfl⟩

theorem parseVoutList_structural (b : List Nat) (net : String) :
    ∀ (n : Nat) (off : Int), StructuralResult (parseVoutList b net n off) := by
  intro n
  induction n with
  | zero => intro off; exact Or.inl ⟨_, rfl⟩
  | succ m ih =>
      intro off
      show StructuralResult (parseVoutList b net (m + 1) off)
      rw [parseVoutList]
      rcases e1 : parseVout b net off with err | ⟨v, o1⟩
      · simp only [e1, bind, Except.bind]
        exact structural_error_case (parseVout_structural b net off) e1
      · simp only [e1, bind, Except.bind]
        rcases e2 : parseVoutList b net m o1 with err | ⟨rest, o2⟩
        · simp only [e2, bind, Except.bind]
          exact structural_error_case (ih o1) e2
        · simp only [e2, bind, Except.bind]
          exact Or.inl ⟨_, rfl⟩

theorem parseWitnessList_structural (b : List Nat) :
    ∀ (l : List Vin) (off : Int), StructuralResult (parseWitnessList b l off) := by
  intro l
  induction l with
  | nil => intro off; exact Or.inl ⟨_, rfl⟩
  | cons v rest ih =>
      intro off
      show StructuralResult (parseWitnessList b (v :: rest) off)
      rw [parseWitnessList]
      rcases e1 : readVector b off with err | ⟨vec, o1⟩
      · simp only [e1, bind, Except.bind]
        exact structural_error_case (readVector_structural b off) e1
      · simp only [e1, bind, Except.bind]
        rcases e2 : parseWitnessList b rest o1 with err | ⟨rest2, o2⟩
        · simp only [e2, bind, Except.bind]
          exact structural_error_case (ih o1) e2
        · simp only [e2, bind, Except.bind]
          exact Or.inl ⟨_, rfl⟩

/-- The faithful parse never raises the hex error: its result is a
transaction or one of the three structural errors. -/
theorem fromBufferParts_structural (b : List Nat) (net : String)
    (txidOf : Transaction → String) :
    StructuralResult (fromBufferParts b net txidOf) := by
  rw [fromBufferParts]
  rcases e1 : readInt32s b 0 with err | ⟨version, o1⟩
  · simp only [e1, bind, Except.bind]
    exact structural_error_case (readInt32s_structural b 0) e1
  · simp only [e1, bind, Except.bind]
    rcases e2 : readInt8 b o1 with err | ⟨marker, o2⟩
    · simp only [e2, bind, Except.bind]
      exact structural_error_case (readInt8_structural b o1) e2
    · simp only [e2, bind, Except.bind]
      rcases e3 : readInt8 b o2 with err | ⟨flag, o3⟩
      · simp only [e3, bind, Except.bind]
        exact structural_error_case (readInt8_structural b o2) e3
      · simp only [e3, bind, Except.bind]
        by_cases hW : (marker = some 0x00 ∧ flag = some 0x01)
        · simp only [eq_true hW, ite_true]
          rcases e5 : readVarInt b o3 with err | ⟨vinCount, o5⟩
          · simp only [e5, bind, Except.bind]
            exact structural_error_case (readVarInt_structural b o3) e5
          · simp only [e5, bind, Except.bind]
            rcases e6 : parseVinList b vinCount.toNat o5 with err | ⟨vins, o6⟩
            · simp only [e6, bind, Except.bind]
              exact structural_error_case (parseVinList_structural b vinCount.toNat o5) e6
            · simp only [e6, bind, Except.bind]
              rcases e7 : readVarInt b o6 with err | ⟨voutCount, o7⟩
              · simp only [e7, bind, Except.bind]
                exact structural_error_case (readVarInt_structural b o6) e7
              · simp only [e7, bind, Except.bind]
                rcases e8 : parseVoutList b net voutCount.toNat o7 with err | ⟨vouts, o8⟩
                · simp only [e8, bind, Except.bind]
                  exact structural_error_case (parseVoutList_structural b net voutCount.toNat o7) e8
                · simp only [e8, bind, Except.bind]
                  rcases e9 : parseWitnessList b vins o8 with err | ⟨ws, o9⟩
                  · simp only [e9, bind, Except.bind]
                    exact structural_error_case (parseWitnessList_structural b vins o8) e9
                  · simp only [e9, bind, Except.bind, pure, Except.pure]
                    rcases e10 : readInt32u b o9 with err | ⟨locktime, o10⟩
                    · simp only [e10, bind, Except.bind]
                      exact structural_error_case (readInt32u_structural b o9) e10
                    · simp only [e10, bind, Except.bind]
                      split
                      · exact Or.inr (Or.inr (Or.inr rfl))
                      · exact Or.inl ⟨_, rfl⟩
        · simp only [eq_false hW, ite_false]
          rcases e5 : readVarInt b o1 with err | ⟨vinCount, o5⟩
          · simp only [e5, bind, Except.bind]
            exact structural_error_case (readVarInt_structural b o1) e5
          · simp only [e5, bind, Except.bind]
            rcases e6 : parseVinList b vinCount.toNat o5 with err | ⟨vins, o6⟩
            · simp only [e6, bind, Except.bind]
              exact structural_error_case (parseVinList_structural b vinCount.toNat o5) e6
            · simp only [e6, bind, Except.bind]
              rcases e7 : readVarInt b o6 with err | ⟨voutCount, o7⟩
              · simp only [e7, bind, Except.bind]
                exact structural_error_case (readVarInt_structural b o6) e7
              · simp only [e7, bind, Except.bind]
                rcases e8 : parseVoutList b net voutCount.toNat o7 with err | ⟨vouts, o8⟩
                · simp only [e8, bind, Except.bind]
                  exact structural_error_case (parseVoutList_structural b net voutCount.toNat o7) e8
                · simp only [e8, bind, Except.bind, pure, Except.pure]
                  rcases e10 : readInt32u b o8 with err | ⟨locktime, o10⟩
                  · simp only [e10, bind, Except.bind]
                    exact structural_error_case (readInt32u_structural b o8) e10
                  · simp only [e10, bind, Except.bind]
                    split
                    · exact Or.inr (Or.inr (Or.inr rfl))
                    · exact Or.inl ⟨_, rfl⟩

/-- For well-formed hex the decode is structural: it returns a transaction
or a read-past-the-end, invalid-varint or trailing-bytes error. -/
theorem decodeRawTransaction_structural (s net : String) (hv : hexValid s = true) :
    StructuralResult (decodeRawTransaction s net) := by
  rw [hexValid] at hv
  simp only [Bool.and_eq_true, decide_eq_true_eq] at hv
  obtain ⟨⟨h1, h2⟩, h3⟩ := hv
  rw [decodeRawTransaction, if_neg (by simp [h1, h2, h3])]
  exact structural_map _ (fromBufferParts_structural _ _ _)

/-- C5 (amended): `decodeRawTransaction` fails with the hex error exactly
on malformed hex (empty, odd length, or a non-hex character); on
well-formed hex its result is a decoded transaction or one of exactly
three structural errors: a read past the end of the buffer, an invalid
varint prefix, or unconsumed trailing bytes.  So the decode fails if and
only if the hex is malformed or the structural decode fails, and the only
correction to the frozen enumeration is the invalid-varint mode the
counterexample exhibits. -/
theorem decode_error_characterization (s net : String) :
    (hexValid s = false ↔ decodeRawTransaction s net = .error .invalidHex) ∧
    (hexValid s = true →
      (∃ tx, decodeRawTransaction s net = .ok tx) ∨
      decodeRawTransaction s net = .error .outOfBounds ∨
      decodeRawTransaction s net = .error .invalidVarInt ∨
      decodeRawTransaction s net = .error .trailing) := by
  constructor
  · constructor
    · intro hf
      rw [decodeRawTransaction]
      split
      · rfl
      · rename_i hcond
        exfalso
        push_neg at hcond
        obtain ⟨hc1, hc2, hc3⟩ := hcond
        have hvt : hexValid s = true := by
          rw [hexValid]
          simp [hc1, hc2, hc3]
        rw [hvt] at hf
        simp at hf
    · intro he
      cases hhv : hexValid s
      · rfl
      · exfalso
        rcases decodeRawTransaction_structural s net hhv with ⟨tx, h⟩ | h | h | h <;>
          rw [he] at h <;> simp at h
  · intro hv
    exact decodeRawTransaction_structural s net hv

/-- C5 counterexample: a 27-byte valid-hex buffer whose scriptsig length
is the 9-byte varint `ff 00 00 00 00 00 00 00 80` (the signed BigInt
`-2 ^ 63`): decoding fails with the `Invalid VarInt prefix` error — an
error the claim's enumeration (bad hex, read past the end, trailing
bytes) does not contain, reached because the negative slice length pulls
the cursor below zero and the next byte read is JS `undefined`. -/
theorem negative_varint_decode_error :
    hexValid rawNegativeVarInt = true ∧
    decodeRawTransaction rawNegativeVarInt "" = .error .invalidVarInt :=
  ⟨by decide, by decide⟩

/-! ### Serialization reproduces the parsed bytes -/

theorem listSeg_nil {l : List Nat} {a : Nat} : listSeg l a a = [] := by
  simp [listSeg]

theorem listSeg_cons {l : List Nat} {a e : Nat} (h : a < l.length) (he : a < e) :
    listSeg l a e = l.getD a 0 :: listSeg l (a + 1) e := by
  rw [listSeg, listSeg, List.drop_eq_getElem_cons h,
    show e - a = (e - (a + 1)) + 1 from by omega, List.take_succ_cons,
    List.getD_eq_getElem l 0 h]

theorem listSeg_append {l : List Nat} {a m c : Nat} (h1 : a ≤ m) (h2 : m ≤ c) :
    listSeg l a m ++ listSeg l m c = listSeg l a c := by
  rw [listSeg, listSeg, listSeg, show c - a = (m - a) + (c - m) from by omega,
    List.take_add, List.drop_drop, show a + (m - a) = m from by omega]

theorem listSeg_length {l : List Nat} {a e : Nat} (h : e ≤ l.length) (hae : a ≤ e) :
    (listSeg l a e).length = e - a := by
  simp [listSeg, List.length_take, List.length_drop]
  omega

theorem mem_listSeg {l : List Nat} {a e : Nat} {x : Nat} (h : x ∈ listSeg l a e) :
    x ∈ l := by
  rw [listSeg] at h
  exact List.mem_of_mem_drop (List.mem_of_mem_take h)

theorem hexCharVal_hexDigitChar : ∀ d < 16, hexCharVal (hexDigitChar d) = some d := by
  decide

theorem hex_roundtrip : ∀ bs : List Nat, (∀ x ∈ bs, x < 256) →
    hexStringToUint8Array (uint8ArrayToHexString bs) = bs := by
  intro bs
  induction bs with
  | nil => intro _; rfl
  | cons bhd rest ih =>
      intro hall
      have hb : bhd < 256 := hall _ (List.mem_cons_self _ _)
      show hexPairsToBytes (((bhd :: rest).map byteToHex).flatten) = bhd :: rest
      rw [List.map_cons, List.flatten_cons, byteToHex, List.cons_append, List.cons_append,
        List.nil_append, hexPairsToBytes]
      congr 1
      · rw [hexCharVal_hexDigitChar (bhd / 16 % 16) (by omega),
          hexCharVal_hexDigitChar (bhd % 16) (by omega)]
        simp only [Option.getD]
        omega
      · exact ih (fun x hx => hall x (List.mem_cons_of_mem _ hx))

theorem intToBytes_of_readInt32uC {b : List Nat} (hb : ∀ x ∈ b, x < 256) {off v o : Nat}
    (h : readInt32uC b off = some (v, o)) (x : Int) (hx : x.emod (2 ^ 32) = (v : Int)) :
    intToBytes x 4 = listSeg b off o ∧ o = off + 4 ∧ o ≤ b.length := by
  rw [readInt32uC] at h
  split at h
  · rename_i hle
    simp only [Option.some.injEq, Prod.mk.injEq] at h
    obtain ⟨hv, ho⟩ := h
    subst ho
    refine ⟨?_, rfl, by omega⟩
    have hd0 := getD_lt_of_bytes hb (show off < b.length by omega)
    have hd1 := getD_lt_of_bytes hb (show off + 1 < b.length by omega)
    have hd2 := getD_lt_of_bytes hb (show off + 2 < b.length by omega)
    have hd3 := getD_lt_of_bytes hb (show off + 3 < b.length by omega)
    have hxn : (x.emod (2 ^ 32)).toNat = v := by omega
    rw [intToBytes, show List.range 4 = [0, 1, 2, 3] from rfl]
    simp only [List.map_cons, List.map_nil, hxn]
    rw [listSeg_cons (by omega) (by omega), listSeg_cons (by omega) (by omega),
      listSeg_cons (by omega) (by omega), listSeg_cons (by omega) (by omega), listSeg_nil,
      show (off + 1 + 1 : Nat) = off + 2 from rfl,
      show (off + 2 + 1 : Nat) = off + 3 from rfl]
    simp only [Nat.shiftRight_eq_div_pow, Nat.reduceMul, Nat.reducePow, List.cons.injEq,
      eq_self_iff_true, and_true, true_and]
    omega
  · exact absurd h (by simp)

theorem bigIntToBytes_of_readInt64uC {b : List Nat} (hb : ∀ x ∈ b, x < 256) {off v o : Nat}
    (h : readInt64uC b off = some (v, o)) (x : Int) (hx : x.emod (2 ^ 64) = (v : Int)) :
    bigIntToBytes x 8 = listSeg b off o ∧ o = off + 8 ∧ o ≤ b.length := by
  rw [readInt64uC] at h
  split at h
  · rename_i hle
    simp only [Option.some.injEq, Prod.mk.injEq] at h
    obtain ⟨hv, ho⟩ := h
    subst ho
    refine ⟨?_, rfl, by omega⟩
    have hd0 := getD_lt_of_bytes hb (show off < b.length by omega)
    have hd1 := getD_lt_of_bytes hb (show off + 1 < b.length by omega)
    have hd2 := getD_lt_of_bytes hb (show off + 2 < b.length by omega)
    have hd3 := getD_lt_of_bytes hb (show off + 3 < b.length by omega)
    have hd4 := getD_lt_of_bytes hb (show off + 4 < b.length by omega)
    have hd5 := getD_lt_of_bytes hb (show off + 5 < b.length by omega)
    have hd6 := getD_lt_of_bytes hb (show off + 6 < b.length by omega)
    have hd7 := getD_lt_of_bytes hb (show off + 7 < b.length by omega)
    rw [show List.range 8 = [0, 1, 2, 3, 4, 5, 6, 7] from rfl] at hv
    simp only [List.foldl_cons, List.foldl_nil, Nat.reducePow,
      show (off + 0 : Nat) = off from rfl] at hv
    have hxn : (x.emod (2 ^ 64)).toNat = v := by omega
    rw [bigIntToBytes, show List.range 8 = [0, 1, 2, 3, 4, 5, 6, 7] from rfl]
    simp only [List.map_cons, List.map_nil, show 8 * 8 = 64 from rfl, hxn]
    rw [listSeg_cons (by omega) (by omega), listSeg_cons (by omega) (by omega),
      listSeg_cons (by omega) (by omega), listSeg_cons (by omega) (by omega),
      listSeg_cons (by omega) (by omega), listSeg_cons (by omega) (by omega),
      listSeg_cons (by omega) (by omega), listSeg_cons (by omega) (by omega), listSeg_nil,
      show (off + 1 + 1 : Nat) = off + 2 from rfl,
      show (off + 2 + 1 : Nat) = off + 3 from rfl,
      show (off + 3 + 1 : Nat) = off + 4 from rfl,
      show (off + 4 + 1 : Nat) = off + 5 from rfl,
      show (off + 5 + 1 : Nat) = off + 6 from rfl,
      show (off + 6 + 1 : Nat) = off + 7 from rfl]
    simp only [Nat.shiftRight_eq_div_pow, Nat.reduceMul, Nat.reducePow, List.cons.injEq,
      eq_self_iff_true, and_true, true_and]
    omega
  · exact absurd h (by simp)

theorem readVarIntC_seg {b : List Nat} (hb : ∀ x ∈ b, x < 256) {off v o : Nat}
    (h : readVarIntC b off = some (v, o)) :
    varIntToBytes v = listSeg b off o ∧ o = off + (varIntToBytes v).length ∧ o ≤ b.length := by
  simp only [readVarIntC] at h
  split at h
  · rename_i hoff
    split at h
    · rename_i hlt
      simp only [Option.some.injEq, Prod.mk.injEq] at h
      obtain ⟨hv, ho⟩ := h
      subst hv; subst ho
      rw [varIntToBytes, if_pos hlt,
        listSeg_cons (by omega) (by omega), listSeg_nil]
      exact ⟨rfl, rfl, by omega⟩
    · rename_i hnlt
      split at h
      · rename_i hfd
        split at h
        · rename_i h3le
          split at h
          · rename_i hge
            simp only [Option.some.injEq, Prod.mk.injEq] at h
            obtain ⟨hv, ho⟩ := h
            subst ho
            have hd1 := getD_lt_of_bytes hb (show off + 1 < b.length by omega)
            have hd2 := getD_lt_of_bytes hb (show off + 2 < b.length by omega)
            have hsh : v >>> 8 = v / 256 := by
              rw [Nat.shiftRight_eq_div_pow]
            constructor
            · rw [varIntToBytes, if_neg (by omega), if_pos (by omega),
                listSeg_cons (by omega) (by omega), listSeg_cons (by omega) (by omega),
                listSeg_cons (by omega) (by omega), listSeg_nil,
                show (off + 1 + 1 : Nat) = off + 2 from rfl, hfd]
              simp only [List.cons.injEq, eq_self_iff_true, and_true, true_and]
              refine ⟨by omega, by rw [hsh]; omega⟩
            · rw [varIntToBytes, if_neg (by omega), if_pos (by omega)]
              exact ⟨rfl, by omega⟩
          · exact absurd h (by simp)
        · exact absurd h (by simp)
      · split at h
        · rename_i hnfd hfe
          split at h
          · rename_i vv oo heq32
            split at h
            · rename_i hge
              simp only [Option.some.injEq, Prod.mk.injEq] at h
              obtain ⟨hv, ho⟩ := h
              rw [← hv, ← ho]
              rw [readInt32uC] at heq32
              split at heq32
              · rename_i hle32
                simp only [Option.some.injEq, Prod.mk.injEq] at heq32
                obtain ⟨hv32, ho32⟩ := heq32
                subst ho32
                rw [show (off + 1 + 1 : Nat) = off + 2 from rfl,
                  show (off + 1 + 2 : Nat) = off + 3 from rfl,
                  show (off + 1 + 3 : Nat) = off + 4 from rfl] at hv32
                have hd1 := getD_lt_of_bytes hb (show off + 1 < b.length by omega)
                have hd2 := getD_lt_of_bytes hb (show off + 2 < b.length by omega)
                have hd3 := getD_lt_of_bytes hb (show off + 3 < b.length by omega)
                have hd4 := getD_lt_of_bytes hb (show off + 4 < b.length by omega)
                have hbytes : varIntToBytes vv = 0xfe :: intToBytes (vv : Int) 4 := by
                  rw [varIntToBytes, if_neg (by omega), if_neg (by omega), if_pos (by omega)]
                constructor
                · rw [hbytes, intToBytes, show List.range 4 = [0, 1, 2, 3] from rfl]
                  simp only [List.map_cons, List.map_nil,
                    show ((vv : Int).emod (2 ^ 32)).toNat = vv from by
                      change ((vv : Int) % 4294967296).toNat = vv
                      omega]
                  rw [listSeg_cons (by omega) (by omega), listSeg_cons (by omega) (by omega),
                    listSeg_cons (by omega) (by omega), listSeg_cons (by omega) (by omega),
                    listSeg_cons (by omega) (by omega), listSeg_nil,
                    show (off + 1 + 1 : Nat) = off + 2 from rfl,
                    show (off + 2 + 1 : Nat) = off + 3 from rfl,
                    show (off + 3 + 1 : Nat) = off + 4 from rfl, hfe]
                  simp only [Nat.shiftRight_eq_div_pow, Nat.reduceMul, Nat.reducePow,
                    List.cons.injEq, eq_self_iff_true, and_true, true_and]
                  omega
                · rw [hbytes, intToBytes]
                  simp only [List.length_cons, List.length_map, List.length_range]
                  exact ⟨by trivial, by omega⟩
              · exact absurd heq32 (by simp)
            · exact absurd h (by simp)
          · exact absurd h (by simp)
        · exact absurd h (by simp)
  · exact absurd h (by simp)

theorem readSliceC_seg {b : List Nat} {off n o : Nat} {s : List Nat}
    (h : readSliceC b off n = some (s, o)) :
    s = listSeg b off o ∧ o = off + n ∧ o ≤ b.length := by
  rw [readSliceC] at h
  split at h
  · rename_i hle
    simp only [Option.some.injEq, Prod.mk.injEq] at h
    obtain ⟨hv, ho⟩ := h
    subst ho
    exact ⟨hv.symm, rfl, by omega⟩
  · exact absurd h (by simp)

theorem readVarSliceC_seg {b : List Nat} (hb : ∀ x ∈ b, x < 256) {off o : Nat}
    {s : List Nat} (h : readVarSliceC b off = some (s, o)) :
    varIntToBytes s.length ++ s = listSeg b off o ∧ off ≤ o ∧ o ≤ b.length ∧
      (∀ x ∈ s, x < 256) := by
  rw [readVarSliceC] at h
  rcases hvi : readVarIntC b off with _ | ⟨n, o1⟩
  · simp [hvi] at h
  · simp only [hvi, bind, Option.bind] at h
    obtain ⟨hseg1, ho1, hle1⟩ := readVarIntC_seg hb hvi
    obtain ⟨hs, ho, hle⟩ := readSliceC_seg h
    have hlen : s.length = n := by
      rw [hs, listSeg_length (by omega) (by omega)]
      omega
    subst hs
    constructor
    · rw [hlen, hseg1]
      exact listSeg_append (by omega) (by omega)
    · exact ⟨by omega, by omega, fun x hx => hb x (mem_listSeg hx)⟩

theorem listSeg_all {b : List Nat} : listSeg b 0 b.length = b := by
  simp [listSeg]

theorem readInt64uC_lt {b : List Nat} (hb : ∀ x ∈ b, x < 256) {off v o : Nat}
    (h : readInt64uC b off = some (v, o)) : v < 2 ^ 64 := by
  rw [readInt64uC] at h
  split at h
  · rename_i hle
    simp only [Option.some.injEq, Prod.mk.injEq] at h
    obtain ⟨hv, ho⟩ := h
    have hd0 := getD_lt_of_bytes hb (show off < b.length by omega)
    have hd1 := getD_lt_of_bytes hb (show off + 1 < b.length by omega)
    have hd2 := getD_lt_of_bytes hb (show off + 2 < b.length by omega)
    have hd3 := getD_lt_of_bytes hb (show off + 3 < b.length by omega)
    have hd4 := getD_lt_of_bytes hb (show off + 4 < b.length by omega)
    have hd5 := getD_lt_of_bytes hb (show off + 5 < b.length by omega)
    have hd6 := getD_lt_of_bytes hb (show off + 6 < b.length by omega)
    have hd7 := getD_lt_of_bytes hb (show off + 7 < b.length by omega)
    rw [show List.range 8 = [0, 1, 2, 3, 4, 5, 6, 7] from rfl] at hv
    simp only [List.foldl_cons, List.foldl_nil, Nat.reducePow,
      show (off + 0 : Nat) = off from rfl] at hv
    omega
  · exact absurd h (by simp)

/-- One parsed input serializes back to its byte segment. -/
theorem parseVinC_seg {b : List Nat} (hb : ∀ x ∈ b, x < 256) {off o : Nat} {v : Vin}
    (h : parseVinC b off = some (v, o)) :
    (hexStringToUint8Array v.txid).reverse ++ intToBytes (v.vout : Int) 4 ++
      varIntToBytes (hexStringToUint8Array v.scriptsig).length ++
      hexStringToUint8Array v.scriptsig ++ intToBytes (v.sequence : Int) 4
      = listSeg b off o ∧ off ≤ o ∧ o ≤ b.length := by
  rw [parseVinC] at h
  rcases h1 : readSliceC b off 32 with _ | ⟨tb, o1⟩
  · simp [h1] at h
  · simp only [h1, bind, Option.bind] at h
    rcases h2 : readInt32uC b o1 with _ | ⟨vout, o2⟩
    · simp [h2] at h
    · simp only [h2, bind, Option.bind] at h
      rcases h3 : readVarSliceC b o2 with _ | ⟨ss, o3⟩
      · simp [h3] at h
      · simp only [h3, bind, Option.bind] at h
        rcases h4 : readInt32uC b o3 with _ | ⟨seqv, o4⟩
        · simp [h4] at h
        · simp only [h4, bind, Option.bind, Option.some.injEq, Prod.mk.injEq] at h
          obtain ⟨hv, ho⟩ := h
          subst hv; subst ho
          obtain ⟨hs1, ho1, hl1⟩ := readSliceC_seg h1
          have hx2 : ((vout : Nat) : Int).emod (2 ^ 32) = ((vout : Nat) : Int) := by
            have := readInt32uC_lt hb h2
            change ((vout : Nat) : Int) % 4294967296 = _
            omega
          obtain ⟨hs2, ho2, hl2⟩ := intToBytes_of_readInt32uC hb h2 _ hx2
          obtain ⟨hs3, hm3, hl3, hby3⟩ := readVarSliceC_seg hb h3
          have hx4 : ((seqv : Nat) : Int).emod (2 ^ 32) = ((seqv : Nat) : Int) := by
            have := readInt32uC_lt hb h4
            change ((seqv : Nat) : Int) % 4294967296 = _
            omega
          obtain ⟨hs4, ho4, hl4⟩ := intToBytes_of_readInt32uC hb h4 _ hx4
          refine ⟨?_, by omega, by omega⟩
          have htb : ∀ x ∈ tb, x < 256 := by
            intro x hx
            exact hb x (mem_listSeg (hs1 ▸ hx))
          have hrt : hexStringToUint8Array (uint8ArrayToHexString tb.reverse) = tb.reverse :=
            hex_roundtrip tb.reverse (fun x hx => htb x (List.mem_reverse.mp hx))
          have hrs : hexStringToUint8Array (uint8ArrayToHexString ss) = ss :=
            hex_roundtrip ss hby3
          show (hexStringToUint8Array (uint8ArrayToHexString tb.reverse)).reverse ++
              intToBytes ((vout : Nat) : Int) 4 ++
              varIntToBytes (hexStringToUint8Array (uint8ArrayToHexString ss)).length ++
              hexStringToUint8Array (uint8ArrayToHexString ss) ++
              intToBytes ((seqv : Nat) : Int) 4 = listSeg b off o4
          rw [hrt, hrs, List.reverse_reverse,
            List.append_assoc (tb ++ intToBytes ((vout : Nat) : Int) 4)
              (varIntToBytes ss.length) ss,
            hs1, hs2, hs3, hs4,
            listSeg_append (by omega) (by omega), listSeg_append (by omega) (by omega),
            listSeg_append (by omega) (by omega)]

/-- The parsed input list serializes back to its byte segment. -/
theorem parseVinListC_seg {b : List Nat} (hb : ∀ x ∈ b, x < 256) :
    ∀ (cnt off o : Nat) (vs : List Vin),
      parseVinListC b cnt off = some (vs, o) →
      (vs.map (fun input =>
        (hexStringToUint8Array input.txid).reverse ++ intToBytes (input.vout : Int) 4 ++
        varIntToBytes (hexStringToUint8Array input.scriptsig).length ++
        hexStringToUint8Array input.scriptsig ++
        intToBytes (input.sequence : Int) 4)).flatten = listSeg b off o ∧
      vs.length = cnt ∧ off ≤ o := by
  intro cnt
  induction cnt with
  | zero =>
      intro off o vs h
      simp only [parseVinListC, Option.some.injEq, Prod.mk.injEq] at h
      obtain ⟨h1, h2⟩ := h
      subst h1; subst h2
      exact ⟨listSeg_nil.symm, rfl, le_refl _⟩
  | succ n ih =>
      intro off o vs h
      rw [parseVinListC] at h
      rcases hv1 : parseVinC b off with _ | ⟨v1, o1⟩
      · simp [hv1] at h
      · simp only [hv1, bind, Option.bind] at h
        rcases hrest : parseVinListC b n o1 with _ | ⟨rest, o2⟩
        · simp [hrest] at h
        · simp only [hrest, bind, Option.bind, Option.some.injEq, Prod.mk.injEq] at h
          obtain ⟨h1, h2⟩ := h
          subst h1; subst h2
          obtain ⟨hseg1, hm1, hl1⟩ := parseVinC_seg hb hv1
          obtain ⟨hseg2, hlen2, hm2⟩ := ih o1 o2 rest hrest
          refine ⟨?_, by simp [hlen2], by omega⟩
          rw [List.map_cons, List.flatten_cons, hseg1, hseg2,
            listSeg_append (by omega) (by omega)]

/-- One parsed output serializes back to its byte segment. -/
theorem parseVoutC_seg {b : List Nat} (hb : ∀ x ∈ b, x < 256) {net : String}
    {off o : Nat} {v : Vout} (h : parseVoutC b net off = some (v, o)) :
    bigIntToBytes v.value 8 ++
      varIntToBytes (hexStringToUint8Array v.scriptpubkey).length ++
      hexStringToUint8Array v.scriptpubkey = listSeg b off o ∧ off ≤ o ∧ o ≤ b.length := by
  rw [parseVoutC] at h
  rcases h1 : readInt64uC b off with _ | ⟨v64, o1⟩
  · simp [h1] at h
  · simp only [h1, bind, Option.bind] at h
    split at h
    · rename_i hexact
      rcases h2 : readVarSliceC b o1 with _ | ⟨spk, o2⟩
      · simp [h2] at h
      · simp only [h2, bind, Option.bind, Option.some.injEq, Prod.mk.injEq] at h
        obtain ⟨hv, ho⟩ := h
        subst hv; subst ho
        have h64lt := readInt64uC_lt hb h1
        have hx1 : (toSigned64 v64).emod (2 ^ 64) = (v64 : Int) := by
          rw [toSigned64]
          split
          · change (v64 : Int) % 18446744073709551616 = _
            omega
          · change ((v64 : Int) - 18446744073709551616) % 18446744073709551616 = _
            omega
        obtain ⟨hs1, ho1, hl1⟩ := bigIntToBytes_of_readInt64uC hb h1 _ hx1
        obtain ⟨hs2, hm2, hl2, hby2⟩ := readVarSliceC_seg hb h2
        refine ⟨?_, by omega, by omega⟩
        have hrs : hexStringToUint8Array (uint8ArrayToHexString spk) = spk :=
          hex_roundtrip spk hby2
        show bigIntToBytes (toSigned64 v64) 8 ++
            varIntToBytes (hexStringToUint8Array (uint8ArrayToHexString spk)).length ++
            hexStringToUint8Array (uint8ArrayToHexString spk) = listSeg b off o2
        rw [hrs, List.append_assoc, hs1, hs2, listSeg_append (by omega) (by omega)]
    · exact absurd h (by simp)

/-- The parsed output list serializes back to its byte segment. -/
theorem parseVoutListC_seg {b : List Nat} (hb : ∀ x ∈ b, x < 256) {net : String} :
    ∀ (cnt off o : Nat) (vs : List Vout),
      parseVoutListC b net cnt off = some (vs, o) →
      (vs.map (fun output =>
        bigIntToBytes output.value 8 ++
        varIntToBytes (hexStringToUint8Array output.scriptpubkey).length ++
        hexStringToUint8Array output.scriptpubkey)).flatten = listSeg b off o ∧
      vs.length = cnt ∧ off ≤ o := by
  intro cnt
  induction cnt with
  | zero =>
      intro off o vs h
      simp only [parseVoutListC, Option.some.injEq, Prod.mk.injEq] at h
      obtain ⟨h1, h2⟩ := h
      subst h1; subst h2
      exact ⟨listSeg_nil.symm, rfl, le_refl _⟩
  | succ n ih =>
      intro off o vs h
      rw [parseVoutListC] at h
      rcases hv1 : parseVoutC b net off with _ | ⟨v1, o1⟩
      · simp [hv1] at h
      · simp only [hv1, bind, Option.bind] at h
        rcases hrest : parseVoutListC b net n o1 with _ | ⟨rest, o2⟩
        · simp [hrest] at h
        · simp only [hrest, bind, Option.bind, Option.some.injEq, Prod.mk.injEq] at h
          obtain ⟨h1, h2⟩ := h
          subst h1; subst h2
          obtain ⟨hseg1, hm1, hl1⟩ := parseVoutC_seg hb hv1
          obtain ⟨hseg2, hlen2, hm2⟩ := ih o1 o2 rest hrest
          refine ⟨?_, by simp [hlen2], by omega⟩
          rw [List.map_cons, List.flatten_cons, hseg1, hseg2,
            listSeg_append (by omega) (by omega)]

/-- Attaching witness stacks changes no serialized field. -/
theorem parseWitnessListC_fields {b : List Nat} :
    ∀ (vins : List Vin) (off o : Nat) (vs : List Vin),
      parseWitnessListC b vins off = some (vs, o) →
      (vs.map (fun input =>
        (hexStringToUint8Array input.txid).reverse ++ intToBytes (input.vout : Int) 4 ++
        varIntToBytes (hexStringToUint8Array input.scriptsig).length ++
        hexStringToUint8Array input.scriptsig ++
        intToBytes (input.sequence : Int) 4)) =
      (vins.map (fun input =>
        (hexStringToUint8Array input.txid).reverse ++ intToBytes (input.vout : Int) 4 ++
        varIntToBytes (hexStringToUint8Array input.scriptsig).length ++
        hexStringToUint8Array input.scriptsig ++
        intToBytes (input.sequence : Int) 4)) ∧
      vs.length = vins.length := by
  intro vins
  induction vins with
  | nil =>
      intro off o vs h
      simp only [parseWitnessListC, Option.some.injEq, Prod.mk.injEq] at h
      obtain ⟨h1, h2⟩ := h
      subst h1; subst h2
      exact ⟨rfl, rfl⟩
  | cons v rest ih =>
      intro off o vs h
      rw [parseWitnessListC] at h
      rcases hv1 : readVectorC b off with _ | ⟨vec, o1⟩
      · simp [hv1] at h
      · simp only [hv1, bind, Option.bind] at h
        rcases hrest : parseWitnessListC b rest o1 with _ | ⟨rest2, o2⟩
        · simp [hrest] at h
        · simp only [hrest, bind, Option.bind, Option.some.injEq, Prod.mk.injEq] at h
          obtain ⟨h1, h2⟩ := h
          subst h1; subst h2
          obtain ⟨hmap, hlen⟩ := ih o1 o2 rest2 hrest
          simp only [List.map_cons, List.length_cons, hmap, hlen]
          exact ⟨by trivial, by trivial⟩

/-- Serializing a strictly decoded transaction reproduces exactly the
non-witness bytes of the buffer, and its stored identifier is the one its
own serialization hashes to. -/
theorem fromBufferC_serialize {b : List Nat} (hb : ∀ x ∈ b, x < 256) {net : String}
    {tx : Transaction} {la : ParseLayout}
    (h : fromBufferCparts b net = some (tx, la)) :
    serializeTransaction tx = nonWitnessBytes b la ∧ tx.txid = txid tx ∧
    tx.size = b.length := by
  rw [fromBufferCparts] at h
  rcases h1 : readInt32uC b 0 with _ | ⟨v32, o1⟩
  · simp [h1] at h
  · simp only [h1, bind, Option.bind] at h
    split at h
    · rename_i hm2
      have hxv : (toSigned32 v32).emod (2 ^ 32) = (v32 : Int) := by
        have := readInt32uC_lt hb h1
        rw [toSigned32]
        split
        · change (v32 : Int) % 4294967296 = _
          omega
        · change ((v32 : Int) - 4294967296) % 4294967296 = _
          omega
      obtain ⟨hsV, hoV, hlV⟩ := intToBytes_of_readInt32uC hb h1 _ hxv
      have ho1 : o1 = 4 := by omega
      subst ho1
      by_cases hW : (b.getD 4 0 = 0x00 ∧ b.getD (4 + 1) 0 = 0x01)
      · simp only [eq_true hW, ite_true] at h
        rcases h5 : readVarIntC b (4 + 2) with _ | ⟨vinCount, o5⟩
        · simp [h5] at h
        · simp only [h5, bind, Option.bind] at h
          rcases h6 : parseVinListC b vinCount o5 with _ | ⟨vins, o6⟩
          · simp [h6] at h
          · simp only [h6, bind, Option.bind] at h
            rcases h7 : readVarIntC b o6 with _ | ⟨voutCount, o7⟩
            · simp [h7] at h
            · simp only [h7, bind, Option.bind] at h
              rcases h8 : parseVoutListC b net voutCount o7 with _ | ⟨vouts, o8⟩
              · simp [h8] at h
              · simp only [h8, bind, Option.bind] at h
                rcases h9 : parseWitnessListC b vins o8 with _ | ⟨vins2, o9⟩
                · simp [h9] at h
                · simp only [h9, bind, Option.bind] at h
                  rcases h10 : readInt32uC b o9 with _ | ⟨locktime, o10⟩
                  · simp [h10] at h
                  · simp only [h10, bind, Option.bind] at h
                    split at h
                    · rename_i hlen
                      simp only [Option.some.injEq, Prod.mk.injEq] at h
                      obtain ⟨htx, hla⟩ := h
                      subst htx; subst hla
                      obtain ⟨hs5, ho5, hl5⟩ := readVarIntC_seg hb h5
                      obtain ⟨hs6, hlen6, hm6⟩ := parseVinListC_seg hb vinCount o5 o6 vins h6
                      obtain ⟨hs7, ho7, hl7⟩ := readVarIntC_seg hb h7
                      obtain ⟨hs8, hlen8, hm8⟩ :=
                        parseVoutListC_seg hb voutCount o7 o8 vouts h8
                      obtain ⟨hw9, hwlen⟩ := parseWitnessListC_fields vins o8 o9 vins2 h9
                      have hxl : ((locktime : Nat) : Int).emod (2 ^ 32) =
                          ((locktime : Nat) : Int) := by
                        have := readInt32uC_lt hb h10
                        change ((locktime : Nat) : Int) % 4294967296 = _
                        omega
                      obtain ⟨hs10, ho10, hl10⟩ := intToBytes_of_readInt32uC hb h10 _ hxl
                      refine ⟨?_, rfl, rfl⟩
                      simp only [serializeTransaction, nonWitnessBytes]
                      rw [if_pos (by trivial),
                        show ((o8 : Nat) : Int).toNat = o8 from by omega,
                        show ((o9 : Nat) : Int).toNat = o9 from by omega,
                        hwlen, hlen6, hlen8, hw9, hsV, hs5, hs6, hs7, hs8, hs10, hlen,
                        show (4 + 2 : Nat) = 6 from rfl,
                        List.append_assoc (listSeg b 0 4) (listSeg b 6 o5) (listSeg b o5 o6),
                        List.append_assoc (listSeg b 0 4)
                          (listSeg b 6 o5 ++ listSeg b o5 o6) (listSeg b o6 o7),
                        List.append_assoc (listSeg b 0 4)
                          ((listSeg b 6 o5 ++ listSeg b o5 o6) ++ listSeg b o6 o7)
                          (listSeg b o7 o8),
                        listSeg_append (by omega) (by omega),
                        listSeg_append (by omega) (by omega),
                        listSeg_append (by omega) (by omega)]
                    · exact absurd h (by simp)
      · simp only [eq_false hW, ite_false] at h
        rcases h5 : readVarIntC b 4 with _ | ⟨vinCount, o5⟩
        · simp [h5] at h
        · simp only [h5, bind, Option.bind] at h
          rcases h6 : parseVinListC b vinCount o5 with _ | ⟨vins, o6⟩
          · simp [h6] at h
          · simp only [h6, bind, Option.bind] at h
            rcases h7 : readVarIntC b o6 with _ | ⟨voutCount, o7⟩
            · simp [h7] at h
            · simp only [h7, bind, Option.bind] at h
              rcases h8 : parseVoutListC b net voutCount o7 with _ | ⟨vouts, o8⟩
              · simp [h8] at h
              · simp only [h8, bind, Option.bind] at h
                rcases h10 : readInt32uC b o8 with _ | ⟨locktime, o10⟩
                · simp [h10] at h
                · simp only [h10, bind, Option.bind] at h
                  split at h
                  · rename_i hlen
                    simp only [Option.some.injEq, Prod.mk.injEq] at h
                    obtain ⟨htx, hla⟩ := h
                    subst htx; subst hla
                    obtain ⟨hs5, ho5, hl5⟩ := readVarIntC_seg hb h5
                    obtain ⟨hs6, hlen6, hm6⟩ := parseVinListC_seg hb vinCount o5 o6 vins h6
                    obtain ⟨hs7, ho7, hl7⟩ := readVarIntC_seg hb h7
                    obtain ⟨hs8, hlen8, hm8⟩ :=
                      parseVoutListC_seg hb voutCount o7 o8 vouts h8
                    have hxl : ((locktime : Nat) : Int).emod (2 ^ 32) =
                        ((locktime : Nat) : Int) := by
                      have := readInt32uC_lt hb h10
                      change ((locktime : Nat) : Int) % 4294967296 = _
                      omega
                    obtain ⟨hs10, ho10, hl10⟩ := intToBytes_of_readInt32uC hb h10 _ hxl
                    refine ⟨?_, rfl, rfl⟩
                    simp only [serializeTransaction, nonWitnessBytes]
                    rw [if_neg (by simp),
                      hlen6, hlen8, hsV, hs5, hs6, hs7, hs8, hs10, hlen,
                      listSeg_append (by omega) (by omega),
                      listSeg_append (by omega) (by omega),
                      listSeg_append (by omega) (by omega),
                      listSeg_append (by omega) (by omega),
                      listSeg_append (by omega) (by omega), listSeg_all]
                  · exact absurd h (by simp)
    · exact absurd h (by simp)

/-- C4 (amended): on every well-formed raw hex the canonical decoder
accepts — canonical varints below `2 ^ 32` and exactly representable
output values — the source decoder returns the same transaction,
serializing it reproduces exactly the non-witness byte sequence of the
input (marker/flag and witness section stripped), the stored txid is the
hash of that serialization, and any re-decode yields the same txid.  (As
frozen the claim fails for well-formed but non-canonical buffers — see
the counterexample: a three-byte varint encoding 0 decodes fine but
serializes back canonically, changing the bytes.) -/
theorem serialize_roundtrip (s net : String) (tx : Transaction) (la : ParseLayout)
    (hv : hexValid s = true)
    (hC : fromBufferCparts (hexStringToUint8Array s) net = some (tx, la)) :
    decodeRawTransaction s net = .ok tx ∧
    serializeTransaction tx = nonWitnessBytes (hexStringToUint8Array s) la ∧
    tx.txid = txid tx ∧
    (∀ tx2, decodeRawTransaction s net = .ok tx2 → tx2.txid = tx.txid) := by
  have hv' := hv
  rw [hexValid] at hv'
  simp only [Bool.and_eq_true, decide_eq_true_eq] at hv'
  obtain ⟨⟨ha, hb2⟩, hc⟩ := hv'
  have hdec : decodeRawTransaction s net = .ok tx := by
    rw [decodeRawTransaction, if_neg (by simp [ha, hb2, hc]), fromBuffer,
      fromBufferC_agree (hexBytes_lt s) hC]
    rfl
  obtain ⟨hser, htxid, hsize⟩ := fromBufferC_serialize (hexBytes_lt s) hC
  refine ⟨hdec, hser, htxid, ?_⟩
  intro tx2 h2
  rw [hdec] at h2
  injection h2 with h3
  rw [← h3]

/-- C4 witness: the tiny legacy transaction decodes, serializes back to
its own bytes, and keeps its identifier under re-decoding. -/
theorem serialize_roundtrip_witness :
    decodeRawTransaction rawTiny "" = .ok exTxTiny ∧
    serializeTransaction exTxTiny = nonWitnessBytes (hexStringToUint8Array rawTiny) exLaTiny ∧
    exTxTiny.txid = txid exTxTiny ∧
    (∀ tx2, decodeRawTransaction rawTiny "" = .ok tx2 → tx2.txid = exTxTiny.txid) :=
  serialize_roundtrip rawTiny "" exTxTiny exLaTiny (by decide) (by decide)

/-- C4 counterexample: `rawNonCanonical` (scriptsig length written as the
non-canonical varint `fd 00 00`) decodes successfully and carries no
witness data (its weight is four times its size, so the non-witness byte
sequence is the whole input), yet serializing the decoded transaction
does not reproduce the input bytes. -/
theorem noncanonical_varint_breaks_roundtrip :
    (decodeRawTransaction rawNonCanonical "").map
      (fun tx => decide (serializeTransaction tx = hexStringToUint8Array rawNonCanonical))
      = .ok false ∧
    (decodeRawTransaction rawNonCanonical "").map
      (fun tx => decide (tx.weight = 4 * (tx.size : Int))) = .ok true :=
  ⟨by decide, by decide⟩

/-! ### Weight and non-witness size -/

/-- A canonical varint occupies exactly `getVarIntLength` bytes. -/
theorem varIntToBytes_length {n : Nat} (h : n < 2 ^ 32) :
    (varIntToBytes n).length = getVarIntLength n := by
  rw [varIntToBytes, getVarIntLength]
  split_ifs with h1 h2 h3
  · rfl
  · rfl
  · simp [intToBytes]
  · exact absurd (by omega : n ≤ 0xffffffff) h3

/-- The halved-hex varint overhead agrees with the byte-level one. -/
theorem varIntLenOfHexLen_two_mul (n : Nat) :
    varIntLenOfHexLen (2 * n) = getVarIntLength n := by
  rw [varIntLenOfHexLen, getVarIntLength]
  split_ifs <;> omega

/-- Hex rendering doubles the length. -/
theorem uint8Hex_length (bs : List Nat) :
    (uint8ArrayToHexString bs).length = 2 * bs.length := by
  show ((bs.map byteToHex).flatten).length = 2 * bs.length
  induction bs with
  | nil => rfl
  | cons x rest ih =>
      rw [List.map_cons, List.flatten_cons, List.length_append, ih, byteToHex]
      simp
      omega

theorem readVectorAuxC_charge {b : List Nat} (hb : ∀ x ∈ b, x < 256) :
    ∀ (cnt off o : Nat) (vs : List (List Nat)),
      readVectorAuxC b cnt off = some (vs, o) →
      vs.length = cnt ∧ off ≤ o ∧
      ((vs.map uint8ArrayToHexString).map
        (fun w => 2 * varIntLenOfHexLen w.length + w.length)).sum = 2 * (o - off) := by
  intro cnt
  induction cnt with
  | zero =>
      intro off o vs h
      simp only [readVectorAuxC, Option.some.injEq, Prod.mk.injEq] at h
      obtain ⟨h1, h2⟩ := h
      subst h1; subst h2
      simp
  | succ n ih =>
      intro off o vs h
      rw [readVectorAuxC] at h
      rcases hvs : readVarSliceC b off with _ | ⟨sl, o1⟩
      · simp [hvs] at h
      · simp only [hvs, bind, Option.bind] at h
        rcases hrest : readVectorAuxC b n o1 with _ | ⟨rest, o2⟩
        · simp [hrest] at h
        · simp only [hrest, bind, Option.bind, Option.some.injEq, Prod.mk.injEq] at h
          obtain ⟨h1, h2⟩ := h
          subst h1; subst h2
          obtain ⟨hlen, hm, hsum⟩ := ih o1 o2 rest hrest
          rw [readVarSliceC] at hvs
          rcases hvi : readVarIntC b off with _ | ⟨nv, oV⟩
          · simp [hvi] at hvs
          · simp only [hvi, bind, Option.bind] at hvs
            obtain ⟨hs, ho, hl⟩ := readSliceC_seg hvs
            obtain ⟨_, hoV, hlV⟩ := readVarIntC_seg hb hvi
            have hnv32 := readVarIntC_lt hb hvi
            have hslen : sl.length = nv := by
              rw [hs, listSeg_length (by omega) (by omega)]
              omega
            refine ⟨by simp [hlen], by omega, ?_⟩
            rw [List.map_cons, List.map_cons, List.sum_cons, hsum,
              uint8Hex_length, varIntLenOfHexLen_two_mul, hslen]
            have hVlen := varIntToBytes_length hnv32
            omega

theorem readVectorC_charge {b : List Nat} (hb : ∀ x ∈ b, x < 256) {off o : Nat}
    {vec : List (List Nat)} (h : readVectorC b off = some (vec, o)) :
    2 * getVarIntLength vec.length +
      ((vec.map uint8ArrayToHexString).map
        (fun w => 2 * varIntLenOfHexLen w.length + w.length)).sum = 2 * (o - off) ∧
    off ≤ o := by
  rw [readVectorC] at h
  rcases hvi : readVarIntC b off with _ | ⟨cnt, o1⟩
  · simp [hvi] at h
  · simp only [hvi, bind, Option.bind] at h
    obtain ⟨hlen, hm, hsum⟩ := readVectorAuxC_charge hb cnt o1 o vec h
    obtain ⟨_, ho1, hl1⟩ := readVarIntC_seg hb hvi
    have hc32 := readVarIntC_lt hb hvi
    have hVlen := varIntToBytes_length hc32
    rw [hlen, hsum]
    omega

/-- Over witness stacks the canonical decoder attaches, none empty, the
size-reduction loop of `getNonWitnessSize` subtracts exactly twice the
witness byte span. -/
theorem parseWitnessListC_fold {b : List Nat} (hb : ∀ x ∈ b, x < 256) :
    ∀ (vins : List Vin) (off o : Nat) (vs : List Vin),
      parseWitnessListC b vins off = some (vs, o) →
      (∀ v ∈ vs, v.witness ≠ some []) →
      ∀ (start : Int) (flag : Bool),
        vs.foldl nwsStep (start, flag)
        = (start - 2 * ((o : Int) - (off : Int)),
            if vs.isEmpty then flag else true) := by
  intro vins
  induction vins with
  | nil =>
      intro off o vs h _ start flag
      simp only [parseWitnessListC, Option.some.injEq, Prod.mk.injEq] at h
      obtain ⟨h1, h2⟩ := h
      subst h1; subst h2
      simp [List.foldl]
  | cons v rest ih =>
      intro off o vs h hwit start flag
      rw [parseWitnessListC] at h
      rcases hv1 : readVectorC b off with _ | ⟨vec, o1⟩
      · simp [hv1] at h
      · simp only [hv1, bind, Option.bind] at h
        rcases hrest : parseWitnessListC b rest o1 with _ | ⟨rest2, o2⟩
        · simp [hrest] at h
        · simp only [hrest, bind, Option.bind, Option.some.injEq, Prod.mk.injEq] at h
          obtain ⟨h1, h2⟩ := h
          subst h1; subst h2
          obtain ⟨hcharge, hm1⟩ := readVectorC_charge hb hv1
          have hvecne : (vec.map uint8ArrayToHexString).length ≠ 0 := by
            have := hwit _ (List.mem_cons_self _ _)
            simp only [ne_eq, Option.some.injEq] at this
            simpa using fun hh => this (by simp [hh])
          rw [List.foldl_cons]
          simp only [nwsStep, eq_true hvecne, ite_true]
          rw [ih o1 o2 rest2 hrest
            (fun x hx => hwit x (List.mem_cons_of_mem _ hx)) _ true]
          have hif : (if rest2.isEmpty then true else true) = true := by
            cases rest2.isEmpty <;> rfl
          rw [hif]
          simp only [List.isEmpty_cons, Bool.false_eq_true, if_false]
          congr 1
          have hlm : (List.map uint8ArrayToHexString vec).length = vec.length :=
            List.length_map _ _
          rw [hlm]
          omega

theorem parseVinC_witness {b : List Nat} {off o : Nat} {v : Vin}
    (h : parseVinC b off = some (v, o)) : v.witness = none := by
  rw [parseVinC] at h
  rcases h1 : readSliceC b off 32 with _ | ⟨tb, o1⟩
  · simp [h1] at h
  · simp only [h1, bind, Option.bind] at h
    rcases h2 : readInt32uC b o1 with _ | ⟨vout, o2⟩
    · simp [h2] at h
    · simp only [h2, bind, Option.bind] at h
      rcases h3 : readVarSliceC b o2 with _ | ⟨ss, o3⟩
      · simp [h3] at h
      · simp only [h3, bind, Option.bind] at h
        rcases h4 : readInt32uC b o3 with _ | ⟨seqv, o4⟩
        · simp [h4] at h
        · simp only [h4, bind, Option.bind, Option.some.injEq, Prod.mk.injEq] at h
          obtain ⟨hv, _⟩ := h
          subst hv
          rfl

theorem parseVinListC_witness_none {b : List Nat} :
    ∀ (cnt off o : Nat) (vs : List Vin),
      parseVinListC b cnt off = some (vs, o) → ∀ v ∈ vs, v.witness = none := by
  intro cnt
  induction cnt with
  | zero =>
      intro off o vs h
      simp only [parseVinListC, Option.some.injEq, Prod.mk.injEq] at h
      obtain ⟨h1, _⟩ := h
      subst h1
      simp
  | succ n ih =>
      intro off o vs h
      rw [parseVinListC] at h
      rcases hv1 : parseVinC b off with _ | ⟨v1, o1⟩
      · simp [hv1] at h
      · simp only [hv1, bind, Option.bind] at h
        rcases hrest : parseVinListC b n o1 with _ | ⟨rest, o2⟩
        · simp [hrest] at h
        · simp only [hrest, bind, Option.bind, Option.some.injEq, Prod.mk.injEq] at h
          obtain ⟨h1, _⟩ := h
          subst h1
          intro v hv
          rcases List.mem_cons.mp hv with h | h
          · subst h
            exact parseVinC_witness hv1
          · exact ih o1 o2 rest hrest v h

/-- Inputs without witness fields leave the size-reduction fold alone. -/
theorem nwsStep_fold_id :
    ∀ (l : List Vin), (∀ v ∈ l, v.witness = none) →
      ∀ (acc : Int × Bool), l.foldl nwsStep acc = acc := by
  intro l
  induction l with
  | nil => intro _ acc; rfl
  | cons v rest ih =>
      intro hall acc
      rw [List.foldl_cons]
      have hw : v.witness = none := hall v (List.mem_cons_self v rest)
      have hstep : nwsStep acc v = acc := by
        rw [nwsStep, hw]
      rw [hstep]
      exact ih (fun x hx => hall x (List.mem_cons_of_mem _ hx)) acc

theorem fdiv8_exact (k : Int) : (8 * k + 7).fdiv 8 = k := by
  rw [Int.fdiv_eq_ediv _ (by norm_num)]
  omega

/-- On a canonically decoded transaction whose input list is nonempty and
whose witness stacks are all nonempty, `getNonWitnessSize` recovers the
non-witness size exactly. -/
theorem getNonWitnessSize_recovers {b : List Nat} (hb : ∀ x ∈ b, x < 256) {net : String}
    {tx : Transaction} {la : ParseLayout}
    (hC : fromBufferCparts b net = some (tx, la))
    (hne : tx.vin ≠ [])
    (hwits : ∀ v ∈ tx.vin, v.witness ≠ some []) :
    getNonWitnessSize tx =
      if la.hasWitnesses then (tx.size : Int) - (la.witEnd - la.witStart + 2)
      else (tx.size : Int) := by
  rw [fromBufferCparts] at hC
  rcases h1 : readInt32uC b 0 with _ | ⟨v32, o1⟩
  · simp [h1] at hC
  · simp only [h1, bind, Option.bind] at hC
    split at hC
    · rename_i hm2
      by_cases hW : (b.getD o1 0 = 0x00 ∧ b.getD (o1 + 1) 0 = 0x01)
      · simp only [eq_true hW, ite_true] at hC
        rcases h5 : readVarIntC b (o1 + 2) with _ | ⟨vinCount, o5⟩
        · simp [h5] at hC
        · simp only [h5, bind, Option.bind] at hC
          rcases h6 : parseVinListC b vinCount o5 with _ | ⟨vins, o6⟩
          · simp [h6] at hC
          · simp only [h6, bind, Option.bind] at hC
            rcases h7 : readVarIntC b o6 with _ | ⟨voutCount, o7⟩
            · simp [h7] at hC
            · simp only [h7, bind, Option.bind] at hC
              rcases h8 : parseVoutListC b net voutCount o7 with _ | ⟨vouts, o8⟩
              · simp [h8] at hC
              · simp only [h8, bind, Option.bind] at hC
                rcases h9 : parseWitnessListC b vins o8 with _ | ⟨vins2, o9⟩
                · simp [h9] at hC
                · simp only [h9, bind, Option.bind] at hC
                  rcases h10 : readInt32uC b o9 with _ | ⟨locktime, o10⟩
                  · simp [h10] at hC
                  · simp only [h10, bind, Option.bind] at hC
                    split at hC
                    · rename_i hlen
                      simp only [Option.some.injEq, Prod.mk.injEq] at hC
                      obtain ⟨htx, hla⟩ := hC
                      subst htx; subst hla
                      have hwits2 : ∀ v ∈ vins2, v.witness ≠ some [] := hwits
                      have hne2 : vins2 ≠ [] := hne
                      have hie : vins2.isEmpty = false := by
                        cases vins2
                        · exact absurd rfl hne2
                        · rfl
                      have hfold2 : vins2.foldl nwsStep
                          (2 * (((b.length : Int) - ((o9 : Int) - (o8 : Int) + 2)) * 3 +
                            (b.length : Int)), false)
                          = (2 * (((b.length : Int) - ((o9 : Int) - (o8 : Int) + 2)) * 3 +
                            (b.length : Int)) - 2 * ((o9 : Int) - (o8 : Int)), true) := by
                        rw [parseWitnessListC_fold hb vins o8 o9 vins2 h9 hwits2 _ false, hie]
                        simp
                      simp only [getNonWitnessSize]
                      rw [hfold2]
                      simp only []
                      rw [if_pos (by trivial), if_pos (by trivial)]
                      have harith : (2 * (((b.length : Int) - ((o9 : Int) - (o8 : Int) + 2)) * 3 +
                          (b.length : Int)) - 2 * ((o9 : Int) - (o8 : Int)) - 4 + 7)
                          = 8 * ((b.length : Int) - ((o9 : Int) - (o8 : Int) + 2)) + 7 := by
                        ring
                      rw [harith, fdiv8_exact]
                    · exact absurd hC (by simp)
      · simp only [eq_false hW, ite_false] at hC
        rcases h5 : readVarIntC b o1 with _ | ⟨vinCount, o5⟩
        · simp [h5] at hC
        · simp only [h5, bind, Option.bind] at hC
          rcases h6 : parseVinListC b vinCount o5 with _ | ⟨vins, o6⟩
          · simp [h6] at hC
          · simp only [h6, bind, Option.bind] at hC
            rcases h7 : readVarIntC b o6 with _ | ⟨voutCount, o7⟩
            · simp [h7] at hC
            · simp only [h7, bind, Option.bind] at hC
              rcases h8 : parseVoutListC b net voutCount o7 with _ | ⟨vouts, o8⟩
              · simp [h8] at hC
              · simp only [h8, bind, Option.bind] at hC
                rcases h10 : readInt32uC b o8 with _ | ⟨locktime, o10⟩
                · simp [h10] at hC
                · simp only [h10, bind, Option.bind] at hC
                  split at hC
                  · rename_i hlen
                    simp only [Option.some.injEq, Prod.mk.injEq] at hC
                    obtain ⟨htx, hla⟩ := hC
                    subst htx; subst hla
                    have hnone : ∀ v ∈ vins, v.witness = none :=
                      parseVinListC_witness_none vinCount o5 o6 vins h6
                    have hfold2 := nwsStep_fold_id vins hnone
                      (2 * (((b.length : Int) - 0) * 3 + (b.length : Int)), false)
                    simp only [getNonWitnessSize]
                    rw [hfold2]
                    simp only []
                    rw [if_neg (by simp), if_neg (by simp)]
                    have harith : (2 * (((b.length : Int) - 0) * 3 + (b.length : Int)) + 7)
                        = 8 * (b.length : Int) + 7 := by
                      ring
                    rw [harith, fdiv8_exact]
                  · exact absurd hC (by simp)
    · exact absurd hC (by simp)

/-- Every transaction the faithful parser returns satisfies the stored
size/weight relation. -/
theorem fromBufferParts_weight {b : List Nat} {net : String}
    {txidOf : Transaction → String} {tx : Transaction} {la : ParseLayout}
    (h : fromBufferParts b net txidOf = .ok (tx, la)) :
    tx.size = b.length ∧
    (la.hasWitnesses = false → tx.weight = 4 * (tx.size : Int)) ∧
    (la.hasWitnesses = true →
      tx.weight = 3 * ((tx.size : Int) - (la.witEnd - la.witStart + 2)) + tx.size) := by
  rw [fromBufferParts] at h
  rcases e1 : readInt32s b 0 with _ | ⟨version, o1⟩
  · simp [e1, bind, Except.bind] at h
  · simp only [e1, bind, Except.bind] at h
    rcases e2 : readInt8 b o1 with _ | ⟨marker, o2⟩
    · simp [e2, bind, Except.bind] at h
    · simp only [e2, bind, Except.bind] at h
      rcases e3 : readInt8 b o2 with _ | ⟨flag, o3⟩
      · simp [e3, bind, Except.bind] at h
      · simp only [e3, bind, Except.bind] at h
        by_cases hW : (marker = some 0x00 ∧ flag = some 0x01)
        · simp only [eq_true hW, ite_true] at h
          rcases e5 : readVarInt b o3 with _ | ⟨vinCount, o5⟩
          · simp [e5, bind, Except.bind] at h
          · simp only [e5, bind, Except.bind] at h
            rcases e6 : parseVinList b vinCount.toNat o5 with _ | ⟨vins, o6⟩
            · simp [e6, bind, Except.bind] at h
            · simp only [e6, bind, Except.bind] at h
              rcases e7 : readVarInt b o6 with _ | ⟨voutCount, o7⟩
              · simp [e7, bind, Except.bind] at h
              · simp only [e7, bind, Except.bind] at h
                rcases e8 : parseVoutList b net voutCount.toNat o7 with _ | ⟨vouts, o8⟩
                · simp [e8, bind, Except.bind] at h
                · simp only [e8, bind, Except.bind] at h
                  rcases e9 : parseWitnessList b vins o8 with _ | ⟨ws, o9⟩
                  · simp [e9, bind, Except.bind] at h
                  · simp only [e9, bind, Except.bind, pure, Except.pure] at h
                    rcases e10 : readInt32u b o9 with _ | ⟨locktime, o10⟩
                    · simp [e10, bind, Except.bind] at h
                    · simp only [e10, bind, Except.bind] at h
                      split at h
                      · exact absurd h (by simp)
                      · rename_i hlen
                        simp only [Except.ok.injEq, Prod.mk.injEq] at h
                        obtain ⟨htx, hla⟩ := h
                        subst htx; subst hla
                        refine ⟨rfl, ?_, ?_⟩
                        · intro habs
                          simp at habs
                        · intro _
                          show ((b.length : Int) - (o9 - o8 + 2)) * 3 + (b.length : Int)
                            = 3 * ((b.length : Int) - (o9 - o8 + 2)) + (b.length : Int)
                          ring
        · simp only [eq_false hW, ite_false] at h
          rcases e5 : readVarInt b o1 with _ | ⟨vinCount, o5⟩
          · simp [e5, bind, Except.bind] at h
          · simp only [e5, bind, Except.bind] at h
            rcases e6 : parseVinList b vinCount.toNat o5 with _ | ⟨vins, o6⟩
            · simp [e6, bind, Except.bind] at h
            · simp only [e6, bind, Except.bind] at h
              rcases e7 : readVarInt b o6 with _ | ⟨voutCount, o7⟩
              · simp [e7, bind, Except.bind] at h
              · simp only [e7, bind, Except.bind] at h
                rcases e8 : parseVoutList b net voutCount.toNat o7 with _ | ⟨vouts, o8⟩
                · simp [e8, bind, Except.bind] at h
                · simp only [e8, bind, Except.bind, pure, Except.pure] at h
                  rcases e10 : readInt32u b o8 with _ | ⟨locktime, o10⟩
                  · simp [e10, bind, Except.bind] at h
                  · simp only [e10, bind, Except.bind] at h
                    split at h
                    · exact absurd h (by simp)
                    · rename_i hlen
                      simp only [Except.ok.injEq, Prod.mk.injEq] at h
                      obtain ⟨htx, hla⟩ := h
                      subst htx; subst hla
                      refine ⟨rfl, ?_, ?_⟩
                      · intro _
                        show ((b.length : Int) - 0) * 3 + (b.length : Int)
                          = 4 * (b.length : Int)
                        ring
                      · intro habs
                        simp at habs

/-- C8 (amended): every transaction the decoder returns reports
`weight = 4 × size` when it carries no witness data and
`weight = 3 × nonWitnessSize + size` when it does, where
`nonWitnessSize` is the total size minus the witness bytes and the
two marker/flag bytes; and on canonically decoded transactions with a
nonempty input list whose witness stacks are all nonempty,
`getNonWitnessSize` recovers that non-witness size from the stored
fields.  (As frozen, the recovery claim fails when a witness stack is
empty — the loop skips it — see the counterexample.) -/
theorem decoded_weight_invariant (b : List Nat) (net : String)
    (tx : Transaction) (la : ParseLayout)
    (hb : ∀ x ∈ b, x < 256)
    (h : fromBufferParts b net txid = .ok (tx, la)) :
    tx.size = b.length ∧
    (la.hasWitnesses = false → tx.weight = 4 * (tx.size : Int)) ∧
    (la.hasWitnesses = true →
      tx.weight = 3 * ((tx.size : Int) - (la.witEnd - la.witStart + 2)) + tx.size) ∧
    (fromBufferCparts b net = some (tx, la) →
      tx.vin ≠ [] → (∀ v ∈ tx.vin, v.witness ≠ some []) →
      getNonWitnessSize tx =
        if la.hasWitnesses then (tx.size : Int) - (la.witEnd - la.witStart + 2)
        else (tx.size : Int)) := by
  obtain ⟨h1, h2, h3⟩ := fromBufferParts_weight h
  refine ⟨h1, h2, h3, ?_⟩
  intro hC hne hwits
  exact getNonWitnessSize_recovers hb hC hne hwits

/-- C8 witness: the two-item-witness transaction `rawSegwit` (size 69,
witness span 6 bytes, weight `3 × 61 + 69 = 252`). -/
theorem decoded_weight_invariant_witness :
    exTxSegwit.size = (hexStringToUint8Array rawSegwit).length ∧
    (exLaSegwit.hasWitnesses = false → exTxSegwit.weight = 4 * (exTxSegwit.size : Int)) ∧
    (exLaSegwit.hasWitnesses = true →
      exTxSegwit.weight = 3 * ((exTxSegwit.size : Int) -
        (exLaSegwit.witEnd - exLaSegwit.witStart + 2)) + exTxSegwit.size) ∧
    (fromBufferCparts (hexStringToUint8Array rawSegwit) "" = some (exTxSegwit, exLaSegwit) →
      exTxSegwit.vin ≠ [] → (∀ v ∈ exTxSegwit.vin, v.witness ≠ some []) →
      getNonWitnessSize exTxSegwit =
        if exLaSegwit.hasWitnesses then
          (exTxSegwit.size : Int) - (exLaSegwit.witEnd - exLaSegwit.witStart + 2)
        else (exTxSegwit.size : Int)) :=
  decoded_weight_invariant (hexStringToUint8Array rawSegwit) "" exTxSegwit exLaSegwit
    (by decide) (by decide)

/-- C8 counterexample: `rawEmptyWitness` decodes to a segwit transaction
of size 54 whose only witness stack is empty; its true non-witness size
is `54 - (1 + 2) = 51` (weight `3 × 51 + 54 = 207`), but
`getNonWitnessSize` skips the empty stack and reports 52 — the claimed
recovery fails. -/
theorem empty_witness_breaks_nonwitness_size :
    (decodeRawTransaction rawEmptyWitness "").map
      (fun tx => (getNonWitnessSize tx, tx.weight, (tx.size : Int))) = .ok (52, 207, 54) ∧
    (fromBufferCparts (hexStringToUint8Array rawEmptyWitness) "").map
      (fun p => (decide (getNonWitnessSize p.1 =
          (p.1.size : Int) - (p.2.witEnd - p.2.witStart + 2)),
        p.2.hasWitnesses, p.1.vin.map Vin.witness)) = some (false, true, [some []]) :=
  ⟨by decide, by decide⟩

/-! ## Or-algebra helpers for the flag classifier -/

theorem lor_self_left (a b : Nat) : a ||| (a ||| b) = a ||| b := by
  refine Nat.eq_of_testBit_eq fun i => ?_
  simp only [Nat.testBit_or]
  cases a.testBit i <;> cases b.testBit i <;> rfl

theorem lor_mask_congr {f1 f2 : Nat} (c M : Nat) (h : f1 ||| M = f2 ||| M) :
    (f1 ||| c) ||| M = (f2 ||| c) ||| M := by
  refine Nat.eq_of_testBit_eq fun i => ?_
  have hb : (f1 ||| M).testBit i = (f2 ||| M).testBit i := by rw [h]
  simp only [Nat.testBit_or] at hb ⊢
  cases hc : c.testBit i <;> cases hM : M.testBit i <;>
    cases h1 : f1.testBit i <;> cases h2 : f2.testBit i <;> simp_all

theorem lor_absorb_mask {b M : Nat} (f : Nat) (h : b ||| M = M) :
    (f ||| b) ||| M = f ||| M := by
  refine Nat.eq_of_testBit_eq fun i => ?_
  have hb : (b ||| M).testBit i = M.testBit i := by rw [h]
  simp only [Nat.testBit_or] at hb ⊢
  cases hf : f.testBit i <;> cases hbb : b.testBit i <;> cases hM : M.testBit i <;> simp_all

theorem foldl_or_factor {β : Type} (g : Nat → β → Nat) (hg : ∀ f x, g f x = f ||| g 0 x)
    (l : List β) (f : Nat) : l.foldl g f = f ||| l.foldl g 0 := by
  induction l generalizing f with
  | nil => simp
  | cons x xs ih =>
      simp only [List.foldl_cons]
      rw [ih (g f x), ih (g 0 x), hg f x, Nat.or_assoc]

/-! ## Factorization: every sighash helper only ORs bits into its flags -/

theorem setSighashFlags_factor (f : Nat) (s : String) :
    setSighashFlags f s = f ||| setSighashFlags 0 s := by
  simp only [setSighashFlags]
  repeat' split
  all_goals simp [Nat.zero_or, Nat.or_assoc]

theorem setSchnorrSighashFlags_factor (f : Nat) (w : Option (List String)) :
    setSchnorrSighashFlags f w = f ||| setSchnorrSighashFlags 0 w := by
  rcases w with _ | w
  · simp [setSchnorrSighashFlags]
  · simp only [setSchnorrSighashFlags]
    repeat' split
    all_goals try (rw [setSighashFlags_factor f, lor_self_left]; simp [Nat.zero_or])
    all_goals try (simp [Nat.zero_or]; done)
    all_goals (apply foldl_or_factor; intro fl i; repeat' split)
    all_goals try (rw [setSighashFlags_factor fl, lor_self_left]; simp [Nat.zero_or])
    all_goals simp [Nat.zero_or]

theorem setSegwitSighashFlags_factor (f : Nat) (w : List String) :
    setSegwitSighashFlags f w = f ||| setSegwitSighashFlags 0 w := by
  apply foldl_or_factor
  intro fl x
  split
  · rw [setSighashFlags_factor fl, lor_self_left]
    simp [Nat.zero_or]
  · simp

theorem setLegacySighashFlags_factor (f : Nat) (asm : List String) :
    setLegacySighashFlags f asm = f ||| setLegacySighashFlags 0 asm := by
  apply foldl_or_factor
  intro fl x
  repeat' split
  all_goals try rw [setSighashFlags_factor fl, lor_self_left]
  all_goals simp [Nat.zero_or]

theorem vinScriptFlags_factor (f : Nat) (v : Vin) :
    vinScriptFlags f v = f ||| vinScriptFlags 0 v := by
  simp only [vinScriptFlags]
  repeat' split
  all_goals simp [Nat.zero_or, Nat.or_assoc]

theorem vinSigFlags_factor (f : Nat) (v : Vin) :
    vinSigFlags f v = f ||| vinSigFlags 0 v := by
  simp only [vinSigFlags]
  repeat' split
  all_goals try rw [setSchnorrSighashFlags_factor f, lor_self_left]
  all_goals try rw [setSegwitSighashFlags_factor f, lor_self_left]
  all_goals try rw [setLegacySighashFlags_factor f, lor_self_left]
  all_goals simp [Nat.zero_or]

theorem voutTypeFlags_factor (f : Nat) (v : Vout) :
    voutTypeFlags f v = f ||| voutTypeFlags 0 v := by
  simp only [voutTypeFlags]
  repeat' split
  all_goals simp [Nat.zero_or]
/-! ## Association-object lemmas -/

theorem assoc_any_iff {α : Type} [DecidableEq α] (m : List (α × Nat)) (k : α) :
    (m.any fun p => decide (p.1 = k)) = true ↔ k ∈ m.map Prod.fst := by
  simp only [List.any_eq_true, decide_eq_true_eq, List.mem_map]

theorem assocSet_length_of_mem {α : Type} [DecidableEq α] {m : List (α × Nat)} {k : α}
    (v : Nat) (h : k ∈ m.map Prod.fst) : (assocSet m k v).length = m.length := by
  unfold assocSet
  rw [if_pos ((assoc_any_iff m k).mpr h)]
  exact List.length_map _ _

theorem assocSet_keys_of_mem {α : Type} [DecidableEq α] {m : List (α × Nat)} {k : α}
    (v : Nat) (h : k ∈ m.map Prod.fst) :
    (assocSet m k v).map Prod.fst = m.map Prod.fst := by
  unfold assocSet
  rw [if_pos ((assoc_any_iff m k).mpr h), List.map_map]
  apply List.map_congr_left
  intro p hp
  by_cases hpk : p.1 = k
  · simp [hpk]
  · simp [hpk]

theorem assocSet_of_not_mem {α : Type} [DecidableEq α] {m : List (α × Nat)} {k : α}
    (v : Nat) (h : k ∉ m.map Prod.fst) : assocSet m k v = m ++ [(k, v)] := by
  unfold assocSet
  rw [if_neg (fun hc => h ((assoc_any_iff m k).mp hc))]

/-! ## Random keys never collide with genuine value keys -/

theorem valueKey_ne_small (w : Int) (hw : w ≠ 0) (k : Int) (h0 : 0 < k) (hk : k < 2 ^ 53) :
    k ≠ valueKey w := by
  intro he
  unfold valueKey at he
  rcases lt_or_gt_of_ne hw with h | h
  · have hb : w * 2 ^ 53 ≤ -1 * 2 ^ 53 :=
      mul_le_mul_of_nonneg_right (by omega) (by positivity)
    omega
  · have hb : 1 * 2 ^ 53 ≤ w * 2 ^ 53 :=
      mul_le_mul_of_nonneg_right (by omega) (by positivity)
    omega

/-- A fresh random draw is not among the keys of a map satisfying the key
characterization. -/
theorem rng_key_fresh (rng : Nat → Nat) (B ri : Nat)
    (hg : GoodRng rng B) (hb : ri + 1 ≤ B) (m : List (Int × Nat))
    (hch : ∀ k ∈ m.map Prod.fst,
      (∃ w : Int, w ≠ 0 ∧ k = valueKey w) ∨ ∃ j, j < ri ∧ k = ((rng j : Nat) : Int)) :
    ((rng ri : Nat) : Int) ∉ m.map Prod.fst := by
  intro hmem
  obtain ⟨hr, hinj⟩ := hg
  rcases hch _ hmem with ⟨w, hw, he⟩ | ⟨j, hj, he⟩
  · have h01 := hr ri (by omega)
    exact valueKey_ne_small w hw _ (by exact_mod_cast h01.1) (by exact_mod_cast h01.2) he
  · have hcast : rng ri = rng j := by exact_mod_cast he
    have := hinj ri (by omega) j (by omega) hcast
    omega

/-! ## Parallel evolution of the value-count objects -/

theorem truthy_bump_parallel (rng1 rng2 : Nat → Nat) (ri : Nat)
    (m1 m2 : List (Int × Nat)) (hm : ParallelMaps rng1 rng2 ri m1 m2)
    (v : Int) (hv : v ≠ 0) (n1 n2 : Nat) :
    ParallelMaps rng1 rng2 ri (assocSet m1 (valueKey v) n1) (assocSet m2 (valueKey v) n2) := by
  obtain ⟨hlen, hiff, hch1, hch2⟩ := hm
  by_cases hk : valueKey v ∈ m1.map Prod.fst
  · have hk2 : valueKey v ∈ m2.map Prod.fst := (hiff v hv).mp hk
    refine ⟨?_, ?_, ?_, ?_⟩
    · rw [assocSet_length_of_mem n1 hk, assocSet_length_of_mem n2 hk2]; exact hlen
    · intro w hw
      rw [assocSet_keys_of_mem n1 hk, assocSet_keys_of_mem n2 hk2]
      exact hiff w hw
    · intro k hkk
      rw [assocSet_keys_of_mem n1 hk] at hkk
      exact hch1 k hkk
    · intro k hkk
      rw [assocSet_keys_of_mem n2 hk2] at hkk
      exact hch2 k hkk
  · have hk2 : valueKey v ∉ m2.map Prod.fst := fun hc => hk ((hiff v hv).mpr hc)
    rw [assocSet_of_not_mem n1 hk, assocSet_of_not_mem n2 hk2]
    refine ⟨?_, ?_, ?_, ?_⟩
    · simp [hlen]
    · intro w hw
      simp only [List.map_append, List.map_cons, List.map_nil, List.mem_append,
        List.mem_singleton]
      exact or_congr (hiff w hw) Iff.rfl
    · intro k hkk
      simp only [List.map_append, List.map_cons, List.map_nil, List.mem_append,
        List.mem_singleton] at hkk
      rcases hkk with hkk | hkk
      · exact hch1 k hkk
      · exact Or.inl ⟨v, hv, hkk⟩
    · intro k hkk
      simp only [List.map_append, List.map_cons, List.map_nil, List.mem_append,
        List.mem_singleton] at hkk
      rcases hkk with hkk | hkk
      · exact hch2 k hkk
      · exact Or.inl ⟨v, hv, hkk⟩

theorem falsy_bump_parallel (rng1 rng2 : Nat → Nat) (B ri : Nat)
    (hg1 : GoodRng rng1 B) (hg2 : GoodRng rng2 B) (hb : ri + 2 ≤ B)
    (m1 m2 : List (Int × Nat)) (hm : ParallelMaps rng1 rng2 ri m1 m2) (n1 n2 : Nat) :
    ParallelMaps rng1 rng2 (ri + 2)
      (assocSet m1 ((rng1 ri : Nat) : Int) n1) (assocSet m2 ((rng2 ri : Nat) : Int) n2) := by
  obtain ⟨hlen, hiff, hch1, hch2⟩ := hm
  have hf1 := rng_key_fresh rng1 B ri hg1 (by omega) m1 hch1
  have hf2 := rng_key_fresh rng2 B ri hg2 (by omega) m2 hch2
  rw [assocSet_of_not_mem n1 hf1, assocSet_of_not_mem n2 hf2]
  refine ⟨by simp [hlen], ?_, ?_, ?_⟩
  · intro w hw
    simp only [List.map_append, List.map_cons, List.map_nil, List.mem_append,
      List.mem_singleton]
    have h1 := hg1.1 ri (by omega)
    have h2 := hg2.1 ri (by omega)
    have hne1 : valueKey w ≠ ((rng1 ri : Nat) : Int) :=
      fun hc => valueKey_ne_small w hw _ (by exact_mod_cast h1.1) (by exact_mod_cast h1.2) hc.symm
    have hne2 : valueKey w ≠ ((rng2 ri : Nat) : Int) :=
      fun hc => valueKey_ne_small w hw _ (by exact_mod_cast h2.1) (by exact_mod_cast h2.2) hc.symm
    rw [or_iff_left hne1, or_iff_left hne2]
    exact hiff w hw
  · intro k hkk
    simp only [List.map_append, List.map_cons, List.map_nil, List.mem_append,
      List.mem_singleton] at hkk
    rcases hkk with hkk | hkk
    · rcases hch1 k hkk with h | ⟨j, hj, he⟩
      · exact Or.inl h
      · exact Or.inr ⟨j, by omega, he⟩
    · exact Or.inr ⟨ri, by omega, hkk⟩
  · intro k hkk
    simp only [List.map_append, List.map_cons, List.map_nil, List.mem_append,
      List.mem_singleton] at hkk
    rcases hkk with hkk | hkk
    · rcases hch2 k hkk with h | ⟨j, hj, he⟩
      · exact Or.inl h
      · exact Or.inr ⟨j, by omega, he⟩
    · exact Or.inr ⟨ri, by omega, hkk⟩

/-- Weakening the draw index of the key characterization. -/
theorem ParallelMaps.mono (rng1 rng2 : Nat → Nat) {ri ri' : Nat} (h : ri ≤ ri')
    {m1 m2 : List (Int × Nat)} (hm : ParallelMaps rng1 rng2 ri m1 m2) :
    ParallelMaps rng1 rng2 ri' m1 m2 := by
  obtain ⟨hlen, hiff, hch1, hch2⟩ := hm
  refine ⟨hlen, hiff, ?_, ?_⟩
  · intro k hk
    rcases hch1 k hk with hh | ⟨j, hj, he⟩
    · exact Or.inl hh
    · exact Or.inr ⟨j, by omega, he⟩
  · intro k hk
    rcases hch2 k hk with hh | ⟨j, hj, he⟩
    · exact Or.inl hh
    · exact Or.inr ⟨j, by omega, he⟩

theorem jsValueBump_parallel (rng1 rng2 : Nat → Nat) (B : Nat)
    (hg1 : GoodRng rng1 B) (hg2 : GoodRng rng2 B)
    (m1 m2 : List (Int × Nat)) (ri : Nat) (v : Option Int)
    (hb : ri + 2 ≤ B) (hm : ParallelMaps rng1 rng2 ri m1 m2) :
    (jsValueBump rng1 m1 ri v).2 = (jsValueBump rng2 m2 ri v).2 ∧
    ri ≤ (jsValueBump rng1 m1 ri v).2 ∧ (jsValueBump rng1 m1 ri v).2 ≤ ri + 2 ∧
    ParallelMaps rng1 rng2 (jsValueBump rng1 m1 ri v).2
      (jsValueBump rng1 m1 ri v).1 (jsValueBump rng2 m2 ri v).1 := by
  rcases v with _ | v
  · simp only [jsValueBump]
    exact ⟨by trivial, by omega, by omega,
      falsy_bump_parallel rng1 rng2 B ri hg1 hg2 hb m1 m2 hm _ _⟩
  · by_cases hv : v ≠ 0
    · simp only [jsValueBump, eq_true hv, ite_true]
      exact ⟨by trivial, by omega, by omega,
        truthy_bump_parallel rng1 rng2 ri m1 m2 hm v hv _ _⟩
    · simp only [jsValueBump, eq_false hv, ite_false]
      exact ⟨by trivial, by omega, by omega,
        falsy_bump_parallel rng1 rng2 B ri hg1 hg2 hb m1 m2 hm _ _⟩
/-! ## Component behaviour of the scan steps -/

theorem vinStep_flags_mask (rng1 rng2 : Nat → Nat) (M : Nat) (st1 st2 : VinScanState)
    (v : Vin) (hf : st1.flags ||| M = st2.flags ||| M) :
    (vinStepFlags rng1 st1 v).flags ||| M = (vinStepFlags rng2 st2 v).flags ||| M := by
  have e1 : (vinStepFlags rng1 st1 v).flags = vinSigFlags (vinScriptFlags st1.flags v) v := rfl
  have e2 : (vinStepFlags rng2 st2 v).flags = vinSigFlags (vinScriptFlags st2.flags v) v := rfl
  rw [e1, e2, vinSigFlags_factor (vinScriptFlags st1.flags v),
    vinSigFlags_factor (vinScriptFlags st2.flags v),
    vinScriptFlags_factor st1.flags, vinScriptFlags_factor st2.flags]
  exact lor_mask_congr _ _ (lor_mask_congr _ _ hf)

theorem vinStep_flags_congr (rng1 rng2 : Nat → Nat) (st1 st2 : VinScanState) (v : Vin)
    (hf : st1.flags = st2.flags) :
    (vinStepFlags rng1 st1 v).flags = (vinStepFlags rng2 st2 v).flags := by
  have e1 : (vinStepFlags rng1 st1 v).flags = vinSigFlags (vinScriptFlags st1.flags v) v := rfl
  have e2 : (vinStepFlags rng2 st2 v).flags = vinSigFlags (vinScriptFlags st2.flags v) v := rfl
  rw [e1, e2, hf]

theorem vinStep_rbf_congr (rng1 rng2 : Nat → Nat) (st1 st2 : VinScanState) (v : Vin)
    (h : st1.rbf = st2.rbf) :
    (vinStepFlags rng1 st1 v).rbf = (vinStepFlags rng2 st2 v).rbf := by
  have e1 : (vinStepFlags rng1 st1 v).rbf
      = (if v.sequence < 0xfffffffe then true else st1.rbf) := rfl
  have e2 : (vinStepFlags rng2 st2 v).rbf
      = (if v.sequence < 0xfffffffe then true else st2.rbf) := rfl
  rw [e1, e2, h]

theorem vinStep_reused_congr (rng1 rng2 : Nat → Nat) (st1 st2 : VinScanState) (v : Vin)
    (h : st1.reusedInputAddresses = st2.reusedInputAddresses) :
    (vinStepFlags rng1 st1 v).reusedInputAddresses
      = (vinStepFlags rng2 st2 v).reusedInputAddresses := by
  simp only [vinStepFlags]
  rw [h]

theorem vinStep_inValues_congr (rng : Nat → Nat) (st1 st2 : VinScanState) (v : Vin)
    (hiv : st1.inValues = st2.inValues) (hri : st1.ri = st2.ri) :
    (vinStepFlags rng st1 v).inValues = (vinStepFlags rng st2 v).inValues ∧
    (vinStepFlags rng st1 v).ri = (vinStepFlags rng st2 v).ri := by
  have e1 : (vinStepFlags rng st1 v).inValues
      = (jsValueBump rng st1.inValues st1.ri (v.prevout.map (·.value))).1 := rfl
  have e2 : (vinStepFlags rng st2 v).inValues
      = (jsValueBump rng st2.inValues st2.ri (v.prevout.map (·.value))).1 := rfl
  have e3 : (vinStepFlags rng st1 v).ri
      = (jsValueBump rng st1.inValues st1.ri (v.prevout.map (·.value))).2 := rfl
  have e4 : (vinStepFlags rng st2 v).ri
      = (jsValueBump rng st2.inValues st2.ri (v.prevout.map (·.value))).2 := rfl
  rw [e1, e2, e3, e4, hiv, hri]
  exact ⟨rfl, rfl⟩

theorem voutOlga_flags_mask (M f1 f2 cnt0 olga0 : Nat) (v : Vout)
    (hf : f1 ||| M = f2 ||| M) :
    (voutOlga f1 cnt0 olga0 v).2.2 ||| M = (voutOlga f2 cnt0 olga0 v).2.2 ||| M := by
  simp only [voutOlga]
  repeat' split
  all_goals try exact lor_mask_congr _ _ hf
  all_goals exact hf

theorem voutOlga_cnt_olga (f1 f2 cnt0 olga0 : Nat) (v : Vout) :
    (voutOlga f1 cnt0 olga0 v).1 = (voutOlga f2 cnt0 olga0 v).1 ∧
    (voutOlga f1 cnt0 olga0 v).2.1 = (voutOlga f2 cnt0 olga0 v).2.1 := by
  simp only [voutOlga]
  repeat' split
  all_goals exact ⟨rfl, rfl⟩

theorem voutStep_flags_mask (rng1 rng2 : Nat → Nat) (M : Nat) (st1 st2 : VoutScanState)
    (v : Vout) (hf : st1.flags ||| M = st2.flags ||| M)
    (hcnt : st1.p2wshCount = st2.p2wshCount) (holga : st1.olgaSize = st2.olgaSize) :
    (voutStepFlags rng1 st1 v).flags ||| M = (voutStepFlags rng2 st2 v).flags ||| M := by
  have e1 : (voutStepFlags rng1 st1 v).flags
      = (voutOlga (voutTypeFlags st1.flags v) st1.p2wshCount st1.olgaSize v).2.2 := rfl
  have e2 : (voutStepFlags rng2 st2 v).flags
      = (voutOlga (voutTypeFlags st2.flags v) st2.p2wshCount st2.olgaSize v).2.2 := rfl
  rw [e1, e2, hcnt, holga]
  apply voutOlga_flags_mask
  rw [voutTypeFlags_factor st1.flags, voutTypeFlags_factor st2.flags]
  exact lor_mask_congr _ _ hf

theorem voutStep_flags_congr (rng1 rng2 : Nat → Nat) (st1 st2 : VoutScanState) (v : Vout)
    (hf : st1.flags = st2.flags) (hcnt : st1.p2wshCount = st2.p2wshCount)
    (holga : st1.olgaSize = st2.olgaSize) :
    (voutStepFlags rng1 st1 v).flags = (voutStepFlags rng2 st2 v).flags := by
  have e1 : (voutStepFlags rng1 st1 v).flags
      = (voutOlga (voutTypeFlags st1.flags v) st1.p2wshCount st1.olgaSize v).2.2 := rfl
  have e2 : (voutStepFlags rng2 st2 v).flags
      = (voutOlga (voutTypeFlags st2.flags v) st2.p2wshCount st2.olgaSize v).2.2 := rfl
  rw [e1, e2, hf, hcnt, holga]

theorem voutStep_cnt_olga_congr (rng1 rng2 : Nat → Nat) (st1 st2 : VoutScanState) (v : Vout)
    (hcnt : st1.p2wshCount = st2.p2wshCount) (holga : st1.olgaSize = st2.olgaSize) :
    (voutStepFlags rng1 st1 v).p2wshCount = (voutStepFlags rng2 st2 v).p2wshCount ∧
    (voutStepFlags rng1 st1 v).olgaSize = (voutStepFlags rng2 st2 v).olgaSize := by
  have e1 : (voutStepFlags rng1 st1 v).p2wshCount
      = (voutOlga (voutTypeFlags st1.flags v) st1.p2wshCount st1.olgaSize v).1 := rfl
  have e2 : (voutStepFlags rng2 st2 v).p2wshCount
      = (voutOlga (voutTypeFlags st2.flags v) st2.p2wshCount st2.olgaSize v).1 := rfl
  have e3 : (voutStepFlags rng1 st1 v).olgaSize
      = (voutOlga (voutTypeFlags st1.flags v) st1.p2wshCount st1.olgaSize v).2.1 := rfl
  have e4 : (voutStepFlags rng2 st2 v).olgaSize
      = (voutOlga (voutTypeFlags st2.flags v) st2.p2wshCount st2.olgaSize v).2.1 := rfl
  rw [e1, e2, e3, e4, hcnt, holga]
  exact voutOlga_cnt_olga _ _ _ _ v

theorem voutStep_fake_congr (rng1 rng2 : Nat → Nat) (st1 st2 : VoutScanState) (v : Vout)
    (h : st1.hasFakePubkey = st2.hasFakePubkey) :
    (voutStepFlags rng1 st1 v).hasFakePubkey = (voutStepFlags rng2 st2 v).hasFakePubkey := by
  have e1 : (voutStepFlags rng1 st1 v).hasFakePubkey = voutFakePubkey st1.hasFakePubkey v := rfl
  have e2 : (voutStepFlags rng2 st2 v).hasFakePubkey = voutFakePubkey st2.hasFakePubkey v := rfl
  rw [e1, e2, h]

theorem voutStep_reused_congr (rng1 rng2 : Nat → Nat) (st1 st2 : VoutScanState) (v : Vout)
    (h : st1.reusedOutputAddresses = st2.reusedOutputAddresses) :
    (voutStepFlags rng1 st1 v).reusedOutputAddresses
      = (voutStepFlags rng2 st2 v).reusedOutputAddresses := by
  simp only [voutStepFlags]
  rw [h]

theorem voutStep_outValues_congr (rng : Nat → Nat) (st1 st2 : VoutScanState) (v : Vout)
    (hov : st1.outValues = st2.outValues) (hri : st1.ri = st2.ri) :
    (voutStepFlags rng st1 v).outValues = (voutStepFlags rng st2 v).outValues ∧
    (voutStepFlags rng st1 v).ri = (voutStepFlags rng st2 v).ri := by
  have e1 : (voutStepFlags rng st1 v).outValues
      = (jsValueBump rng st1.outValues st1.ri (some v.value)).1 := rfl
  have e2 : (voutStepFlags rng st2 v).outValues
      = (jsValueBump rng st2.outValues st2.ri (some v.value)).1 := rfl
  have e3 : (voutStepFlags rng st1 v).ri
      = (jsValueBump rng st1.outValues st1.ri (some v.value)).2 := rfl
  have e4 : (voutStepFlags rng st2 v).ri
      = (jsValueBump rng st2.outValues st2.ri (some v.value)).2 := rfl
  rw [e1, e2, e3, e4, hov, hri]
  exact ⟨rfl, rfl⟩

/-! ## Same-stream folds: only the masked flag bits can differ -/

theorem vinFold_mask (rng : Nat → Nat) (M : Nat) (l : List Vin) (st1 st2 : VinScanState)
    (hf : st1.flags ||| M = st2.flags ||| M) (hr : st1.rbf = st2.rbf)
    (hra : st1.reusedInputAddresses = st2.reusedInputAddresses)
    (hiv : st1.inValues = st2.inValues) (hri : st1.ri = st2.ri) :
    (l.foldl (vinStepFlags rng) st1).flags ||| M
      = (l.foldl (vinStepFlags rng) st2).flags ||| M ∧
    (l.foldl (vinStepFlags rng) st1).rbf = (l.foldl (vinStepFlags rng) st2).rbf ∧
    (l.foldl (vinStepFlags rng) st1).reusedInputAddresses
      = (l.foldl (vinStepFlags rng) st2).reusedInputAddresses ∧
    (l.foldl (vinStepFlags rng) st1).inValues = (l.foldl (vinStepFlags rng) st2).inValues ∧
    (l.foldl (vinStepFlags rng) st1).ri = (l.foldl (vinStepFlags rng) st2).ri := by
  induction l generalizing st1 st2 with
  | nil => exact ⟨hf, hr, hra, hiv, hri⟩
  | cons x xs ih =>
      simp only [List.foldl_cons]
      exact ih (vinStepFlags rng st1 x) (vinStepFlags rng st2 x)
        (vinStep_flags_mask rng rng M st1 st2 x hf)
        (vinStep_rbf_congr rng rng st1 st2 x hr)
        (vinStep_reused_congr rng rng st1 st2 x hra)
        (vinStep_inValues_congr rng st1 st2 x hiv hri).1
        (vinStep_inValues_congr rng st1 st2 x hiv hri).2

theorem voutFold_mask (rng : Nat → Nat) (M : Nat) (l : List Vout) (st1 st2 : VoutScanState)
    (hf : st1.flags ||| M = st2.flags ||| M) (hp : st1.hasFakePubkey = st2.hasFakePubkey)
    (hra : st1.reusedOutputAddresses = st2.reusedOutputAddresses)
    (hov : st1.outValues = st2.outValues) (hcnt : st1.p2wshCount = st2.p2wshCount)
    (holga : st1.olgaSize = st2.olgaSize) (hri : st1.ri = st2.ri) :
    (l.foldl (voutStepFlags rng) st1).flags ||| M
      = (l.foldl (voutStepFlags rng) st2).flags ||| M ∧
    (l.foldl (voutStepFlags rng) st1).hasFakePubkey
      = (l.foldl (voutStepFlags rng) st2).hasFakePubkey ∧
    (l.foldl (voutStepFlags rng) st1).reusedOutputAddresses
      = (l.foldl (voutStepFlags rng) st2).reusedOutputAddresses ∧
    (l.foldl (voutStepFlags rng) st1).outValues = (l.foldl (voutStepFlags rng) st2).outValues ∧
    (l.foldl (voutStepFlags rng) st1).p2wshCount
      = (l.foldl (voutStepFlags rng) st2).p2wshCount ∧
    (l.foldl (voutStepFlags rng) st1).olgaSize = (l.foldl (voutStepFlags rng) st2).olgaSize ∧
    (l.foldl (voutStepFlags rng) st1).ri = (l.foldl (voutStepFlags rng) st2).ri := by
  induction l generalizing st1 st2 with
  | nil => exact ⟨hf, hp, hra, hov, hcnt, holga, hri⟩
  | cons x xs ih =>
      simp only [List.foldl_cons]
      exact ih (voutStepFlags rng st1 x) (voutStepFlags rng st2 x)
        (voutStep_flags_mask rng rng M st1 st2 x hf hcnt holga)
        (voutStep_fake_congr rng rng st1 st2 x hp)
        (voutStep_reused_congr rng rng st1 st2 x hra)
        (voutStep_outValues_congr rng st1 st2 x hov hri).1
        (voutStep_cnt_olga_congr rng rng st1 st2 x hcnt holga).1
        (voutStep_cnt_olga_congr rng rng st1 st2 x hcnt holga).2
        (voutStep_outValues_congr rng st1 st2 x hov hri).2
/-! ## Parallel folds over two well-behaved streams -/

theorem vinFold_parallel (rng1 rng2 : Nat → Nat) (B : Nat)
    (hg1 : GoodRng rng1 B) (hg2 : GoodRng rng2 B) (l : List Vin)
    (st1 st2 : VinScanState)
    (hf : st1.flags = st2.flags) (hr : st1.rbf = st2.rbf)
    (hra : st1.reusedInputAddresses = st2.reusedInputAddresses)
    (hri : st1.ri = st2.ri)
    (hm : ParallelMaps rng1 rng2 st1.ri st1.inValues st2.inValues)
    (hb : st1.ri + 2 * l.length ≤ B) :
    (l.foldl (vinStepFlags rng1) st1).flags = (l.foldl (vinStepFlags rng2) st2).flags ∧
    (l.foldl (vinStepFlags rng1) st1).rbf = (l.foldl (vinStepFlags rng2) st2).rbf ∧
    (l.foldl (vinStepFlags rng1) st1).reusedInputAddresses
      = (l.foldl (vinStepFlags rng2) st2).reusedInputAddresses ∧
    (l.foldl (vinStepFlags rng1) st1).ri = (l.foldl (vinStepFlags rng2) st2).ri ∧
    ParallelMaps rng1 rng2 (l.foldl (vinStepFlags rng1) st1).ri
      (l.foldl (vinStepFlags rng1) st1).inValues
      (l.foldl (vinStepFlags rng2) st2).inValues ∧
    (l.foldl (vinStepFlags rng1) st1).ri ≤ st1.ri + 2 * l.length := by
  induction l generalizing st1 st2 with
  | nil =>
      simp only [List.foldl_nil]
      exact ⟨hf, hr, hra, hri, hm, by omega⟩
  | cons x xs ih =>
      simp only [List.foldl_cons]
      have hj := jsValueBump_parallel rng1 rng2 B hg1 hg2 st1.inValues st2.inValues st1.ri
        (x.prevout.map (·.value)) (by simp at hb; omega) hm
      have e1 : (vinStepFlags rng1 st1 x).inValues
          = (jsValueBump rng1 st1.inValues st1.ri (x.prevout.map (·.value))).1 := rfl
      have e2 : (vinStepFlags rng2 st2 x).inValues
          = (jsValueBump rng2 st2.inValues st2.ri (x.prevout.map (·.value))).1 := rfl
      have e3 : (vinStepFlags rng1 st1 x).ri
          = (jsValueBump rng1 st1.inValues st1.ri (x.prevout.map (·.value))).2 := rfl
      have e4 : (vinStepFlags rng2 st2 x).ri
          = (jsValueBump rng2 st2.inValues st2.ri (x.prevout.map (·.value))).2 := rfl
      have hri' : (vinStepFlags rng1 st1 x).ri = (vinStepFlags rng2 st2 x).ri := by
        rw [e3, e4, ← hri]
        exact hj.1
      have hm' : ParallelMaps rng1 rng2 (vinStepFlags rng1 st1 x).ri
          (vinStepFlags rng1 st1 x).inValues (vinStepFlags rng2 st2 x).inValues := by
        rw [e1, e2, e3, ← hri]
        exact hj.2.2.2
      have hstep : (vinStepFlags rng1 st1 x).ri ≤ st1.ri + 2 := by
        rw [e3]
        exact hj.2.2.1
      have hres := ih (vinStepFlags rng1 st1 x) (vinStepFlags rng2 st2 x)
        (vinStep_flags_congr rng1 rng2 st1 st2 x hf)
        (vinStep_rbf_congr rng1 rng2 st1 st2 x hr)
        (vinStep_reused_congr rng1 rng2 st1 st2 x hra)
        hri' hm' (by simp at hb ⊢; omega)
      refine ⟨hres.1, hres.2.1, hres.2.2.1, hres.2.2.2.1, hres.2.2.2.2.1, ?_⟩
      have := hres.2.2.2.2.2
      simp at hb ⊢
      omega

theorem voutFold_parallel (rng1 rng2 : Nat → Nat) (B : Nat)
    (hg1 : GoodRng rng1 B) (hg2 : GoodRng rng2 B) (l : List Vout)
    (st1 st2 : VoutScanState)
    (hf : st1.flags = st2.flags) (hp : st1.hasFakePubkey = st2.hasFakePubkey)
    (hra : st1.reusedOutputAddresses = st2.reusedOutputAddresses)
    (hcnt : st1.p2wshCount = st2.p2wshCount) (holga : st1.olgaSize = st2.olgaSize)
    (hri : st1.ri = st2.ri)
    (hm : ParallelMaps rng1 rng2 st1.ri st1.outValues st2.outValues)
    (hb : st1.ri + 2 * l.length ≤ B) :
    (l.foldl (voutStepFlags rng1) st1).flags = (l.foldl (voutStepFlags rng2) st2).flags ∧
    (l.foldl (voutStepFlags rng1) st1).hasFakePubkey
      = (l.foldl (voutStepFlags rng2) st2).hasFakePubkey ∧
    (l.foldl (voutStepFlags rng1) st1).reusedOutputAddresses
      = (l.foldl (voutStepFlags rng2) st2).reusedOutputAddresses ∧
    (l.foldl (voutStepFlags rng1) st1).p2wshCount
      = (l.foldl (voutStepFlags rng2) st2).p2wshCount ∧
    (l.foldl (voutStepFlags rng1) st1).olgaSize
      = (l.foldl (voutStepFlags rng2) st2).olgaSize ∧
    (l.foldl (voutStepFlags rng1) st1).ri = (l.foldl (voutStepFlags rng2) st2).ri ∧
    ParallelMaps rng1 rng2 (l.foldl (voutStepFlags rng1) st1).ri
      (l.foldl (voutStepFlags rng1) st1).outValues
      (l.foldl (voutStepFlags rng2) st2).outValues ∧
    (l.foldl (voutStepFlags rng1) st1).ri ≤ st1.ri + 2 * l.length := by
  induction l generalizing st1 st2 with
  | nil =>
      simp only [List.foldl_nil]
      exact ⟨hf, hp, hra, hcnt, holga, hri, hm, by omega⟩
  | cons x xs ih =>
      simp only [List.foldl_cons]
      have hj := jsValueBump_parallel rng1 rng2 B hg1 hg2 st1.outValues st2.outValues st1.ri
        (some x.value) (by simp at hb; omega) hm
      have e1 : (voutStepFlags rng1 st1 x).outValues
          = (jsValueBump rng1 st1.outValues st1.ri (some x.value)).1 := rfl
      have e2 : (voutStepFlags rng2 st2 x).outValues
          = (jsValueBump rng2 st2.outValues st2.ri (some x.value)).1 := rfl
      have e3 : (voutStepFlags rng1 st1 x).ri
          = (jsValueBump rng1 st1.outValues st1.ri (some x.value)).2 := rfl
      have e4 : (voutStepFlags rng2 st2 x).ri
          = (jsValueBump rng2 st2.outValues st2.ri (some x.value)).2 := rfl
      have hri' : (voutStepFlags rng1 st1 x).ri = (voutStepFlags rng2 st2 x).ri := by
        rw [e3, e4, ← hri]
        exact hj.1
      have hm' : ParallelMaps rng1 rng2 (voutStepFlags rng1 st1 x).ri
          (voutStepFlags rng1 st1 x).outValues (voutStepFlags rng2 st2 x).outValues := by
        rw [e1, e2, e3, ← hri]
        exact hj.2.2.2
      have hstep : (voutStepFlags rng1 st1 x).ri ≤ st1.ri + 2 := by
        rw [e3]
        exact hj.2.2.1
      have hres := ih (voutStepFlags rng1 st1 x) (voutStepFlags rng2 st2 x)
        (voutStep_flags_congr rng1 rng2 st1 st2 x hf hcnt holga)
        (voutStep_fake_congr rng1 rng2 st1 st2 x hp)
        (voutStep_reused_congr rng1 rng2 st1 st2 x hra)
        (voutStep_cnt_olga_congr rng1 rng2 st1 st2 x hcnt holga).1
        (voutStep_cnt_olga_congr rng1 rng2 st1 st2 x hcnt holga).2
        hri' hm' (by simp at hb ⊢; omega)
      refine ⟨hres.1, hres.2.1, hres.2.2.1, hres.2.2.2.1, hres.2.2.2.2.1,
        hres.2.2.2.2.2.1, hres.2.2.2.2.2.2.1, ?_⟩
      have := hres.2.2.2.2.2.2.2
      simp at hb ⊢
      omega
/-! ## Scan-level lemmas -/

theorem ite_mask_congr (c : Prop) [Decidable c] (x1 x2 b M : Nat) (h : x1 ||| M = x2 ||| M) :
    (if c then x1 ||| b else x1) ||| M = (if c then x2 ||| b else x2) ||| M := by
  split
  · exact lor_mask_congr _ _ h
  · exact h

theorem vinScan_mask (rng : Nat → Nat) (M : Nat) (tx : Transaction) (f1 f2 : Nat)
    (hf : f1 ||| M = f2 ||| M) :
    (vinScan rng tx f1).flags ||| M = (vinScan rng tx f2).flags ||| M ∧
    (vinScan rng tx f1).rbf = (vinScan rng tx f2).rbf ∧
    (vinScan rng tx f1).reusedInputAddresses = (vinScan rng tx f2).reusedInputAddresses ∧
    (vinScan rng tx f1).inValues = (vinScan rng tx f2).inValues ∧
    (vinScan rng tx f1).ri = (vinScan rng tx f2).ri := by
  unfold vinScan
  exact vinFold_mask rng M tx.vin ⟨f1, false, [], [], 0⟩ ⟨f2, false, [], [], 0⟩ hf rfl rfl rfl rfl

theorem voutScan_mask (rng : Nat → Nat) (M : Nat) (tx : Transaction) (f1 f2 ri : Nat)
    (hf : f1 ||| M = f2 ||| M) :
    (voutScan rng tx f1 ri).flags ||| M = (voutScan rng tx f2 ri).flags ||| M ∧
    (voutScan rng tx f1 ri).hasFakePubkey = (voutScan rng tx f2 ri).hasFakePubkey ∧
    (voutScan rng tx f1 ri).reusedOutputAddresses
      = (voutScan rng tx f2 ri).reusedOutputAddresses ∧
    (voutScan rng tx f1 ri).outValues = (voutScan rng tx f2 ri).outValues := by
  unfold voutScan
  have h := voutFold_mask rng M tx.vout ⟨f1, false, [], [], 0, 0, ri⟩ ⟨f2, false, [], [], 0, 0, ri⟩
    hf rfl rfl rfl rfl rfl rfl
  exact ⟨h.1, h.2.1, h.2.2.1, h.2.2.2.1⟩

theorem trivialParallelMaps (rng1 rng2 : Nat → Nat) (r : Nat) :
    ParallelMaps rng1 rng2 r [] [] := by
  refine ⟨rfl, fun w hw => Iff.rfl, ?_, ?_⟩
  · intro k hk
    simp at hk
  · intro k hk
    simp at hk

theorem vinScan_parallel (rng1 rng2 : Nat → Nat) (tx : Transaction) (fl : Nat)
    (hg1 : GoodRng rng1 (usedBound tx)) (hg2 : GoodRng rng2 (usedBound tx)) :
    (vinScan rng1 tx fl).flags = (vinScan rng2 tx fl).flags ∧
    (vinScan rng1 tx fl).rbf = (vinScan rng2 tx fl).rbf ∧
    (vinScan rng1 tx fl).reusedInputAddresses = (vinScan rng2 tx fl).reusedInputAddresses ∧
    (vinScan rng1 tx fl).ri = (vinScan rng2 tx fl).ri ∧
    (vinScan rng1 tx fl).inValues.length = (vinScan rng2 tx fl).inValues.length ∧
    (vinScan rng1 tx fl).ri ≤ 2 * tx.vin.length := by
  unfold vinScan
  have h := vinFold_parallel rng1 rng2 (usedBound tx) hg1 hg2 tx.vin
    ⟨fl, false, [], [], 0⟩ ⟨fl, false, [], [], 0⟩ rfl rfl rfl rfl
    (trivialParallelMaps rng1 rng2 0)
    (by simp only [usedBound]; omega)
  refine ⟨h.1, h.2.1, h.2.2.1, h.2.2.2.1, h.2.2.2.2.1.1, ?_⟩
  have hb := h.2.2.2.2.2
  simpa using hb

theorem voutScan_parallel (rng1 rng2 : Nat → Nat) (tx : Transaction) (fl ri : Nat)
    (hg1 : GoodRng rng1 (usedBound tx)) (hg2 : GoodRng rng2 (usedBound tx))
    (hb : ri + 2 * tx.vout.length ≤ usedBound tx) :
    (voutScan rng1 tx fl ri).flags = (voutScan rng2 tx fl ri).flags ∧
    (voutScan rng1 tx fl ri).hasFakePubkey = (voutScan rng2 tx fl ri).hasFakePubkey ∧
    (voutScan rng1 tx fl ri).reusedOutputAddresses
      = (voutScan rng2 tx fl ri).reusedOutputAddresses ∧
    (voutScan rng1 tx fl ri).outValues.length = (voutScan rng2 tx fl ri).outValues.length := by
  unfold voutScan
  have h := voutFold_parallel rng1 rng2 (usedBound tx) hg1 hg2 tx.vout
    ⟨fl, false, [], [], 0, 0, ri⟩ ⟨fl, false, [], [], 0, 0, ri⟩ rfl rfl rfl rfl rfl rfl
    (trivialParallelMaps rng1 rng2 ri)
    (by simpa using hb)
  exact ⟨h.1, h.2.1, h.2.2.1, h.2.2.2.2.2.2.1.1⟩

/-! ## The main body: determinism across streams, masked congruence in the
initial flags -/

theorem getFlagsMain_parallel (rng1 rng2 : Nat → Nat) (tx : Transaction)
    (height : Option Int) (network : Option String) (fl : Nat)
    (hg1 : GoodRng rng1 (usedBound tx)) (hg2 : GoodRng rng2 (usedBound tx)) :
    getFlagsMain rng1 tx height network fl = getFlagsMain rng2 tx height network fl := by
  obtain ⟨gf, gr, gra, gri, glen, gb⟩ :=
    vinScan_parallel rng1 rng2 tx (versionFlags fl tx) hg1 hg2
  simp only [getFlagsMain]
  rw [gf, gr, gra, gri, glen]
  obtain ⟨vf, vp, vra, vlen⟩ := voutScan_parallel rng1 rng2 tx
    (if (vinScan rng2 tx (versionFlags fl tx)).rbf then
      (vinScan rng2 tx (versionFlags fl tx)).flags ||| TransactionFlags.rbf
     else (vinScan rng2 tx (versionFlags fl tx)).flags ||| TransactionFlags.no_rbf)
    (vinScan rng2 tx (versionFlags fl tx)).ri hg1 hg2
    (by simp only [usedBound]; rw [← gri]; omega)
  rw [vf, vp, vra, vlen]

theorem getFlagsMain_mask (rng : Nat → Nat) (tx : Transaction) (height : Option Int)
    (network : Option String) (M fl1 fl2 : Nat) (hf : fl1 ||| M = fl2 ||| M) :
    getFlagsMain rng tx height network fl1 ||| M
      = getFlagsMain rng tx height network fl2 ||| M := by
  have hv : versionFlags fl1 tx ||| M = versionFlags fl2 tx ||| M := by
    simp only [versionFlags]
    repeat' split
    all_goals first
      | exact hf
      | exact lor_mask_congr _ _ hf
  obtain ⟨hm1, hr1, hra1, hiv1, hri1⟩ :=
    vinScan_mask rng M tx (versionFlags fl1 tx) (versionFlags fl2 tx) hv
  simp only [getFlagsMain]
  rw [hr1, hra1, hiv1, hri1]
  have h2 : (if (vinScan rng tx (versionFlags fl2 tx)).rbf then
        (vinScan rng tx (versionFlags fl1 tx)).flags ||| TransactionFlags.rbf
      else (vinScan rng tx (versionFlags fl1 tx)).flags ||| TransactionFlags.no_rbf) ||| M
      = (if (vinScan rng tx (versionFlags fl2 tx)).rbf then
        (vinScan rng tx (versionFlags fl2 tx)).flags ||| TransactionFlags.rbf
      else (vinScan rng tx (versionFlags fl2 tx)).flags ||| TransactionFlags.no_rbf) ||| M := by
    split <;> exact lor_mask_congr _ _ hm1
  obtain ⟨vm, vp, vra, vov⟩ := voutScan_mask rng M tx _ _
    (vinScan rng tx (versionFlags fl2 tx)).ri h2
  rw [vp, vra, vov]
  exact ite_mask_congr _ _ _ _ _ (ite_mask_congr _ _ _ _ _ (ite_mask_congr _ _ _ _ _
    (ite_mask_congr _ _ _ _ _ (ite_mask_congr _ _ _ _ _ vm))))

/-! ## The CPFP / replacement stage only touches masked bits -/

theorem cpfpFlags_mask (b : Nat) (cp : Option CpfpInfo) :
    cpfpFlags b cp ||| variableFlagsMask = b ||| variableFlagsMask := by
  have hc : TransactionFlags.cpfp_child ||| variableFlagsMask = variableFlagsMask := by decide
  have hp : TransactionFlags.cpfp_parent ||| variableFlagsMask = variableFlagsMask := by decide
  rcases cp with _ | c
  · rfl
  · simp only [cpfpFlags]
    repeat' split
    all_goals try rw [lor_absorb_mask _ hp]
    all_goals try rw [lor_absorb_mask _ hc]
    all_goals rfl

theorem replFlags_mask (b : Nat) (r : Option Bool) :
    (if r.getD false then b ||| TransactionFlags.replacement else b) ||| variableFlagsMask
      = b ||| variableFlagsMask := by
  have hr : TransactionFlags.replacement ||| variableFlagsMask = variableFlagsMask := by decide
  split
  · exact lor_absorb_mask _ hr
  · rfl

theorem getTransactionFlags_mask_cpr (rng : Nat → Nat) (tx : Transaction)
    (cp1 cp2 : Option CpfpInfo) (r1 r2 : Option Bool)
    (height : Option Int) (network : Option String) :
    getTransactionFlags rng tx cp1 r1 height network ||| variableFlagsMask
      = getTransactionFlags rng tx cp2 r2 height network ||| variableFlagsMask := by
  simp only [getTransactionFlags]
  split
  · exact ((replFlags_mask _ r1).trans (cpfpFlags_mask _ cp1)).trans
      (((replFlags_mask _ r2).trans (cpfpFlags_mask _ cp2)).symm)
  · apply getFlagsMain_mask
    exact ((replFlags_mask _ r1).trans (cpfpFlags_mask _ cp1)).trans
      (((replFlags_mask _ r2).trans (cpfpFlags_mask _ cp2)).symm)

theorem getTransactionFlags_parallel (rng1 rng2 : Nat → Nat) (tx : Transaction)
    (cp : Option CpfpInfo) (r : Option Bool) (height : Option Int) (network : Option String)
    (hg1 : GoodRng rng1 (usedBound tx)) (hg2 : GoodRng rng2 (usedBound tx)) :
    getTransactionFlags rng1 tx cp r height network
      = getTransactionFlags rng2 tx cp r height network := by
  simp only [getTransactionFlags]
  split
  · rfl
  · exact getFlagsMain_parallel rng1 rng2 tx height network _ hg1 hg2
/-- **C9** — corrected.  For a fixed transaction and static context, two
invocations of `getTransactionFlags` over well-behaved `Math.random()`
streams (in range and collision-free on the indices the run can touch)
agree on every bit outside the CPFP/replacement mask, and agree exactly
when the `cpfpInfo` and `replacement` arguments also coincide.  The
claim's unconditional form is false: the coinjoin bit depends on the
random keys whenever draws collide (see the counterexample). -/
theorem flags_static_bits (rng1 rng2 : Nat → Nat) (tx : Transaction)
    (cp1 cp2 : Option CpfpInfo) (r1 r2 : Option Bool)
    (height : Option Int) (network : Option String)
    (hg1 : GoodRng rng1 (usedBound tx)) (hg2 : GoodRng rng2 (usedBound tx)) :
    (getTransactionFlags rng1 tx cp1 r1 height network ||| variableFlagsMask
      = getTransactionFlags rng2 tx cp2 r2 height network ||| variableFlagsMask)
    ∧ (cp1 = cp2 → r1 = r2 →
      getTransactionFlags rng1 tx cp1 r1 height network
        = getTransactionFlags rng2 tx cp2 r2 height network) := by
  constructor
  · have h1 := getTransactionFlags_mask_cpr rng1 tx cp1 cp2 r1 r2 height network
    have h2 := getTransactionFlags_parallel rng1 rng2 tx cp2 r2 height network hg1 hg2
    rw [h1, h2]
  · intro hc hr
    rw [hc, hr]
    exact getTransactionFlags_parallel rng1 rng2 tx cp2 r2 height network hg1 hg2

/-- Witness for **C9**: a run with CPFP/replacement data and a run
without, over the collision-free stream, agree outside the mask on the
random-sensitive example transaction. -/
theorem flags_static_bits_witness :
    getTransactionFlags rngDistinct exTxRandomSensitive (some ⟨["aa"], none⟩) (some true)
        none none ||| variableFlagsMask
      = getTransactionFlags rngDistinct exTxRandomSensitive none none none none |||
        variableFlagsMask :=
  (flags_static_bits rngDistinct rngDistinct exTxRandomSensitive
    (some ⟨["aa"], none⟩) none (some true) none none none
    (by unfold GoodRng; exact ⟨by decide, by decide⟩)
    (by unfold GoodRng; exact ⟨by decide, by decide⟩)).1

/-- Counterexample to **C9** as stated: on a five-in five-out transaction
whose inputs all have value `0`, a stream whose draws all collide sets the
coinjoin bit — a static bit — while a collision-free stream leaves it
clear, even though every draw of both streams is a value `Math.random()`
can produce. -/
theorem flags_random_collision :
    getTransactionFlags rngConstant exTxRandomSensitive none none none none &&&
        TransactionFlags.coinjoin ≠ 0
    ∧ getTransactionFlags rngDistinct exTxRandomSensitive none none none none &&&
        TransactionFlags.coinjoin = 0
    ∧ (∀ i : Nat, 0 < rngConstant i ∧ rngConstant i < 2 ^ 53) :=
  ⟨by decide, by decide, fun i => by constructor <;> norm_num [rngConstant]⟩

end TxUtils
